import Mathlib

/-!
# Verification development for `overflow`

A shallow embedding of `arguments.go` (`prepareOverflowArgument`), of `transaction.go`
(`CreateOverflowTransaction`, `GetOverflowTransactionsForBlockId`, `StreamTransactions`,
`GetAddressImports`, `Import.Identifier`) and of `v3/transactions.go` (`Args`),
together with theorems about them.

Conventions of the embedding:
* a Go `map[string]V` is a `GoMap V`: a list of entries with pairwise distinct keys;
  the order of the list is the order in which a `range` loop visits the entries
  (Go leaves that order unspecified, so theorems quantify over every order);
* a Go `(T, error)` result is an `Except String T`, the string being the error message;
* collaborators that live outside the embedded files (event decoding, source parsing,
  value conversion, the RPC client) are fields of a `Collaborators` record;
* a run-time panic is the `Failure.panicked` outcome of an `Except Failure T`;
* the endless loop of `StreamTransactions` is run over the list of what the
  surroundings answer in successive passes, a `Tick` each.
-/

namespace Overflow

deriving instance DecidableEq for Except

/-! ## Go maps -/

/-- A Go `map[string]V`. -/
structure GoMap (V : Type) where
  entries : List (String × V)
  nodup : (entries.map Prod.fst).Nodup

namespace GoMap

variable {V : Type}

/-- The empty map, `map[string]V{}`. -/
def empty : GoMap V := ⟨[], List.nodup_nil⟩

/-- The keys, in the order a `range` loop visits them. -/
def keys (m : GoMap V) : List String := m.entries.map Prod.fst

/-- The comma-ok lookup `v, ok := m[k]`: `none` stands for `ok = false`. -/
def get? (m : GoMap V) (k : String) : Option V := m.entries.lookup k

/-- The builtin `len(m)`. -/
def len (m : GoMap V) : Nat := m.entries.length

/-- Overwrite the value stored under `k` in a list of entries. -/
def replaceEntry (k : String) (v : V) (l : List (String × V)) : List (String × V) :=
  l.map (fun e => if e.1 = k then (k, v) else e)

/-- The assignment `m[k] = v`. -/
def set (m : GoMap V) (k : String) (v : V) : GoMap V :=
  if h : k ∈ m.entries.map Prod.fst then
    ⟨replaceEntry k v m.entries, by
      have hk : (replaceEntry k v m.entries).map Prod.fst = m.entries.map Prod.fst := by
        unfold replaceEntry
        rw [List.map_map]
        apply List.map_congr_left
        intro e _
        by_cases he : e.1 = k <;> simp [he]
      rw [hk]; exact m.nodup⟩
  else
    ⟨m.entries ++ [(k, v)], by
      rw [List.map_append, List.nodup_append]
      refine ⟨m.nodup, by simp, ?_⟩
      intro a ha hb
      simp only [List.map_cons, List.map_nil, List.mem_singleton] at hb
      subst hb
      exact h ha⟩

end GoMap

/-! ## `arguments.go` -/

/-- The part of `*ast.Parameter` that `prepareOverflowArgument` reads:
`parameter.Identifier.Identifier` and `parameter.TypeAnnotation.Type`. -/
structure Parameter (T : Type) where
  Identifier : String
  TypeAnnotation : T

/-- The record `OverflowArgument`; the Go field `Type` is spelled `Typ` here. -/
structure OverflowArgument (V T : Type) where
  Name : String
  Value : V
  Typ : T
deriving DecidableEq

/-- What `fmt` prints for a `[]string` under `%v`: the elements separated by one
blank, in square brackets. -/
def fmtStrings (l : List String) : String := "[" ++ " ".intercalate l ++ "]"

/-- The local variables of the first loop of `prepareOverflowArgument`. -/
structure BindState (V T : Type) where
  argumentNotPresent : List String
  argumentNames : List String
  args : List (OverflowArgument V T)

/-- One iteration of `for _, parameter := range parameterList`. -/
def bindStep {V T : Type} (inputArgs : GoMap V) (s : BindState V T) (parameter : Parameter T) :
    BindState V T :=
  let parameterName := parameter.Identifier
  match inputArgs.get? parameterName with
  | none => { s with argumentNotPresent := s.argumentNotPresent ++ [parameterName] }
  | some value =>
    { s with
      argumentNames := s.argumentNames ++ [parameterName]
      args := s.args ++ [{ Name := parameterName, Value := value, Typ := parameter.TypeAnnotation }] }

/-- The second loop: `for inputKey := range inputArgs`, collecting the keys that
`slices.Contains(argumentNames, inputKey)` rejects. -/
def redundantLoop (argumentNames : List String) : List String → List String → List String
  | [], redundantArgument => redundantArgument
  | inputKey :: rest, redundantArgument =>
    if argumentNames.contains inputKey then redundantLoop argumentNames rest redundantArgument
    else redundantLoop argumentNames rest (redundantArgument ++ [inputKey])

/-- The function `prepareOverflowArgument` of `arguments.go`. -/
def prepareOverflowArgument {V T : Type} (parameterList : List (Parameter T)) (inputArgs : GoMap V) :
    Except String (List (OverflowArgument V T)) :=
  let s := parameterList.foldl (bindStep inputArgs)
    { argumentNotPresent := [], argumentNames := [], args := [] }
  if s.argumentNotPresent.length > 0 then
    .error ("the interaction is missing " ++ fmtStrings s.argumentNotPresent)
  else
    let redundantArgument := redundantLoop s.argumentNames inputArgs.keys []
    if redundantArgument.length > 0 then
      .error ("the interaction has the following extra arguments " ++ fmtStrings redundantArgument)
    else
      .ok s.args

/-- The entry the first loop appends for a parameter whose name is bound. -/
def boundEntry {V T : Type} (inputArgs : GoMap V) (p : Parameter T) : Option (OverflowArgument V T) :=
  (inputArgs.get? p.Identifier).map
    (fun value => { Name := p.Identifier, Value := value, Typ := p.TypeAnnotation })

/-! ## Binary64 floating point

Go's `float64` is IEEE-754 binary64. A finite value is kept as sign, significand and
exponent, standing for `(-1)^neg * m * 2^e`; the operations below are the ones
`CreateOverflowTransaction` performs: the product, `math.Round`, and the conversions
from and to integers. -/

/-- A `float64` value. -/
inductive Float64 where
  | finite (neg : Bool) (m : Nat) (e : Int)
  | inf (neg : Bool)
  | nan
deriving DecidableEq

namespace Float64

/-- The representations that are binary64 values: a significand of at most 53 bits and
an exponent between that of the smallest subnormal and that of the largest normal. -/
def IsValid : Float64 → Prop
  | finite _ m e => m < 2 ^ 53 ∧ -1074 ≤ e ∧ e ≤ 971
  | _ => True

instance (x : Float64) : Decidable x.IsValid := by
  cases x <;> unfold IsValid <;> infer_instance

/-- The constant `0.0`. -/
def zero : Float64 := finite false 0 0

/-- Drop the low `shift` bits of `M`, rounding to nearest, ties to even. -/
def roundHalfEvenShift (M shift : Nat) : Nat :=
  if shift = 0 then M
  else
    let q := M / 2 ^ shift
    let r := M % 2 ^ shift
    let half := 2 ^ (shift - 1)
    if r > half ∨ (r = half ∧ q % 2 = 1) then q + 1 else q

/-- The number of binary digits of `n`, found with at most `fuel` halvings. -/
def bitLengthAux : Nat → Nat → Nat
  | 0, _ => 0
  | fuel + 1, n => if n = 0 then 0 else bitLengthAux fuel (n / 2) + 1

/-- The number of binary digits of `n` (`0` for `0`). -/
def bitLength (n : Nat) : Nat := bitLengthAux n n

/-- Round the exact value `(-1)^neg * M * 2^E` to binary64 (round to nearest, ties to
even; overflow gives an infinity). -/
def pack (neg : Bool) (M : Nat) (E : Int) : Float64 :=
  let shift : Nat := (max ((bitLength M : Int) - 53) (-1074 - E)).toNat
  let q := roundHalfEvenShift M shift
  let e : Int := E + shift
  let q1 := if q = 2 ^ 53 then 2 ^ 52 else q
  let e1 := if q = 2 ^ 53 then e + 1 else e
  if e1 ≤ 971 then finite neg q1 e1
  else if q1 * 2 ^ (e1 - 971).toNat < 2 ^ 53 then finite neg (q1 * 2 ^ (e1 - 971).toNat) 971
  else inf neg

/-- The conversion `float64(i)` of an integer. -/
def ofInt (i : Int) : Float64 := pack (decide (i < 0)) i.natAbs 0

/-- The product `x * y`. -/
def mul : Float64 → Float64 → Float64
  | nan, _ => nan
  | _, nan => nan
  | inf s, inf t => inf (xor s t)
  | inf s, finite t m _ => if m = 0 then nan else inf (xor s t)
  | finite s m _, inf t => if m = 0 then nan else inf (xor s t)
  | finite s m e, finite t n f => pack (xor s t) (m * n) (e + f)

/-- The function `math.Round`: the nearest integer, halves away from zero;
infinities and NaN are returned unchanged. -/
def Round : Float64 → Float64
  | finite s m e =>
    if 0 ≤ e then finite s m e
    else finite s ((m + 2 ^ ((-e).toNat - 1)) / 2 ^ (-e).toNat) 0
  | x => x

/-- The conversion `int(x)` on a platform with 64-bit `int`: the value truncated
towards zero when that fits; otherwise Go leaves the result implementation-dependent,
and `outOfRange` supplies it. -/
def toInt (outOfRange : Float64 → Int) : Float64 → Int
  | finite s m e =>
    let mag : Nat := if 0 ≤ e then m * 2 ^ e.toNat else m / 2 ^ (-e).toNat
    let v : Int := if s then -(mag : Int) else (mag : Int)
    if -2 ^ 63 ≤ v ∧ v < 2 ^ 63 then v else outOfRange (finite s m e)
  | x => outOfRange x

/-- The real number a finite value stands for (`0` for infinities and NaN). -/
def toRat : Float64 → ℚ
  | finite s m e => (if s then -1 else 1) * (m : ℚ) * (2 : ℚ) ^ e
  | _ => 0

/-- The finite values. -/
def isFinite : Float64 → Bool
  | finite _ _ _ => true
  | _ => false

end Float64

/-- The conversion `uint64(gas)` of a 64-bit `int`. -/
def toUint64 (gas : Int) : Nat := (gas % 2 ^ 64).toNat

/-- Rounding of a rational to the nearest integer, halves away from zero. -/
def roundHalfAway (q : ℚ) : Int := if 0 ≤ q then ⌊q + 1 / 2⌋ else -⌊-q + 1 / 2⌋

/-! ## Flow addresses -/

/-- A `flow.Address`, eight bytes. -/
structure Address where
  bytes : List (Fin 256)
  len : bytes.length = 8
deriving DecidableEq

/-- The digits `encoding/hex` writes. -/
def hextable : List Char :=
  ['0', '1', '2', '3', '4', '5', '6', '7', '8', '9', 'a', 'b', 'c', 'd', 'e', 'f']

/-- The two hexadecimal digits of one byte. -/
def encodeByte (b : Fin 256) : List Char :=
  [hextable.getD (b.val / 16) '0', hextable.getD (b.val % 16) '0']

/-- The method `Address.Hex` (and `Address.String`): `hex.EncodeToString` of the bytes. -/
def Address.Hex (a : Address) : String := String.mk (a.bytes.flatMap encodeByte)

/-- The key `fmt.Sprintf("0x%s", a.Hex())` under which an address is listed. -/
def addressKey (a : Address) : String := "0x" ++ a.Hex

/-! ## `transaction.go`: data -/

/-- A Go `interface{}` value as found among the fields of a decoded event. -/
inductive Value where
  | nil
  | float64 (f : Float64)
  | string (s : String)
  | int (i : Int)
  | bool (b : Bool)
deriving DecidableEq

/-- A decoded event; `Fields` is what `CreateOverflowTransaction` reads. -/
structure OverflowEvent where
  Name : String
  Fields : GoMap Value

/-- The type `OverflowEvents`, a `map[string][]OverflowEvent`. -/
abbrev OverflowEvents := GoMap (List OverflowEvent)

/-- A raw `flow.Event`. -/
structure FlowEvent where
  EventType : String
  Payload : String
deriving DecidableEq

/-- The fields of `flow.TransactionResult` the embedded code reads; `Status` and
`TransactionID` hold the text their `String()` methods give. -/
structure TransactionResult where
  Status : String
  Error : Option String
  Events : List FlowEvent
  TransactionID : String
  BlockHeight : Nat

/-- The type `flow.ProposalKey`. -/
structure ProposalKey where
  Address : Address
  KeyIndex : Nat
  SequenceNumber : Nat
deriving DecidableEq

/-- The fields of `flow.Transaction` the embedded code reads; byte strings are kept as
strings, a signature as its bytes. -/
structure Transaction where
  Script : String
  Arguments : List String
  Authorizers : List Address
  Payer : Address
  ProposalKey : ProposalKey
  GasLimit : Nat
  EnvelopeSignatures : List String

/-- The record `Argument`. -/
structure Argument where
  Value : Value
  Key : String
deriving DecidableEq

/-- The record `Import`. -/
structure Import where
  Address : String
  Name : String
deriving DecidableEq

/-- The location of an import declaration: `common.AddressLocation` or another kind. -/
inductive Location where
  | address (a : Address) (name : String)
  | string (s : String)
  | identifier (s : String)
deriving DecidableEq

/-- An `ast.ImportDeclaration`: the identifiers it lists and its location. -/
structure ImportDeclaration where
  Identifiers : List String
  Location : Location
deriving DecidableEq

/-- A parsed program, as far as `GetAddressImports` reads it:
`program.ImportDeclarations()`. -/
structure Program where
  ImportDeclarations : List ImportDeclaration

/-- What `declarationInfo(script)` returns, as far as it is read here. -/
structure DeclarationInfo where
  ParameterOrder : List String
  Authorizers : List (String × List String)

/-- The record `OverflowTransaction`. -/
structure OverflowTransaction where
  Error : Option String
  AuthorizerTypes : List (String × List String)
  Stakeholders : GoMap (List String)
  Payer : String
  Id : String
  Status : String
  BlockId : String
  Authorizers : List String
  Arguments : List Argument
  Events : List OverflowEvent
  Imports : List Import
  Script : String
  ProposalKey : ProposalKey
  Fee : Float64
  TransactionIndex : Nat
  GasLimit : Nat
  GasUsed : Nat
  ExecutionEffort : Float64

/-- The collaborators of the embedded code: functions of this repository and of its
libraries that are called by, but not part of, `transaction.go`. `CV` is the type of
decoded Cadence values. -/
structure Collaborators (CV : Type) where
  /-- The call `o.ParseEvents(events, idPrefix)`: decoded events and the fee event. -/
  ParseEvents : List FlowEvent → String → OverflowEvents × OverflowEvent
  /-- The call `declarationInfo(script)`. -/
  declarationInfo : String → DeclarationInfo
  /-- Decoding of one encoded argument, as done by `transaction.Argument(i)`. -/
  DecodeArgument : String → Except String CV
  /-- The call `underflow.CadenceValueToInterfaceWithOption(arg, o.UnderflowOptions)`;
  `arg` is nil (`none`) when decoding failed. -/
  CadenceValueToInterface : Option CV → Value
  /-- The call `parser.ParseProgram(nil, code, parser.Config{})`. -/
  ParseProgram : String → Except String Program
  /-- The call `events.FilterFees(fee, payer)`. -/
  FilterFees : OverflowEvents → Float64 → String → OverflowEvents
  /-- The call `events.GetStakeholders(standardStakeholders)`. -/
  GetStakeholders : OverflowEvents → GoMap (List String) → GoMap (List String)
  /-- The call `o.GetNetwork()`. -/
  GetNetwork : String
  /-- The call `o.Flowkit.GetTransactionsByBlockID(ctx, id)`. -/
  GetTransactionsByBlockID : String → Except String (List Transaction × List TransactionResult)
  /-- The implementation-dependent result of `int(x)` when `x` does not fit. -/
  intOutOfRange : Float64 → Int

/-! ## `transaction.go`: functions -/

/-- The function `GetAddressImports`: both results are returned, the list of imports
(empty when parsing failed) and the error. -/
def GetAddressImports {CV : Type} (c : Collaborators CV) (code : String) :
    List Import × Option String :=
  match c.ParseProgram code with
  | .error err => ([], some err)
  | .ok program =>
    (program.ImportDeclarations.foldl
      (fun deps imp =>
        match imp.Location with
        | .address address _ =>
          imp.Identifiers.foldl
            (fun deps id => deps ++ [{ Address := addressKey address, Name := id }]) deps
        | _ => deps)
      [], none)

/-- The local variables of the argument loop of `CreateOverflowTransaction`. -/
structure ArgState where
  status : String
  args : List Argument

/-- The loop `for i := range transaction.Arguments`, from index `i` on. -/
def argumentLoop {CV : Type} (c : Collaborators CV) (ParameterOrder : List String) :
    List String → Nat → ArgState → ArgState
  | [], _, s => s
  | encodedArg :: rest, i, s =>
    let decoded := c.DecodeArgument encodedArg
    let status :=
      match decoded with
      | .error _ => s.status ++ " failed getting argument at index " ++ toString i
      | .ok _ => s.status
    let key := if ParameterOrder.length ≤ i then "invalid" else ParameterOrder.getD i ""
    let argStruct : Argument :=
      { Key := key, Value := c.CadenceValueToInterface decoded.toOption }
    argumentLoop c ParameterOrder rest (i + 1) { status := status, args := s.args ++ [argStruct] }

/-- The loop over `transaction.Authorizers`: every authorizer is listed and its key is
set to the single role `authorizer`. -/
def authorizerLoop :
    List Address → List String × GoMap (List String) → List String × GoMap (List String)
  | [], s => s
  | authorizer :: rest, (authorizers, standardStakeholders) =>
    let auth := addressKey authorizer
    authorizerLoop rest (authorizers ++ [auth], standardStakeholders.set auth ["authorizer"])

/-- The two blocks that follow the authorizer loop: set the key to the single `role`
when it is not in the map, otherwise append `role` to the roles it has. -/
def addRole (standardStakeholders : GoMap (List String)) (key role : String) :
    GoMap (List String) :=
  match standardStakeholders.get? key with
  | none => standardStakeholders.set key [role]
  | some roles => standardStakeholders.set key (roles ++ [role])

/-- The map `standardStakeholders` as `CreateOverflowTransaction` hands it to
`GetStakeholders`. -/
def standardStakeholders (transaction : Transaction) : GoMap (List String) :=
  let seeded := (authorizerLoop transaction.Authorizers ([], GoMap.empty)).2
  let withPayer := addRole seeded (addressKey transaction.Payer) "payer"
  addRole withPayer (addressKey transaction.ProposalKey.Address) "proposer"

/-- Lines 58-66 of `transaction.go`: the fee amount, `0.0` unless the fee event has an
`amount` field; an `amount` that is not a `float64` is an error. -/
def feeAmountOf (fee : OverflowEvent) : Except String Float64 :=
  match fee.Fields.get? "amount" with
  | none => .ok Float64.zero
  | some (.float64 feeAmount) => .ok feeAmount
  | some _ => .error "failed casting fee amount to float64"

/-- Line 68: `executionEffort, ok := fee.Fields["executionEffort"].(float64)`. -/
def executionEffortOf (fee : OverflowEvent) : Float64 × Bool :=
  match fee.Fields.get? "executionEffort" with
  | some (.float64 executionEffort) => (executionEffort, true)
  | _ => (Float64.zero, false)

/-- Lines 69-73: the local variable `gas`. -/
def gasOf (intOutOfRange : Float64 → Int) (fee : OverflowEvent) : Int :=
  let effort := executionEffortOf fee
  if effort.2 then
    Float64.toInt intOutOfRange (Float64.Round (Float64.mul effort.1 (Float64.ofInt 100000000)))
  else 0

/-- Lines 75-153 of `CreateOverflowTransaction`: the record built once the fee amount
is known. -/
def buildTransaction {CV : Type} (c : Collaborators CV) (blockId : String)
    (transactionResult : TransactionResult) (transaction : Transaction) (txIndex : Nat)
    (events : OverflowEvents) (fee : OverflowEvent) (feeAmount : Float64) : OverflowTransaction :=
  let argInfo := c.declarationInfo transaction.Script
  let looped := argumentLoop c argInfo.ParameterOrder transaction.Arguments 0
    { status := transactionResult.Status, args := [] }
  let imported := GetAddressImports c transaction.Script
  let status :=
    match imported.2 with
    | some _ => looped.status ++ " failed getting imports"
    | none => looped.status
  let authorizers := (authorizerLoop transaction.Authorizers ([], GoMap.empty)).1
  let eventsWithoutFees := c.FilterFees events feeAmount (addressKey transaction.Payer)
  let eventList := eventsWithoutFees.entries.foldl (fun eventList evList => eventList ++ evList.2) []
  { Id := transactionResult.TransactionID
    TransactionIndex := txIndex
    BlockId := blockId
    Status := status
    Events := eventList
    Stakeholders := c.GetStakeholders eventsWithoutFees (standardStakeholders transaction)
    Imports := imported.1
    Error := transactionResult.Error
    Arguments := looped.args
    Fee := feeAmount
    Script := transaction.Script
    Payer := addressKey transaction.Payer
    ProposalKey := transaction.ProposalKey
    GasLimit := transaction.GasLimit
    GasUsed := toUint64 (gasOf c.intOutOfRange fee)
    ExecutionEffort := (executionEffortOf fee).1
    Authorizers := authorizers
    AuthorizerTypes := argInfo.Authorizers }

/-- The function `CreateOverflowTransaction`. -/
def CreateOverflowTransaction {CV : Type} (c : Collaborators CV) (blockId : String)
    (transactionResult : TransactionResult) (transaction : Transaction) (txIndex : Nat) :
    Except String OverflowTransaction :=
  let parsed := c.ParseEvents transactionResult.Events ""
  match feeAmountOf parsed.2 with
  | .error err => .error err
  | .ok feeAmount =>
    .ok (buildTransaction c blockId transactionResult transaction txIndex parsed.1 parsed.2 feeAmount)

/-- How a Go call that returns `(T, error)` can fail: by returning an error, or by a
run-time panic that unwinds through it. -/
inductive Failure where
  | returned (err : String)
  | panicked (msg : String)
deriving DecidableEq

/-- The local variables of the `lo.FlatMap` call of
`GetOverflowTransactionsForBlockId`. -/
structure BlockState where
  result : List OverflowTransaction
  systemChunkEvents : OverflowEvents

/-- The call `lo.FlatMap(txR, ...)`, from index `i` on: the callback runs on every
result in order, and what it returns is appended to `result`. -/
def flatMapLoop {CV : Type} (c : Collaborators CV) (id : String) (tx : List Transaction)
    (totalTxR : Nat) : List TransactionResult → Nat → BlockState → Except Failure BlockState
  | [], _, s => .ok s
  | r :: rest, i, s =>
    let isLatestResult := decide (totalTxR = i + 1)
    if isLatestResult && decide (c.GetNetwork ≠ "emulator") then
      flatMapLoop c id tx totalTxR rest (i + 1)
        { s with systemChunkEvents := (c.ParseEvents r.Events (toString r.BlockHeight ++ "-")).1 }
    else
      match tx[i]? with
      | none => .error (.panicked "index out of range")
      | some t =>
        if t.EnvelopeSignatures.length = 0 then
          flatMapLoop c id tx totalTxR rest (i + 1) s
        else
          match CreateOverflowTransaction c id r t i with
          | .error err => .error (.panicked err)
          | .ok ot => flatMapLoop c id tx totalTxR rest (i + 1) { s with result := s.result ++ [ot] }

/-- The function `GetOverflowTransactionsForBlockId`. -/
def GetOverflowTransactionsForBlockId {CV : Type} (c : Collaborators CV) (id : String) :
    Except Failure (List OverflowTransaction × OverflowEvents) :=
  match c.GetTransactionsByBlockID id with
  | .error err => .error (.returned ("getting transaction results: " ++ err))
  | .ok (tx, txR) =>
    match flatMapLoop c id tx txR.length txR 0 { result := [], systemChunkEvents := GoMap.empty } with
    | .error f => .error f
    | .ok s => .ok (s.result, s.systemChunkEvents)

/-- The role list the claim C4 gives an address: `authorizer` if it is among the
authorizers, then `payer` if it is the payer, then `proposer` if it is the
proposal-key address. -/
def claimedRoles (transaction : Transaction) (a : Address) : List String :=
  (if a ∈ transaction.Authorizers then ["authorizer"] else []) ++
  (if a = transaction.Payer then ["payer"] else []) ++
  (if a = transaction.ProposalKey.Address then ["proposer"] else [])

/-- The entries of a block that are candidate transactions, normalized one after the
other: `(i, r)` pairs a raw result with its position in the raw arrays. An entry whose
transaction has no envelope signature is skipped; a failure of
`CreateOverflowTransaction` panics, as does a position without a transaction. -/
def normalizeEntries {CV : Type} (c : Collaborators CV) (id : String) (tx : List Transaction) :
    List (Nat × TransactionResult) → Except Failure (List OverflowTransaction)
  | [] => .ok []
  | (i, r) :: rest =>
    match tx[i]? with
    | none => .error (.panicked "index out of range")
    | some t =>
      if t.EnvelopeSignatures.length = 0 then normalizeEntries c id tx rest
      else
        match CreateOverflowTransaction c id r t i with
        | .error err => .error (.panicked err)
        | .ok ot =>
          match normalizeEntries c id tx rest with
          | .error f => .error f
          | .ok ots => .ok (ot :: ots)

/-- The notes the argument loop appends to the status: one for each argument whose
decoding fails, in increasing order of the index. -/
def failedArgumentNotes {CV : Type} (c : Collaborators CV) (arguments : List (Nat × String)) :
    List String :=
  (arguments.filter (fun p => (c.DecodeArgument p.2).toOption.isNone)).map
    (fun p => " failed getting argument at index " ++ toString p.1)

/-! ## Worked inputs

Concrete collaborators and transactions on which the functions above are evaluated. -/

/-- A decoder of raw events: the events are grouped by their type. -/
def groupEvents (events : List FlowEvent) : OverflowEvents :=
  events.foldl
    (fun m ev =>
      m.set ev.EventType
        ((m.get? ev.EventType).getD [] ++ [{ Name := ev.EventType, Fields := GoMap.empty }]))
    GoMap.empty

/-- Collaborators with a fixed fee event, parameter order, network and block content.
An empty encoded argument fails to decode, an empty script fails to parse. -/
def exampleCollaborators (fee : GoMap Value) (order : List String) (network : String)
    (block : List Transaction × List TransactionResult) (ovf : Float64 → Int) :
    Collaborators String :=
  { ParseEvents := fun events _ => (groupEvents events, { Name := "FlowFees.FeesDeducted", Fields := fee })
    declarationInfo := fun _ => { ParameterOrder := order, Authorizers := [] }
    DecodeArgument := fun encoded => if encoded = "" then .error "EOF" else .ok encoded
    CadenceValueToInterface := fun arg =>
      match arg with
      | none => Value.nil
      | some v => Value.string v
    ParseProgram := fun code =>
      if code = "" then .error "unexpected end of program" else .ok { ImportDeclarations := [] }
    FilterFees := fun events _ _ => events
    GetStakeholders := fun _ standard => standard
    GetNetwork := network
    GetTransactionsByBlockID := fun _ => .ok block
    intOutOfRange := ovf }

/-- The address `0x0000000000000001`. -/
def exampleAddress1 : Address := ⟨[0, 0, 0, 0, 0, 0, 0, 1], rfl⟩

/-- The address `0x0000000000000002`. -/
def exampleAddress2 : Address := ⟨[0, 0, 0, 0, 0, 0, 0, 2], rfl⟩

/-- A signed transaction with the given script and encoded arguments; `exampleAddress1`
authorizes (listed twice) and pays, `exampleAddress2` proposes. -/
def exampleTransaction (script : String) (arguments : List String) : Transaction :=
  { Script := script
    Arguments := arguments
    Authorizers := [exampleAddress1, exampleAddress1]
    Payer := exampleAddress1
    ProposalKey := { Address := exampleAddress2, KeyIndex := 0, SequenceNumber := 7 }
    GasLimit := 9999
    EnvelopeSignatures := ["sig"] }

/-- A sealed raw result carrying the given events. -/
def exampleResult (events : List FlowEvent) : TransactionResult :=
  { Status := "SEALED", Error := none, Events := events, TransactionID := "tx", BlockHeight := 42 }

/-- The double nearest to `1e-8`. -/
def float1em8 : Float64 := .finite false 6044629098073146 (-79)

/-- The double `1.0`. -/
def float1 : Float64 := .finite false 1 0

/-- The double `2^64`. -/
def float2pow64 : Float64 := .finite false 1 64

/-- The fee event of the worked example: amount `1.0`, execution effort `1e-8`. -/
def exampleFee : GoMap Value :=
  ⟨[("amount", .float64 float1), ("executionEffort", .float64 float1em8)], by decide⟩

/-- A fee event whose execution effort is `2^64`. -/
def hugeEffortFee : GoMap Value :=
  ⟨[("amount", .float64 float1), ("executionEffort", .float64 float2pow64)], by decide⟩

/-- A fee event whose execution effort is a string. -/
def textEffortFee : GoMap Value :=
  ⟨[("amount", .float64 float1), ("executionEffort", .string "high")], by decide⟩

/-- The block of the worked scenario: three raw results, the first two with signed
envelopes, the third carrying two events. -/
def exampleBlock : List Transaction × List TransactionResult :=
  ([exampleTransaction "script" ["a"], exampleTransaction "script" [],
    exampleTransaction "script" []],
   [exampleResult [], exampleResult [],
    exampleResult [{ EventType := "A.Epoch.Start", Payload := "" },
                   { EventType := "A.Epoch.Commit", Payload := "" }]])

/-- The entries of a block that the callback of `lo.FlatMap` does not treat as the
system chunk: every raw result with its position in the raw arrays, without the last
one on a network other than `emulator`. -/
def candidateEntries (network : String) (txR : List TransactionResult) :
    List (Nat × TransactionResult) :=
  if network = "emulator" then txR.enum else txR.enum.dropLast

/-- Whether the transaction at position `i` of the raw array carries an envelope
signature. -/
def isSigned (tx : List Transaction) (i : Nat) : Bool :=
  match tx[i]? with
  | some t => decide (t.EnvelopeSignatures.length ≠ 0)
  | none => false

/-- The normalization of the entry `(i, r)`, where it has one. -/
def normalizationOf {CV : Type} (c : Collaborators CV) (id : String) (tx : List Transaction)
    (e : Nat × TransactionResult) : Option OverflowTransaction :=
  match tx[e.1]? with
  | some t => (CreateOverflowTransaction c id e.2 t e.1).toOption
  | none => none

/-- A fee event whose amount is a string. -/
def textAmountFee : GoMap Value :=
  ⟨[("amount", .string "1.0"), ("executionEffort", .float64 float1em8)], by decide⟩

/-- Collaborators whose event decoder reports the fee event `exampleFee` for a result
without events and `textAmountFee`, on which normalization fails, for any other. -/
def feeByEventsCollaborators (network : String)
    (block : List Transaction × List TransactionResult) : Collaborators String :=
  { exampleCollaborators exampleFee [] network block (fun _ => 0) with
    ParseEvents := fun events _ =>
      (groupEvents events,
        { Name := "FlowFees.FeesDeducted"
          Fields := if events.isEmpty then exampleFee else textAmountFee }) }

/-- A transaction whose envelope carries no signature. -/
def unsignedTransaction : Transaction :=
  { exampleTransaction "script" [] with EnvelopeSignatures := [] }

/-- A block of four raw results: the second entry has no envelope signature and a fee
event on which normalization fails, the fourth is the system chunk. -/
def heartbeatBlock : List Transaction × List TransactionResult :=
  ([exampleTransaction "script" [], unsignedTransaction, exampleTransaction "script" []],
   [exampleResult [], exampleResult [{ EventType := "A.Epoch.Heartbeat", Payload := "" }],
    exampleResult [], exampleResult []])

/-- The function `strings.TrimPrefix`: `s` without the leading `pre`, or `s` itself when
it does not start with `pre`. -/
def TrimPrefix (s pre : String) : String :=
  if pre.data.isPrefixOf s.data then String.mk (s.data.drop pre.data.length) else s

/-- The method `Import.Identifier`:
`fmt.Sprintf("A.%s.%s", strings.TrimPrefix(i.Address, "0x"), i.Name)`. -/
def Import.Identifier (i : Import) : String :=
  "A." ++ TrimPrefix i.Address "0x" ++ "." ++ i.Name

/-- The imports the claim C17 attributes to one import declaration: one per listed
identifier when the location is an address, none otherwise. -/
def addressImportsOf (imp : ImportDeclaration) : List Import :=
  match imp.Location with
  | .address a _ => imp.Identifiers.map (fun id => { Address := "0x" ++ a.Hex, Name := id })
  | _ => []

/-- The number of identifiers an import declaration lists under an address location. -/
def addressIdentifierCount (imp : ImportDeclaration) : Nat :=
  match imp.Location with
  | .address _ _ => imp.Identifiers.length
  | _ => 0

/-- A program with four import declarations: two identifiers from the address
`0x0000000000000001`, a string location, an address import that lists no identifier,
and one identifier from the address `0x0000000000000002`. -/
def exampleProgram : Program :=
  { ImportDeclarations :=
      [{ Identifiers := ["FungibleToken", "FlowToken"], Location := .address exampleAddress1 "" },
       { Identifiers := ["Local"], Location := .string "./Local.cdc" },
       { Identifiers := [], Location := .address exampleAddress2 "" },
       { Identifiers := ["NFT"], Location := .address exampleAddress2 "NFT" }] }

/-- Collaborators whose parser returns `exampleProgram` for every script. -/
def importCollaborators : Collaborators String :=
  { exampleCollaborators exampleFee [] "mainnet" ([], []) (fun _ => 0) with
    ParseProgram := fun _ => .ok exampleProgram }

/-! ## `v3/transactions.go` -/

/-- The fields of `overflow.FlowInteractionBuilder` that `Args` reads and writes. The
builder comes with an allocated `NamedArgs` map; a Go `interface{}` argument is a
`Value`. -/
structure FlowInteractionBuilder where
  Error : Option String
  NamedArgs : GoMap Value

/-- The values the loop variable of `for i < n { ...; i = i + 2 }` takes, starting
from `0`. -/
def loopIndices (n : Nat) : List Nat := (List.range ((n + 1) / 2)).map (fun k => 2 * k)

/-- The type assertion `value, labelOk := key.(string)`: the zero value `""` and
`false` when `key` is not a string. -/
def assertString (key : Value) : String × Bool :=
  match key with
  | .string s => (s, true)
  | _ => ("", false)

/-- The body of the loop of `Args`, which reads `args[0]` and `args[1]` whatever the
value of `i`: an index out of range is a run-time panic. -/
def argsBody (args : List Value) (ftb : FlowInteractionBuilder) (_i : Nat) :
    Except Failure FlowInteractionBuilder :=
  match args[0]? with
  | none => .error (.panicked "index out of range [0]")
  | some key =>
    let asserted := assertString key
    let ftb1 : FlowInteractionBuilder :=
      if asserted.2 then ftb
      else { ftb with Error := some "even parameters in Args needs to be strings" }
    match args[1]? with
    | none => .error (.panicked "index out of range [1]")
    | some arg1 => .ok { ftb1 with NamedArgs := ftb1.NamedArgs.set asserted.1 arg1 }

/-- The loop of `Args` over the given values of `i`. -/
def argsLoop (args : List Value) :
    List Nat → FlowInteractionBuilder → Except Failure FlowInteractionBuilder
  | [], ftb => .ok ftb
  | i :: rest, ftb =>
    match argsBody args ftb i with
    | .error f => .error f
    | .ok ftb1 => argsLoop args rest ftb1

/-- The option `Args(args...)` applied to the builder `ftb`. -/
def Args (args : List Value) (ftb : FlowInteractionBuilder) :
    Except Failure FlowInteractionBuilder :=
  if args.length % 2 ≠ 0 then
    .ok { ftb with Error := some "Please send in an even number of string : interface\x7b\x7d pairs" }
  else argsLoop args (loopIndices args.length) ftb

/-- A builder with no error and no named argument. -/
def emptyBuilder : FlowInteractionBuilder := { Error := none, NamedArgs := GoMap.empty }

/-! ## `transaction.go`: the stream of block results -/

/-- The fields of `flow.Block` the stream reads: the height, a `uint64`, and the
identifier as text. -/
structure Block where
  Height : Nat
  ID : String
deriving DecidableEq

/-- The record `BlockResult` without its logger and its start time. -/
structure BlockResult where
  Error : Option String
  SystemChunkEvents : OverflowEvents
  Block : Block
  Transactions : List OverflowTransaction
  View : Nat

/-- The function `strings.Contains`. -/
def Contains (s substr : String) : Bool :=
  s.data.tails.any (fun t => substr.data.isPrefixOf t)

/-- The constant `time.Millisecond`, a `time.Duration` in nanoseconds. -/
def Millisecond : Int := 1000000

/-- What the surroundings answer during one pass of the loop of `StreamTransactions`.
`CV` is the type of decoded Cadence values. -/
structure Tick (CV : Type) where
  /-- The outer `select`: `some err` when `ctx.Done()` is taken, `err` being
  `ctx.Err()`; `none` when the timer fires. -/
  timerCancelled : Option String
  /-- The call `o.GetBlockAtHeight(ctx, height)`. -/
  GetBlockAtHeight : Nat → Except String Block
  /-- The call `o.GetLatestBlock(ctx)`; `none` is a nil block. -/
  GetLatestBlock : Except String (Option Block)
  /-- The collaborators of `GetOverflowTransactionsForBlockId` during this pass. -/
  collaborators : Collaborators CV
  /-- The `select` around the send: `some err` when `ctx.Done()` is taken, `none` when
  the value is sent on the channel. -/
  sendCancelled : Option String

/-- The variables of `StreamTransactions`, with the values sent on the channel so far,
oldest first. -/
structure StreamState where
  height : Nat
  latestKnownBlock : Block
  sleep : Int
  channel : List BlockResult

/-- The local `nextBlockToProcess` of a pass that starts in state `s`; `height + 1` is
a `uint64` sum. -/
def nextBlockToProcess (s : StreamState) : Nat :=
  if s.height = 0 then s.latestKnownBlock.Height else (s.height + 1) % 2 ^ 64

/-- Lines 250-255: the state once `sleep`, `nextBlockToProcess` and `height` are set. -/
def enterTick (poll : Int) (s : StreamState) : StreamState :=
  { s with
    sleep := poll
    height := if s.height = 0 then s.latestKnownBlock.Height else s.height }

/-- How lines 259-286 end: with the block to process, or with `continue`. -/
inductive Fetched where
  | block (b : Block)
  | skip (s : StreamState)

/-- Lines 259-286: the block for the candidate height; `s` is the state `enterTick`
gives and `next` the candidate height. -/
def fetchBlock {CV : Type} (t : Tick CV) (s : StreamState) (next : Nat) : Fetched :=
  if next < s.latestKnownBlock.Height then
    match t.GetBlockAtHeight next with
    | .error _ => .skip s
    | .ok block => .block block
  else if next ≠ s.latestKnownBlock.Height then
    match t.GetLatestBlock with
    | .error _ => .skip s
    | .ok none => .skip s
    | .ok (some block) =>
      if block.Height = s.latestKnownBlock.Height then .skip s
      else .skip { s with latestKnownBlock := block, sleep := Millisecond }
  else .block s.latestKnownBlock

/-- Lines 289-311: the block is assembled and the result sent. The second component is
`none` when the loop goes on, and how the function ends otherwise. -/
def processBlock {CV : Type} (t : Tick CV) (s : StreamState) (next : Nat) (block : Block) :
    StreamState × Option Failure :=
  match GetOverflowTransactionsForBlockId t.collaborators block.ID with
  | .error (.panicked msg) => (s, some (.panicked msg))
  | .error (.returned err) =>
    if Contains err "could not retrieve collection: key not found" then (s, none)
    else
      match t.sendCancelled with
      | some ctxErr => (s, some (.returned ctxErr))
      | none =>
        ({ s with
           channel := s.channel ++
             [{ Block := block, SystemChunkEvents := GoMap.empty, Transactions := [],
                Error := some ("getting transactions: " ++ err), View := 0 }]
           height := next }, none)
  | .ok (tx, systemChunkEvents) =>
    match t.sendCancelled with
    | some ctxErr => (s, some (.returned ctxErr))
    | none =>
      ({ s with
         channel := s.channel ++
           [{ Block := block, SystemChunkEvents := systemChunkEvents, Transactions := tx,
              Error := none, View := 0 }]
         height := next }, none)

/-- One pass of the loop `for { select { ... } }` of `StreamTransactions`. -/
def tick {CV : Type} (poll : Int) (t : Tick CV) (s : StreamState) : StreamState × Option Failure :=
  match t.timerCancelled with
  | some ctxErr => (s, some (.returned ctxErr))
  | none =>
    let next := nextBlockToProcess s
    let s1 := enterTick poll s
    match fetchBlock t s1 next with
    | .skip s2 => (s2, none)
    | .block block => processBlock t s1 next block

/-- The loop of `StreamTransactions` over the answers of successive passes, until the
function ends or the answers run out. -/
def runTicks {CV : Type} (poll : Int) : List (Tick CV) → StreamState → StreamState × Option Failure
  | [], s => (s, none)
  | t :: rest, s =>
    match tick poll t s with
    | (s1, none) => runTicks poll rest s1
    | (s1, some f) => (s1, some f)

/-- The function `StreamTransactions`: `first` is the answer of the initial
`o.GetLatestBlock(ctx)`. The result is what was sent on the channel, the variable
`height`, and how the function ended, `none` while the loop is still running after the
given passes. -/
def StreamTransactions {CV : Type} (first : Except String (Option Block)) (poll : Int)
    (height : Nat) (ticks : List (Tick CV)) : List BlockResult × Nat × Option Failure :=
  match first with
  | .error err => ([], height, some (.returned err))
  | .ok none => ([], height, some (.panicked "invalid memory address or nil pointer dereference"))
  | .ok (some latestKnownBlock) =>
    let r := runTicks poll ticks
      { height := height, latestKnownBlock := latestKnownBlock, sleep := poll, channel := [] }
    (r.1.channel, r.1.height, r.2)

/-- The heights of the blocks of the results sent on the channel. -/
def sentHeights (channel : List BlockResult) : List Nat := channel.map (fun r => r.Block.Height)

/-- Answers of one pass in which the timer fires, every block asked for by height
exists, the head is `head`, the block content is fetched as `fetch` says and the send
goes through. -/
def exampleTick (head : Option Block) (fetch : Except String (List Transaction × List TransactionResult)) :
    Tick String :=
  { timerCancelled := none
    GetBlockAtHeight := fun h => .ok { Height := h, ID := "block-" ++ toString h }
    GetLatestBlock := .ok head
    collaborators :=
      { exampleCollaborators exampleFee [] "mainnet" ([], []) (fun _ => 0) with
        GetTransactionsByBlockID := fun _ => fetch }
    sendCancelled := none }

/-- The block at height `h` that `exampleTick` answers with. -/
def blockAt (h : Nat) : Block := { Height := h, ID := "block-" ++ toString h }

/-- The transient failure of fetching the content of a block. -/
def collectionNotFound : Except String (List Transaction × List TransactionResult) :=
  .error "rpc error: could not retrieve collection: key not found"

/-- The configured poll interval of the worked runs, one second. -/
def examplePoll : Int := 1000000000

/-- The state of a stream started at height `height` with the head `latest`. -/
def startState (height : Nat) (latest : Block) : StreamState :=
  { height := height, latestKnownBlock := latest, sleep := examplePoll, channel := [] }

/-- Answers of one pass that are well formed: the block answered for a height has that
height, and the head answered is below the largest `uint64`, so that `height + 1` does
not wrap. -/
def Tick.WellFormed {CV : Type} (t : Tick CV) : Prop :=
  (∀ h b, t.GetBlockAtHeight h = .ok b → b.Height = h) ∧
  (∀ b, t.GetLatestBlock = .ok (some b) → b.Height < 2 ^ 64 - 1)

/-- The heights of the stream are below the largest `uint64`. -/
def StreamState.Bounded (s : StreamState) : Prop :=
  s.height < 2 ^ 64 - 1 ∧ s.latestKnownBlock.Height < 2 ^ 64 - 1

/-- Each height of the list is one more than the height before it. -/
def Consecutive (heights : List Nat) : Prop := List.Chain' (fun a b => b = a + 1) heights

/-- A pass that sends the result for `block`: the timer fires, the assembly of the
block succeeds and the send is not cancelled. -/
def Tick.Succeeds {CV : Type} (t : Tick CV) (block : Block) : Prop :=
  t.timerCancelled = none ∧ t.sendCancelled = none ∧
  ∃ tx sys, GetOverflowTransactionsForBlockId t.collaborators block.ID = .ok (tx, sys)

/-- Answers of one pass in which the assembly of the block panics: the fee event of
every entry has an amount that is a string, so that its normalization fails. -/
def panicTick : Tick String :=
  { exampleTick none (.ok exampleBlock) with
    collaborators := exampleCollaborators textAmountFee [] "mainnet" exampleBlock (fun _ => 0) }

/-! ## Lemmas on Go maps -/

theorem GoMap.get?_eq_none_iff {V : Type} (m : GoMap V) (k : String) :
    m.get? k = none ↔ k ∉ m.keys := by
  unfold GoMap.get? GoMap.keys
  induction m.entries with
  | nil => simp
  | cons e l ih =>
    obtain ⟨a, b⟩ := e
    by_cases h : k = a
    · subst h; simp [List.lookup]
    · have h' : (k == a) = false := by simpa using h
      simp [List.lookup, h', ih, h]

theorem GoMap.get?_isSome_iff {V : Type} (m : GoMap V) (k : String) :
    (m.get? k).isSome ↔ k ∈ m.keys := by
  rw [← not_iff_not, ← GoMap.get?_eq_none_iff]
  cases m.get? k <;> simp

theorem GoMap.get?_empty {V : Type} (k : String) : (GoMap.empty : GoMap V).get? k = none := rfl

theorem lookup_cons_ite {V : Type} (j a : String) (b : V) (l : List (String × V)) :
    List.lookup j ((a, b) :: l) = if j = a then some b else List.lookup j l := by
  by_cases h : j = a
  · subst h; simp [List.lookup]
  · have h2 : (j == a) = false := by simpa using h
    simp [List.lookup, h2, h]

theorem replaceEntry_cons {V : Type} (k : String) (v : V) (a : String) (b : V)
    (l : List (String × V)) :
    GoMap.replaceEntry k v ((a, b) :: l) =
      (if a = k then (k, v) else (a, b)) :: GoMap.replaceEntry k v l := rfl

theorem lookup_replaceEntry {V : Type} (k : String) (v : V) (l : List (String × V)) (j : String) :
    (GoMap.replaceEntry k v l).lookup j =
      if j = k then (if k ∈ l.map Prod.fst then some v else none) else l.lookup j := by
  induction l with
  | nil => simp [GoMap.replaceEntry]
  | cons e l ih =>
    obtain ⟨a, b⟩ := e
    rw [replaceEntry_cons]
    by_cases hak : a = k
    · subst hak
      rw [if_pos rfl, lookup_cons_ite, lookup_cons_ite]
      by_cases hj : j = a
      · simp [hj]
      · rw [if_neg hj, if_neg hj, ih, if_neg hj, if_neg hj]
    · rw [if_neg hak, lookup_cons_ite, lookup_cons_ite, ih]
      by_cases hja : j = a
      · have hjk : ¬ j = k := fun h => hak (hja ▸ h)
        simp [hja, hjk, hak]
      · by_cases hjk : j = k
        · have hka : ¬ k = a := fun h => hak h.symm
          have hmem : k ∈ List.map Prod.fst ((a, b) :: l) ↔ k ∈ List.map Prod.fst l := by
            rw [List.map_cons, List.mem_cons]; exact ⟨fun h => h.resolve_left hka, Or.inr⟩
          subst hjk
          rw [if_neg hja, if_pos rfl, if_pos rfl]
          by_cases hm : j ∈ List.map Prod.fst l
          · rw [if_pos hm, if_pos (hmem.2 hm)]
          · rw [if_neg hm, if_neg (fun h => hm (hmem.1 h))]
        · simp [hja, hjk]

theorem lookup_append_singleton {V : Type} (k : String) (v : V) (l : List (String × V))
    (hk : k ∉ l.map Prod.fst) (j : String) :
    (l ++ [(k, v)]).lookup j = if j = k then some v else l.lookup j := by
  induction l with
  | nil =>
    rw [List.nil_append, lookup_cons_ite]
  | cons e l ih =>
    obtain ⟨a, b⟩ := e
    have hka : ¬ k = a := fun h => hk (by simp [h])
    have hkl : k ∉ l.map Prod.fst := fun h => hk (by simp at h ⊢; exact Or.inr h)
    rw [List.cons_append, lookup_cons_ite, lookup_cons_ite, ih hkl]
    by_cases hja : j = a
    · have hjk : ¬ j = k := fun h => hka (h ▸ hja)
      rw [if_pos hja, if_neg hjk, if_pos hja]
    · simp [hja]

/-- Reading a map after the assignment `m[k] = v`. -/
theorem GoMap.get?_set {V : Type} (m : GoMap V) (k : String) (v : V) (j : String) :
    (m.set k v).get? j = if j = k then some v else m.get? j := by
  unfold GoMap.set GoMap.get?
  by_cases h : k ∈ m.entries.map Prod.fst
  · rw [dif_pos h]
    simp only [lookup_replaceEntry, h, if_true]
  · rw [dif_neg h]
    simp only [lookup_append_singleton k v m.entries h]

/-- The keys after the assignment `m[k] = v`: those before, and `k`. -/
theorem GoMap.mem_keys_set {V : Type} (m : GoMap V) (k : String) (v : V) (j : String) :
    j ∈ (m.set k v).keys ↔ j = k ∨ j ∈ m.keys := by
  rw [← GoMap.get?_isSome_iff, ← GoMap.get?_isSome_iff, GoMap.get?_set]
  by_cases h : j = k
  · simp [h]
  · simp [h]

/-! ## Hexadecimal keys of addresses -/

theorem hextable_injective :
    ∀ i j : Fin 16, hextable.getD i.val '0' = hextable.getD j.val '0' → i = j := by
  decide

theorem encodeByte_injective (b c : Fin 256) (h : encodeByte b = encodeByte c) : b = c := by
  unfold encodeByte at h
  simp only [List.cons.injEq, and_true] at h
  obtain ⟨h1, h2⟩ := h
  have hb := b.isLt
  have hc := c.isLt
  have e1 := hextable_injective ⟨b.val / 16, by omega⟩ ⟨c.val / 16, by omega⟩ h1
  have e2 := hextable_injective ⟨b.val % 16, by omega⟩ ⟨c.val % 16, by omega⟩ h2
  simp only [Fin.mk.injEq] at e1 e2
  apply Fin.ext
  omega

theorem flatMap_encodeByte_injective :
    ∀ l l2 : List (Fin 256), l.flatMap encodeByte = l2.flatMap encodeByte → l = l2
  | [], [] => fun _ => rfl
  | [], c :: l2 => fun h => by simp [List.flatMap_cons, encodeByte] at h
  | b :: l, [] => fun h => by simp [List.flatMap_cons, encodeByte] at h
  | b :: l, c :: l2 => fun h => by
    simp only [List.flatMap_cons, encodeByte, List.cons_append, List.nil_append,
      List.cons.injEq] at h
    obtain ⟨h1, h2, h3⟩ := h
    have hbc : b = c := encodeByte_injective b c (by unfold encodeByte; rw [h1, h2])
    rw [hbc, flatMap_encodeByte_injective l l2 h3]

/-- Distinct addresses have distinct keys. -/
theorem addressKey_injective (a b : Address) (h : addressKey a = addressKey b) : a = b := by
  unfold addressKey Address.Hex at h
  have hd := congrArg String.data h
  simp only [String.data_append, List.append_cancel_left_eq] at hd
  have hb := flatMap_encodeByte_injective _ _ hd
  cases a; cases b
  simp only at hb
  subst hb
  rfl

theorem addressKey_eq_iff (a b : Address) : addressKey a = addressKey b ↔ a = b :=
  ⟨addressKey_injective a b, fun h => h ▸ rfl⟩

theorem addressKey_mem_map_iff (a : Address) (l : List Address) :
    addressKey a ∈ l.map addressKey ↔ a ∈ l := by
  constructor
  · intro h
    obtain ⟨b, hb, hk⟩ := List.mem_map.1 h
    rw [addressKey_injective b a hk] at hb
    exact hb
  · exact fun h => List.mem_map_of_mem _ h

/-! ## `prepareOverflowArgument`: the two loops in closed form -/

theorem bindLoop_closed {V T : Type} (inputArgs : GoMap V) (ps : List (Parameter T))
    (s : BindState V T) :
    (ps.foldl (bindStep inputArgs) s).argumentNotPresent =
        s.argumentNotPresent ++
          (ps.map (·.Identifier)).filter (fun n => decide (n ∉ inputArgs.keys)) ∧
    (ps.foldl (bindStep inputArgs) s).argumentNames =
        s.argumentNames ++
          (ps.map (·.Identifier)).filter (fun n => decide (n ∈ inputArgs.keys)) ∧
    (ps.foldl (bindStep inputArgs) s).args = s.args ++ ps.filterMap (boundEntry inputArgs) := by
  induction ps generalizing s with
  | nil => simp
  | cons p ps ih =>
    rw [List.foldl_cons]
    obtain ⟨h1, h2, h3⟩ := ih (bindStep inputArgs s p)
    rw [h1, h2, h3]
    cases hg : inputArgs.get? p.Identifier with
    | none =>
      have hk : p.Identifier ∉ inputArgs.keys := (GoMap.get?_eq_none_iff _ _).1 hg
      simp [bindStep, hg, hk, boundEntry]
    | some v =>
      have hk : p.Identifier ∈ inputArgs.keys :=
        (GoMap.get?_isSome_iff _ _).1 (by simp [hg])
      simp [bindStep, hg, hk, boundEntry]

theorem redundantLoop_closed (argumentNames keys acc : List String) :
    redundantLoop argumentNames keys acc =
      acc ++ keys.filter (fun k => decide (k ∉ argumentNames)) := by
  induction keys generalizing acc with
  | nil => simp [redundantLoop]
  | cons k ks ih =>
    by_cases h : k ∈ argumentNames
    · simp [redundantLoop, h, ih]
    · simp [redundantLoop, h, ih]

/-- The first loop started from empty accumulators. -/
theorem bindLoop_init {V T : Type} (inputArgs : GoMap V) (ps : List (Parameter T)) :
    (ps.foldl (bindStep inputArgs)
        { argumentNotPresent := [], argumentNames := [], args := [] }).argumentNotPresent =
        (ps.map (·.Identifier)).filter (fun n => decide (n ∉ inputArgs.keys)) ∧
    (ps.foldl (bindStep inputArgs)
        { argumentNotPresent := [], argumentNames := [], args := [] }).argumentNames =
        (ps.map (·.Identifier)).filter (fun n => decide (n ∈ inputArgs.keys)) ∧
    (ps.foldl (bindStep inputArgs)
        { argumentNotPresent := [], argumentNames := [], args := [] }).args =
        ps.filterMap (boundEntry inputArgs) := by
  have h := bindLoop_closed inputArgs ps
    { argumentNotPresent := [], argumentNames := [], args := [] }
  simpa using h

/-- The three outcomes of `prepareOverflowArgument`, in closed form. -/
theorem prepareOverflowArgument_eq {V T : Type} (ps : List (Parameter T)) (m : GoMap V) :
    prepareOverflowArgument ps m =
      if (ps.map (·.Identifier)).filter (fun n => decide (n ∉ m.keys)) ≠ [] then
        .error ("the interaction is missing " ++
          fmtStrings ((ps.map (·.Identifier)).filter (fun n => decide (n ∉ m.keys))))
      else if m.keys.filter (fun k => decide (k ∉ ps.map (·.Identifier))) ≠ [] then
        .error ("the interaction has the following extra arguments " ++
          fmtStrings (m.keys.filter (fun k => decide (k ∉ ps.map (·.Identifier)))))
      else .ok (ps.filterMap (boundEntry m)) := by
  obtain ⟨h1, h2, h3⟩ := bindLoop_init m ps
  unfold prepareOverflowArgument
  simp only [h1, h2, h3, redundantLoop_closed, List.nil_append]
  by_cases hmiss : (ps.map (·.Identifier)).filter (fun n => decide (n ∉ m.keys)) = []
  · have hall : ∀ n ∈ ps.map (·.Identifier), n ∈ m.keys := by
      intro n hn
      by_contra hc
      have : n ∈ (ps.map (·.Identifier)).filter (fun n => decide (n ∉ m.keys)) :=
        List.mem_filter.2 ⟨hn, by simpa using hc⟩
      rw [hmiss] at this
      exact List.not_mem_nil _ this
    have hnames : (ps.map (·.Identifier)).filter (fun n => decide (n ∈ m.keys)) =
        ps.map (·.Identifier) := by
      apply List.filter_eq_self.2
      intro n hn
      simpa using hall n hn
    rw [hnames, if_neg (by rw [hmiss]; exact Nat.lt_irrefl 0), if_neg (not_not.2 hmiss)]
    by_cases hred : m.keys.filter (fun k => decide (k ∉ ps.map (·.Identifier))) = []
    · rw [if_neg (by rw [hred]; exact Nat.lt_irrefl 0), if_neg (not_not.2 hred)]
    · rw [if_pos (List.length_pos.2 hred), if_pos hred]
  · rw [if_pos (List.length_pos.2 hmiss), if_pos hmiss]

theorem filterMap_boundEntry_of_all_present {V T : Type} (m : GoMap V) (ps : List (Parameter T))
    (hall : ∀ p ∈ ps, p.Identifier ∈ m.keys) :
    (ps.filterMap (boundEntry m)).length = ps.length ∧
    ∀ (i : Nat) (p : Parameter T), ps[i]? = some p →
      ∃ v, m.get? p.Identifier = some v ∧
        (ps.filterMap (boundEntry m))[i]? =
          some ({ Name := p.Identifier, Value := v, Typ := p.TypeAnnotation } : OverflowArgument V T) := by
  induction ps with
  | nil => simp
  | cons q qs ih =>
    obtain ⟨ihl, ihi⟩ := ih (fun p hp => hall p (List.mem_cons_of_mem _ hp))
    have hq : (m.get? q.Identifier).isSome :=
      (GoMap.get?_isSome_iff _ _).2 (hall q (List.mem_cons_self _ _))
    obtain ⟨v, hv⟩ := Option.isSome_iff_exists.1 hq
    have hb : boundEntry m q =
        some { Name := q.Identifier, Value := v, Typ := q.TypeAnnotation } := by
      simp [boundEntry, hv]
    rw [List.filterMap_cons_some hb]
    refine ⟨by simp [ihl], ?_⟩
    intro i p hp
    cases i with
    | zero =>
      simp only [List.getElem?_cons_zero, Option.some.injEq] at hp
      subst hp
      exact ⟨v, hv, by simp⟩
    | succ j =>
      simp only [List.getElem?_cons_succ] at hp ⊢
      exact ihi j p hp

/-! ## Claims on `prepareOverflowArgument` -/

/-- C1: `prepareOverflowArgument` returns no error iff the set of declared parameter
names equals the set of input keys; and when it succeeds the returned list has one
entry per parameter, in declaration order, entry `i` carrying the name of parameter
`i`, the value the input mapping stores under that name, and the declared type of
parameter `i`. -/
theorem prepareOverflowArgument_ok_iff_same_names {V T : Type} (ps : List (Parameter T))
    (m : GoMap V) :
    ((∃ args, prepareOverflowArgument ps m = .ok args) ↔
        ∀ k, k ∈ ps.map (·.Identifier) ↔ k ∈ m.keys) ∧
    ∀ args, prepareOverflowArgument ps m = .ok args →
      args.length = ps.length ∧
      ∀ (i : Nat) (p : Parameter T), ps[i]? = some p →
        ∃ v, m.get? p.Identifier = some v ∧
          args[i]? = some ({ Name := p.Identifier, Value := v, Typ := p.TypeAnnotation } : OverflowArgument V T) := by
  have hmiss_iff : (ps.map (·.Identifier)).filter (fun n => decide (n ∉ m.keys)) = [] ↔
      ∀ k ∈ ps.map (·.Identifier), k ∈ m.keys := by
    rw [List.filter_eq_nil_iff]
    constructor
    · intro h k hk
      by_contra hc
      exact h k hk (by simpa using hc)
    · intro h k hk
      simpa using h k hk
  have hred_iff : m.keys.filter (fun k => decide (k ∉ ps.map (·.Identifier))) = [] ↔
      ∀ k ∈ m.keys, k ∈ ps.map (·.Identifier) := by
    rw [List.filter_eq_nil_iff]
    constructor
    · intro h k hk
      by_contra hc
      exact h k hk (by simpa using hc)
    · intro h k hk
      simpa using h k hk
  have heq := prepareOverflowArgument_eq ps m
  by_cases hmiss : (ps.map (·.Identifier)).filter (fun n => decide (n ∉ m.keys)) = []
  · by_cases hred : m.keys.filter (fun k => decide (k ∉ ps.map (·.Identifier))) = []
    · rw [if_neg (not_not.2 hmiss), if_neg (not_not.2 hred)] at heq
      have hall : ∀ p ∈ ps, p.Identifier ∈ m.keys := fun p hp =>
        hmiss_iff.1 hmiss _ (List.mem_map_of_mem _ hp)
      refine ⟨⟨fun _ k => ⟨hmiss_iff.1 hmiss k, hred_iff.1 hred k⟩, fun _ => ⟨_, heq⟩⟩, ?_⟩
      intro args hargs
      rw [heq] at hargs
      cases hargs
      exact filterMap_boundEntry_of_all_present m ps hall
    · rw [if_neg (not_not.2 hmiss), if_pos hred] at heq
      refine ⟨⟨fun h => ?_, fun h => ?_⟩, fun args hargs => ?_⟩
      · obtain ⟨args, hargs⟩ := h
        rw [heq] at hargs
        cases hargs
      · exact absurd (hred_iff.2 (fun k hk => (h k).2 hk)) hred
      · rw [heq] at hargs
        cases hargs
  · rw [if_pos hmiss] at heq
    refine ⟨⟨fun h => ?_, fun h => ?_⟩, fun args hargs => ?_⟩
    · obtain ⟨args, hargs⟩ := h
      rw [heq] at hargs
      cases hargs
    · exact absurd (hmiss_iff.2 (fun k hk => (h k).1 hk)) hmiss
    · rw [heq] at hargs
      cases hargs

/-- C2: when at least one declared name is absent from the input mapping,
`prepareOverflowArgument` returns no argument list and the error
`the interaction is missing [n1 n2 ...]`, listing all the absent declared names in
declaration order, whatever other keys the input mapping holds. -/
theorem prepareOverflowArgument_missing {V T : Type} (ps : List (Parameter T)) (m : GoMap V)
    (h : ∃ p ∈ ps, p.Identifier ∉ m.keys) :
    prepareOverflowArgument ps m =
      .error ("the interaction is missing " ++
        fmtStrings ((ps.map (·.Identifier)).filter (fun n => decide (n ∉ m.keys)))) := by
  obtain ⟨p, hp, hk⟩ := h
  have hmiss : (ps.map (·.Identifier)).filter (fun n => decide (n ∉ m.keys)) ≠ [] := by
    intro hnil
    have : p.Identifier ∈ (ps.map (·.Identifier)).filter (fun n => decide (n ∉ m.keys)) :=
      List.mem_filter.2 ⟨List.mem_map_of_mem _ hp, by simpa using hk⟩
    rw [hnil] at this
    exact List.not_mem_nil _ this
  rw [prepareOverflowArgument_eq, if_pos hmiss]

/-- C3: when every declared name is present in the input mapping and some input key
matches no declared name, `prepareOverflowArgument` returns no argument list and the
error `the interaction has the following extra arguments [...]`; the names listed are
exactly the input keys that match no declared name, each listed once. -/
theorem prepareOverflowArgument_redundant {V T : Type} (ps : List (Parameter T)) (m : GoMap V)
    (hall : ∀ p ∈ ps, p.Identifier ∈ m.keys)
    (hex : ∃ k ∈ m.keys, k ∉ ps.map (·.Identifier)) :
    prepareOverflowArgument ps m =
      .error ("the interaction has the following extra arguments " ++
        fmtStrings (m.keys.filter (fun k => decide (k ∉ ps.map (·.Identifier))))) ∧
    (m.keys.filter (fun k => decide (k ∉ ps.map (·.Identifier)))).Nodup ∧
    ∀ k, k ∈ m.keys.filter (fun k => decide (k ∉ ps.map (·.Identifier))) ↔
      k ∈ m.keys ∧ k ∉ ps.map (·.Identifier) := by
  obtain ⟨k, hk, hkn⟩ := hex
  have hmiss : (ps.map (·.Identifier)).filter (fun n => decide (n ∉ m.keys)) = [] := by
    rw [List.filter_eq_nil_iff]
    intro n hn
    obtain ⟨p, hp, rfl⟩ := List.mem_map.1 hn
    simpa using hall p hp
  have hred : m.keys.filter (fun k => decide (k ∉ ps.map (·.Identifier))) ≠ [] := by
    intro hnil
    have : k ∈ m.keys.filter (fun k => decide (k ∉ ps.map (·.Identifier))) :=
      List.mem_filter.2 ⟨hk, by simpa using hkn⟩
    rw [hnil] at this
    exact List.not_mem_nil _ this
  refine ⟨?_, m.nodup.filter _, ?_⟩
  · rw [prepareOverflowArgument_eq, if_neg (not_not.2 hmiss), if_pos hred]
  · intro k
    rw [List.mem_filter]
    simp

/-- Witness for C2: parameters `a`, `b`, `c` against the input `{b, z}`; both absent
names are reported although `z` is redundant. -/
theorem prepareOverflowArgument_missing_witness :
    (∃ p ∈ ([⟨"a", 0⟩, ⟨"b", 1⟩, ⟨"c", 2⟩] : List (Parameter Nat)),
        p.Identifier ∉ (⟨[("b", 10), ("z", 20)], by decide⟩ : GoMap Nat).keys) ∧
    prepareOverflowArgument ([⟨"a", 0⟩, ⟨"b", 1⟩, ⟨"c", 2⟩] : List (Parameter Nat))
        (⟨[("b", 10), ("z", 20)], by decide⟩ : GoMap Nat) =
      (.error "the interaction is missing [a c]" : Except String (List (OverflowArgument Nat Nat))) :=
  ⟨⟨⟨"a", 0⟩, by simp, by decide⟩,
    (prepareOverflowArgument_missing _ _ ⟨⟨"a", 0⟩, by simp, by decide⟩).trans
      (congrArg Except.error (by decide))⟩

/-- Witness for C3, the input of the test `should fail if redundant arguments`: an empty
parameter list against the input `{something: William}`. -/
theorem prepareOverflowArgument_redundant_witness :
    prepareOverflowArgument ([] : List (Parameter Nat))
        (⟨[("something", "William")], by decide⟩ : GoMap String) =
      (.error "the interaction has the following extra arguments [something]" :
        Except String (List (OverflowArgument String Nat))) :=
  (prepareOverflowArgument_redundant ([] : List (Parameter Nat))
      (⟨[("something", "William")], by decide⟩ : GoMap String)
      (by simp) ⟨"something", by decide, by simp⟩).1.trans
    (congrArg Except.error (by decide))

/-- The test `should fail if argument not present` of `arguments_test.go`. -/
theorem test_should_fail_if_argument_not_present :
    prepareOverflowArgument ([⟨"name", "string"⟩] : List (Parameter String))
        (GoMap.empty : GoMap String) =
      .error "the interaction is missing [name]" := by
  decide

/-- The test `should succeed if one string argument` of `arguments_test.go`. -/
theorem test_should_succeed_if_one_string_argument :
    prepareOverflowArgument ([⟨"name", "string"⟩] : List (Parameter String))
        (⟨[("name", "William")], by decide⟩ : GoMap String) =
      .ok [{ Name := "name", Value := "William", Typ := "string" }] := by
  decide

/-! ## Claims on the stakeholder seed map -/

theorem authorizerLoop_get? (as : List Address) (l : List String) (m : GoMap (List String))
    (k : String) :
    (authorizerLoop as (l, m)).2.get? k =
      if k ∈ as.map addressKey then some ["authorizer"] else m.get? k := by
  induction as generalizing l m with
  | nil => simp [authorizerLoop]
  | cons a as ih =>
    rw [authorizerLoop, ih, GoMap.get?_set, List.map_cons]
    by_cases h1 : k ∈ as.map addressKey
    · simp [h1]
    · by_cases h2 : k = addressKey a
      · simp [h2]
      · simp [h1, h2]

theorem addRole_get? (m : GoMap (List String)) (key role k : String) :
    (addRole m key role).get? k =
      if k = key then some ((m.get? key).getD [] ++ [role]) else m.get? k := by
  unfold addRole
  cases h : m.get? key with
  | none => simp [GoMap.get?_set]
  | some roles => simp [GoMap.get?_set]

/-- C4: in the stakeholder seed map built by `CreateOverflowTransaction`, the role list
of every address `a` is `authorizer` (if `a` is among the authorizers, once however
often it is listed), then `payer` (if `a` is the payer), then `proposer` (if `a` is the
proposal-key address); `a` is a key of the map iff that list is non-empty, and the map
has no other keys. -/
theorem standardStakeholders_roles (transaction : Transaction) (a : Address) :
    (standardStakeholders transaction).get? (addressKey a) =
        (if claimedRoles transaction a = [] then none else some (claimedRoles transaction a)) ∧
    (addressKey a ∈ (standardStakeholders transaction).keys ↔ claimedRoles transaction a ≠ []) ∧
    ∀ k ∈ (standardStakeholders transaction).keys, ∃ b : Address, k = addressKey b := by
  have hget : (standardStakeholders transaction).get? (addressKey a) =
      (if claimedRoles transaction a = [] then none else some (claimedRoles transaction a)) := by
    unfold standardStakeholders claimedRoles
    simp only [addRole_get?, authorizerLoop_get?, GoMap.get?_empty, addressKey_eq_iff,
      addressKey_mem_map_iff]
    by_cases hA : a ∈ transaction.Authorizers <;>
    by_cases hP : a = transaction.Payer <;>
    by_cases hQ : a = transaction.ProposalKey.Address
    · subst hP
      simp [hA, ← hQ]
    · subst hP
      simp [hA, hQ]
    · subst hQ
      simp [hA, hP]
    · simp [hA, hP, hQ]
    · subst hP
      simp [hA, ← hQ]
    · subst hP
      simp [hA, hQ]
    · subst hQ
      simp [hA, hP]
    · simp [hA, hP, hQ]
  refine ⟨hget, ?_, ?_⟩
  · rw [← GoMap.get?_isSome_iff, hget]
    by_cases h : claimedRoles transaction a = []
    · simp [h]
    · simp [h]
  · intro k hk
    unfold standardStakeholders at hk
    rw [← GoMap.get?_isSome_iff] at hk
    simp only [addRole_get?, authorizerLoop_get?] at hk
    by_cases h1 : k = addressKey transaction.ProposalKey.Address
    · exact ⟨_, h1⟩
    · by_cases h2 : k = addressKey transaction.Payer
      · exact ⟨_, h2⟩
      · rw [if_neg h1, if_neg h2] at hk
        by_cases h3 : k ∈ transaction.Authorizers.map addressKey
        · obtain ⟨b, _, hb⟩ := List.mem_map.1 h3
          exact ⟨b, hb.symm⟩
        · rw [if_neg h3, GoMap.get?_empty] at hk
          simp at hk

/-- A worked example of the seed map: `exampleAddress1` authorizes twice and pays,
`exampleAddress2` proposes. -/
theorem standardStakeholders_example :
    (standardStakeholders (exampleTransaction "script" [])).entries =
      [("0x0000000000000001", ["authorizer", "payer"]),
       ("0x0000000000000002", ["proposer"])] := by
  decide

/-! ## Rounding of binary64 values -/

theorem floor_add_half (m k : Nat) (hk : 1 ≤ k) :
    ⌊(m : ℚ) / 2 ^ k + 1 / 2⌋ = (((m + 2 ^ (k - 1)) / 2 ^ k : Nat) : Int) := by
  have h2 : (2 : ℚ) ^ k = 2 * 2 ^ (k - 1) := by
    rw [← pow_succ']
    congr 1
    omega
  have h : (m : ℚ) / 2 ^ k + 1 / 2 = ((m + 2 ^ (k - 1) : Nat) : ℚ) / ((2 ^ k : Nat) : ℚ) := by
    push_cast
    rw [h2]
    field_simp
    ring
  rw [h, Rat.floor_natCast_div_natCast]
  norm_cast

theorem floor_half : ⌊(1 / 2 : ℚ)⌋ = 0 := by
  rw [Int.floor_eq_iff]
  norm_num

theorem roundHalfAway_neg (q : ℚ) : roundHalfAway (-q) = -roundHalfAway q := by
  unfold roundHalfAway
  rcases lt_trichotomy q 0 with h | h | h
  · rw [if_pos (by linarith), if_neg (by linarith)]
    simp
  · subst h
    rw [neg_zero, if_pos (le_refl 0), zero_add, floor_half]
    rfl
  · rw [if_neg (by linarith), if_pos (by linarith)]
    simp

theorem roundHalfAway_natCast (n : Nat) : roundHalfAway (n : ℚ) = (n : Int) := by
  unfold roundHalfAway
  rw [if_pos (by positivity)]
  have h : ((n : ℚ) + 1 / 2) = (1 / 2 : ℚ) + ((n : ℤ) : ℚ) := by push_cast; ring
  rw [h, Int.floor_add_int, floor_half]
  simp

/-- The magnitude `m * 2^e` of a finite value, rounded half away from zero, is what
`math.Round` followed by truncation computes. -/
theorem roundHalfAway_magnitude (m : Nat) (e : Int) :
    roundHalfAway ((m : ℚ) * (2 : ℚ) ^ e) =
      if 0 ≤ e then ((m * 2 ^ e.toNat : Nat) : Int)
      else (((m + 2 ^ ((-e).toNat - 1)) / 2 ^ (-e).toNat : Nat) : Int) := by
  by_cases he : 0 ≤ e
  · rw [if_pos he]
    obtain ⟨k, rfl⟩ := Int.eq_ofNat_of_zero_le he
    rw [zpow_natCast, Int.toNat_natCast]
    have : (m : ℚ) * 2 ^ k = ((m * 2 ^ k : Nat) : ℚ) := by push_cast; ring
    rw [this, roundHalfAway_natCast]
  · rw [if_neg he]
    have hk : 1 ≤ (-e).toNat := by omega
    have hek : e = -(((-e).toNat : Nat) : Int) := by omega
    have hq : (m : ℚ) * (2 : ℚ) ^ e = (m : ℚ) / 2 ^ (-e).toNat := by
      conv_lhs => rw [hek]
      rw [zpow_neg, zpow_natCast]
      rfl
    rw [hq]
    unfold roundHalfAway
    rw [if_pos (by positivity), floor_add_half m _ hk]

theorem toRat_finite (s : Bool) (m : Nat) (e : Int) :
    (Float64.finite s m e).toRat =
      if s then -((m : ℚ) * (2 : ℚ) ^ e) else (m : ℚ) * (2 : ℚ) ^ e := by
  cases s <;> simp [Float64.toRat]

/-- On a finite value whose rounding fits a 64-bit `int`, `int(math.Round(x))` is the
value of `x` rounded to the nearest integer, halves away from zero. -/
theorem toInt_Round_eq (ovf : Float64 → Int) (s : Bool) (m : Nat) (e : Int)
    (h1 : -2 ^ 63 ≤ roundHalfAway (Float64.finite s m e).toRat)
    (h2 : roundHalfAway (Float64.finite s m e).toRat < 2 ^ 63) :
    Float64.toInt ovf (Float64.Round (Float64.finite s m e)) =
      roundHalfAway (Float64.finite s m e).toRat := by
  have hmag := roundHalfAway_magnitude m e
  rw [toRat_finite] at h1 h2 ⊢
  by_cases he : 0 ≤ e
  · rw [if_pos he] at hmag
    simp only [Float64.Round, if_pos he, Float64.toInt]
    cases s
    · simp only [Bool.false_eq_true, if_false] at h1 h2 ⊢
      rw [hmag] at h1 h2 ⊢
      rw [if_pos ⟨h1, h2⟩]
    · simp only [if_true] at h1 h2 ⊢
      rw [roundHalfAway_neg, hmag] at h1 h2 ⊢
      rw [if_pos ⟨h1, h2⟩]
  · rw [if_neg he] at hmag
    simp only [Float64.Round, if_neg he, Float64.toInt, le_refl, if_true, Int.toNat_zero,
      pow_zero, mul_one]
    cases s
    · simp only [Bool.false_eq_true, if_false] at h1 h2 ⊢
      rw [hmag] at h1 h2 ⊢
      rw [if_pos ⟨h1, h2⟩]
    · simp only [if_true] at h1 h2 ⊢
      rw [roundHalfAway_neg, hmag] at h1 h2 ⊢
      rw [if_pos ⟨h1, h2⟩]

theorem toUint64_of_nonneg (g : Int) (h0 : 0 ≤ g) (h1 : g < 2 ^ 63) :
    ((toUint64 g : Nat) : Int) = g := by
  unfold toUint64
  rw [Int.emod_eq_of_lt h0 (by omega)]
  exact Int.toNat_of_nonneg h0

theorem toUint64_lt (g : Int) : toUint64 g < 2 ^ 64 := by
  unfold toUint64
  have h := Int.emod_lt_of_pos g (show (0 : Int) < 2 ^ 64 by norm_num)
  have h0 := Int.emod_nonneg g (show (2 : Int) ^ 64 ≠ 0 by norm_num)
  omega

/-! ## Claims on the fee of `CreateOverflowTransaction` -/

theorem buildTransaction_fields {CV : Type} (c : Collaborators CV) (blockId : String)
    (tr : TransactionResult) (tx : Transaction) (idx : Nat) (events : OverflowEvents)
    (fee : OverflowEvent) (fa : Float64) :
    (buildTransaction c blockId tr tx idx events fee fa).Fee = fa ∧
    (buildTransaction c blockId tr tx idx events fee fa).GasUsed =
      toUint64 (gasOf c.intOutOfRange fee) ∧
    (buildTransaction c blockId tr tx idx events fee fa).ExecutionEffort =
      (executionEffortOf fee).1 :=
  ⟨rfl, rfl, rfl⟩

/-- The outcome of `CreateOverflowTransaction` is decided by the fee amount alone. -/
theorem CreateOverflowTransaction_eq {CV : Type} (c : Collaborators CV) (blockId : String)
    (tr : TransactionResult) (tx : Transaction) (idx : Nat) :
    CreateOverflowTransaction c blockId tr tx idx =
      match feeAmountOf (c.ParseEvents tr.Events "").2 with
      | .error err => .error err
      | .ok fa => .ok (buildTransaction c blockId tr tx idx (c.ParseEvents tr.Events "").1
          (c.ParseEvents tr.Events "").2 fa) := rfl

theorem feeAmountOf_none (fee : OverflowEvent) (h : fee.Fields.get? "amount" = none) :
    feeAmountOf fee = .ok Float64.zero := by
  unfold feeAmountOf; rw [h]

theorem feeAmountOf_float (fee : OverflowEvent) (f : Float64)
    (h : fee.Fields.get? "amount" = some (.float64 f)) :
    feeAmountOf fee = .ok f := by
  unfold feeAmountOf; rw [h]

theorem feeAmountOf_other (fee : OverflowEvent) (v : Value)
    (h : fee.Fields.get? "amount" = some v) (hv : ∀ f, v ≠ .float64 f) :
    feeAmountOf fee = .error "failed casting fee amount to float64" := by
  unfold feeAmountOf; rw [h]
  cases v with
  | float64 f => exact absurd rfl (hv f)
  | nil => rfl
  | string s => rfl
  | int i => rfl
  | bool b => rfl

/-- C6: `CreateOverflowTransaction` returns an error and no record whenever the fee event
has an `amount` field that is not a `float64`; when `amount` is the `float64` `v` the
record has `Fee = v`, when it is absent the record has `Fee = 0`; and a non-`float64`
`amount` is the only condition under which an error is returned. -/
theorem CreateOverflowTransaction_error_iff_amount_not_float {CV : Type} (c : Collaborators CV)
    (blockId : String) (tr : TransactionResult) (tx : Transaction) (idx : Nat) :
    (∀ v, (c.ParseEvents tr.Events "").2.Fields.get? "amount" = some v →
        (∀ f, v ≠ .float64 f) →
        CreateOverflowTransaction c blockId tr tx idx =
          .error "failed casting fee amount to float64") ∧
    (∀ f, (c.ParseEvents tr.Events "").2.Fields.get? "amount" = some (.float64 f) →
        ∃ r, CreateOverflowTransaction c blockId tr tx idx = .ok r ∧ r.Fee = f) ∧
    ((c.ParseEvents tr.Events "").2.Fields.get? "amount" = none →
        ∃ r, CreateOverflowTransaction c blockId tr tx idx = .ok r ∧ r.Fee = Float64.zero) ∧
    ((∃ err, CreateOverflowTransaction c blockId tr tx idx = .error err) ↔
        ∃ v, (c.ParseEvents tr.Events "").2.Fields.get? "amount" = some v ∧
          ∀ f, v ≠ .float64 f) := by
  have h1 : ∀ v, (c.ParseEvents tr.Events "").2.Fields.get? "amount" = some v →
      (∀ f, v ≠ .float64 f) →
      CreateOverflowTransaction c blockId tr tx idx =
        .error "failed casting fee amount to float64" := by
    intro v hv hnf
    rw [CreateOverflowTransaction_eq, feeAmountOf_other _ v hv hnf]
  have h2 : ∀ f, (c.ParseEvents tr.Events "").2.Fields.get? "amount" = some (.float64 f) →
      ∃ r, CreateOverflowTransaction c blockId tr tx idx = .ok r ∧ r.Fee = f := by
    intro f hf
    rw [CreateOverflowTransaction_eq, feeAmountOf_float _ f hf]
    exact ⟨_, rfl, rfl⟩
  have h3 : (c.ParseEvents tr.Events "").2.Fields.get? "amount" = none →
      ∃ r, CreateOverflowTransaction c blockId tr tx idx = .ok r ∧ r.Fee = Float64.zero := by
    intro hn
    rw [CreateOverflowTransaction_eq, feeAmountOf_none _ hn]
    exact ⟨_, rfl, rfl⟩
  refine ⟨h1, h2, h3, ⟨?_, ?_⟩⟩
  · rintro ⟨err, herr⟩
    cases hg : (c.ParseEvents tr.Events "").2.Fields.get? "amount" with
    | none =>
      obtain ⟨r, hr, _⟩ := h3 hg
      rw [hr] at herr
      cases herr
    | some v =>
      refine ⟨v, rfl, ?_⟩
      intro f hvf
      subst hvf
      obtain ⟨r, hr, _⟩ := h2 f hg
      rw [hr] at herr
      cases herr
  · rintro ⟨v, hv, hnf⟩
    exact ⟨_, h1 v hv hnf⟩

/-! ## Claims on gas and execution effort -/

theorem executionEffortOf_float (fee : OverflowEvent) (e : Float64)
    (h : fee.Fields.get? "executionEffort" = some (.float64 e)) :
    executionEffortOf fee = (e, true) := by
  unfold executionEffortOf; rw [h]

theorem executionEffortOf_none (fee : OverflowEvent)
    (h : fee.Fields.get? "executionEffort" = none) :
    executionEffortOf fee = (Float64.zero, false) := by
  unfold executionEffortOf; rw [h]

theorem executionEffortOf_other (fee : OverflowEvent) (v : Value)
    (h : fee.Fields.get? "executionEffort" = some v) (hv : ∀ f, v ≠ .float64 f) :
    executionEffortOf fee = (Float64.zero, false) := by
  unfold executionEffortOf; rw [h]
  cases v with
  | float64 f => exact absurd rfl (hv f)
  | nil => rfl
  | string s => rfl
  | int i => rfl
  | bool b => rfl

theorem toUint64_zero : toUint64 0 = 0 := by decide

/-- A record returned by `CreateOverflowTransaction` is the one `buildTransaction`
builds, so its gas and effort are those of the fee event. -/
theorem CreateOverflowTransaction_ok_fields {CV : Type} (c : Collaborators CV)
    (blockId : String) (tr : TransactionResult) (tx : Transaction) (idx : Nat)
    (r : OverflowTransaction) (hok : CreateOverflowTransaction c blockId tr tx idx = .ok r) :
    ∃ fa, feeAmountOf (c.ParseEvents tr.Events "").2 = .ok fa ∧
      r = buildTransaction c blockId tr tx idx (c.ParseEvents tr.Events "").1
        (c.ParseEvents tr.Events "").2 fa := by
  rw [CreateOverflowTransaction_eq] at hok
  cases hf : feeAmountOf (c.ParseEvents tr.Events "").2 with
  | error err => rw [hf] at hok; cases hok
  | ok fa =>
    rw [hf] at hok
    simp only [Except.ok.injEq] at hok
    exact ⟨fa, rfl, hok.symm⟩

theorem toInt_Round_of_isFinite (ovf : Float64 → Int) (p : Float64) (hfin : p.isFinite = true)
    (h1 : -2 ^ 63 ≤ roundHalfAway p.toRat) (h2 : roundHalfAway p.toRat < 2 ^ 63) :
    Float64.toInt ovf (Float64.Round p) = roundHalfAway p.toRat := by
  cases p with
  | finite s m e => exact toInt_Round_eq ovf s m e h1 h2
  | inf s => simp [Float64.isFinite] at hfin
  | nan => simp [Float64.isFinite] at hfin

/-- C5, within the range of the conversions: in a record returned by
`CreateOverflowTransaction`, when the fee event has the `float64` execution effort `e`
the record has `ExecutionEffort = e`, and `GasUsed` is the binary64 product of `e` and
`10^8` rounded to the nearest integer, halves away from zero, provided that product is
finite and its rounding lies in `[0, 2^63)`; when the `executionEffort` field is absent
`GasUsed = 0` and `ExecutionEffort = 0`. -/
theorem gasUsed_eq_round_of_float_product {CV : Type} (c : Collaborators CV)
    (blockId : String) (tr : TransactionResult) (tx : Transaction) (idx : Nat)
    (r : OverflowTransaction) (hok : CreateOverflowTransaction c blockId tr tx idx = .ok r) :
    (∀ e : Float64,
        (c.ParseEvents tr.Events "").2.Fields.get? "executionEffort" = some (.float64 e) →
        r.ExecutionEffort = e ∧
        ((Float64.mul e (Float64.ofInt 100000000)).isFinite = true →
          0 ≤ roundHalfAway (Float64.mul e (Float64.ofInt 100000000)).toRat →
          roundHalfAway (Float64.mul e (Float64.ofInt 100000000)).toRat < 2 ^ 63 →
          (r.GasUsed : Int) = roundHalfAway (Float64.mul e (Float64.ofInt 100000000)).toRat)) ∧
    ((c.ParseEvents tr.Events "").2.Fields.get? "executionEffort" = none →
        r.GasUsed = 0 ∧ r.ExecutionEffort = Float64.zero) := by
  obtain ⟨fa, _, hr⟩ := CreateOverflowTransaction_ok_fields c blockId tr tx idx r hok
  subst hr
  obtain ⟨_, hgas, heff⟩ := buildTransaction_fields c blockId tr tx idx
    (c.ParseEvents tr.Events "").1 (c.ParseEvents tr.Events "").2 fa
  rw [hgas, heff]
  constructor
  · intro e he
    have hee := executionEffortOf_float _ e he
    refine ⟨by rw [hee], ?_⟩
    intro hfin h0 h63
    have hg : gasOf c.intOutOfRange (c.ParseEvents tr.Events "").2 =
        roundHalfAway (Float64.mul e (Float64.ofInt 100000000)).toRat := by
      unfold gasOf
      simp only [hee, if_true]
      exact toInt_Round_of_isFinite _ _ hfin (le_trans (by norm_num) h0) h63
    rw [hg]
    exact toUint64_of_nonneg _ h0 h63
  · intro hn
    have hee := executionEffortOf_none _ hn
    refine ⟨?_, by rw [hee]⟩
    unfold gasOf
    simp only [hee, Bool.false_eq_true, if_false]
    exact toUint64_zero

/-- C7, as the code behaves: a fee event whose `executionEffort` field is present but not
a `float64` is not fatal. `CreateOverflowTransaction` returns a record whenever the fee
amount is absent or a `float64`, and every record it returns for such an input has
`GasUsed = 0` and `ExecutionEffort = 0`, as if the field were absent. -/
theorem executionEffort_not_float_is_not_fatal {CV : Type} (c : Collaborators CV)
    (blockId : String) (tr : TransactionResult) (tx : Transaction) (idx : Nat) (v : Value)
    (hv : (c.ParseEvents tr.Events "").2.Fields.get? "executionEffort" = some v)
    (hnf : ∀ f, v ≠ .float64 f) :
    ((c.ParseEvents tr.Events "").2.Fields.get? "amount" = none ∨
        (∃ f, (c.ParseEvents tr.Events "").2.Fields.get? "amount" = some (.float64 f)) →
      ∃ r, CreateOverflowTransaction c blockId tr tx idx = .ok r) ∧
    ∀ r, CreateOverflowTransaction c blockId tr tx idx = .ok r →
      r.GasUsed = 0 ∧ r.ExecutionEffort = Float64.zero := by
  constructor
  · rintro (hn | ⟨f, hf⟩)
    · rw [CreateOverflowTransaction_eq, feeAmountOf_none _ hn]
      exact ⟨_, rfl⟩
    · rw [CreateOverflowTransaction_eq, feeAmountOf_float _ f hf]
      exact ⟨_, rfl⟩
  · intro r hok
    obtain ⟨fa, _, hr⟩ := CreateOverflowTransaction_ok_fields c blockId tr tx idx r hok
    subst hr
    obtain ⟨_, hgas, heff⟩ := buildTransaction_fields c blockId tr tx idx
      (c.ParseEvents tr.Events "").1 (c.ParseEvents tr.Events "").2 fa
    have hee := executionEffortOf_other _ v hv hnf
    rw [hgas, heff]
    refine ⟨?_, by rw [hee]⟩
    unfold gasOf
    simp only [hee, Bool.false_eq_true, if_false]
    exact toUint64_zero

theorem mul_float1em8 :
    Float64.mul float1em8 (Float64.ofInt 100000000) = .finite false 4503599627370496 (-52) := by
  decide

theorem toRat_mul_float1em8 :
    (Float64.mul float1em8 (Float64.ofInt 100000000)).toRat = ((1 : Nat) : ℚ) := by
  rw [mul_float1em8, toRat_finite]
  norm_num

theorem roundHalfAway_mul_float1em8 :
    roundHalfAway (Float64.mul float1em8 (Float64.ofInt 100000000)).toRat = 1 := by
  rw [toRat_mul_float1em8, roundHalfAway_natCast]
  rfl

/-- Witness for C5: fee amount `1.0` and execution effort `1e-8` give `GasUsed = 1`. -/
theorem gasUsed_witness :
    ∃ r, CreateOverflowTransaction
        (exampleCollaborators exampleFee [] "mainnet" ([], []) (fun _ => 0)) "block"
        (exampleResult []) (exampleTransaction "script" []) 0 = .ok r ∧
      r.GasUsed = 1 ∧ r.ExecutionEffort = float1em8 ∧ r.Fee = float1 := by
  refine ⟨buildTransaction (exampleCollaborators exampleFee [] "mainnet" ([], []) (fun _ => 0))
    "block" (exampleResult []) (exampleTransaction "script" []) 0 GoMap.empty
    { Name := "FlowFees.FeesDeducted", Fields := exampleFee } float1, rfl, ?_, ?_, rfl⟩
  · have h := ((gasUsed_eq_round_of_float_product
      (exampleCollaborators exampleFee [] "mainnet" ([], []) (fun _ => 0)) "block"
      (exampleResult []) (exampleTransaction "script" []) 0 _ rfl).1 float1em8 rfl).2
      (by rw [mul_float1em8]; rfl)
      (by rw [roundHalfAway_mul_float1em8]; norm_num)
      (by rw [roundHalfAway_mul_float1em8]; norm_num)
    rw [roundHalfAway_mul_float1em8] at h
    exact_mod_cast h
  · exact ((gasUsed_eq_round_of_float_product
      (exampleCollaborators exampleFee [] "mainnet" ([], []) (fun _ => 0)) "block"
      (exampleResult []) (exampleTransaction "script" []) 0 _ rfl).1 float1em8 rfl).1

/-- Counterexample for C5: the execution effort `2^64` is a non-negative binary64
value, the record is returned, and on no platform is its `GasUsed` (a `uint64`) the
rounding of `2^64 * 10^8`. -/
theorem gasUsed_ne_round_at_two_pow_64 :
    float2pow64.IsValid ∧ 0 ≤ float2pow64.toRat ∧
    ∀ ovf : Float64 → Int, ∃ r,
      CreateOverflowTransaction
        (exampleCollaborators hugeEffortFee [] "mainnet" ([], []) ovf) "block"
        (exampleResult []) (exampleTransaction "script" []) 0 = .ok r ∧
      (r.GasUsed : Int) ≠ roundHalfAway (float2pow64.toRat * 10 ^ 8) := by
  have hval : float2pow64.toRat * 10 ^ 8 = ((2 ^ 64 * 10 ^ 8 : Nat) : ℚ) := by
    unfold float2pow64
    rw [toRat_finite]
    norm_num
  refine ⟨by decide, ?_, ?_⟩
  · unfold float2pow64
    rw [toRat_finite]
    norm_num
  · intro ovf
    refine ⟨_, rfl, ?_⟩
    rw [hval, roundHalfAway_natCast]
    obtain ⟨_, hgas, _⟩ := buildTransaction_fields
      (exampleCollaborators hugeEffortFee [] "mainnet" ([], []) ovf) "block"
      (exampleResult []) (exampleTransaction "script" []) 0 GoMap.empty
      { Name := "FlowFees.FeesDeducted", Fields := hugeEffortFee } float1
    intro h
    have hlt := toUint64_lt (gasOf ovf { Name := "FlowFees.FeesDeducted", Fields := hugeEffortFee })
    have h2 : (OverflowTransaction.GasUsed (buildTransaction
      (exampleCollaborators hugeEffortFee [] "mainnet" ([], []) ovf) "block"
      (exampleResult []) (exampleTransaction "script" []) 0 GoMap.empty
      { Name := "FlowFees.FeesDeducted", Fields := hugeEffortFee } float1)) =
        2 ^ 64 * 10 ^ 8 := by exact_mod_cast h
    rw [hgas] at h2
    change toUint64 (gasOf ovf _) = _ at h2
    omega

/-- Counterexample for C7: with the `executionEffort` field holding a string,
`CreateOverflowTransaction` returns a record, with `GasUsed = 0`, and no error. -/
theorem executionEffort_not_float_returns_record :
    ∃ r, CreateOverflowTransaction
        (exampleCollaborators textEffortFee [] "mainnet" ([], []) (fun _ => 0)) "block"
        (exampleResult []) (exampleTransaction "script" []) 0 = .ok r ∧
      r.GasUsed = 0 ∧ r.ExecutionEffort = Float64.zero ∧ r.Fee = float1 :=
  ⟨_, rfl, by decide, rfl, rfl⟩

/-- Witness for C7: the string `high` as execution effort, on the network `testnet`. -/
theorem executionEffort_not_float_is_not_fatal_witness :
    ∃ r, CreateOverflowTransaction
        (exampleCollaborators textEffortFee [] "testnet" ([], []) (fun _ => 0)) "block"
        (exampleResult []) (exampleTransaction "script" []) 0 = .ok r ∧
      r.GasUsed = 0 ∧ r.ExecutionEffort = Float64.zero := by
  have h := executionEffort_not_float_is_not_fatal
    (exampleCollaborators textEffortFee [] "testnet" ([], []) (fun _ => 0)) "block"
    (exampleResult []) (exampleTransaction "script" []) 0 (.string "high") rfl
    (by intro f hf; cases hf)
  obtain ⟨r, hr⟩ := h.1 (Or.inr ⟨float1, rfl⟩)
  exact ⟨r, hr, h.2 r hr⟩

/-! ## Claims on arguments, status and imports -/

theorem String.join_cons_eq (a : String) (l : List String) :
    String.join (a :: l) = a ++ String.join l := by
  apply String.ext
  simp [String.data_join]

theorem String.join_nil_eq : String.join [] = "" := rfl

/-- The key the argument loop gives position `i`. -/
theorem argumentKey_eq (P : List String) (i : Nat) :
    (if P.length ≤ i then "invalid" else P.getD i "") =
      if h : i < P.length then P[i] else "invalid" := by
  by_cases h : i < P.length
  · rw [if_neg (by omega), dif_pos h, List.getD_eq_getElem _ _ h]
  · rw [if_pos (by omega), dif_neg h]

theorem failedArgumentNotes_cons {CV : Type} (c : Collaborators CV) (i : Nat) (encoded : String)
    (rest : List (Nat × String)) :
    failedArgumentNotes c ((i, encoded) :: rest) =
      match c.DecodeArgument encoded with
      | .error _ => (" failed getting argument at index " ++ toString i) ::
          failedArgumentNotes c rest
      | .ok _ => failedArgumentNotes c rest := by
  unfold failedArgumentNotes
  cases h : c.DecodeArgument encoded with
  | error e => simp [List.filter_cons, h, Except.toOption]
  | ok v => simp [List.filter_cons, h, Except.toOption]

/-- The argument loop in closed form. -/
theorem argumentLoop_closed {CV : Type} (c : Collaborators CV) (P : List String)
    (raws : List String) (i : Nat) (s : ArgState) :
    (argumentLoop c P raws i s).args =
      s.args ++ (raws.enumFrom i).map (fun p =>
        ({ Key := if h : p.1 < P.length then P[p.1] else "invalid",
           Value := c.CadenceValueToInterface (c.DecodeArgument p.2).toOption } : Argument)) ∧
    (argumentLoop c P raws i s).status =
      s.status ++ String.join (failedArgumentNotes c (raws.enumFrom i)) := by
  induction raws generalizing i s with
  | nil => simp [argumentLoop, failedArgumentNotes, String.join_nil_eq]
  | cons raw rest ih =>
    rw [argumentLoop]
    constructor
    · refine (ih _ _).1.trans ?_
      rw [List.enumFrom_cons, List.map_cons, argumentKey_eq]
      simp
    · refine (ih _ _).2.trans ?_
      rw [List.enumFrom_cons, failedArgumentNotes_cons]
      cases hd : c.DecodeArgument raw with
      | error e =>
        simp only [String.join_cons_eq, String.append_assoc]
      | ok v => rfl

theorem GetAddressImports_of_error {CV : Type} (c : Collaborators CV) (code err : String)
    (h : c.ParseProgram code = .error err) : GetAddressImports c code = ([], some err) := by
  unfold GetAddressImports; rw [h]

theorem GetAddressImports_of_ok {CV : Type} (c : Collaborators CV) (code : String)
    (program : Program) (h : c.ParseProgram code = .ok program) :
    (GetAddressImports c code).2 = none := by
  unfold GetAddressImports; rw [h]

theorem buildTransaction_arguments {CV : Type} (c : Collaborators CV) (blockId : String)
    (tr : TransactionResult) (tx : Transaction) (idx : Nat) (events : OverflowEvents)
    (fee : OverflowEvent) (fa : Float64) :
    (buildTransaction c blockId tr tx idx events fee fa).Arguments =
      (argumentLoop c (c.declarationInfo tx.Script).ParameterOrder tx.Arguments 0
        { status := tr.Status, args := [] }).args ∧
    (buildTransaction c blockId tr tx idx events fee fa).Status =
      (match (GetAddressImports c tx.Script).2 with
       | some _ => (argumentLoop c (c.declarationInfo tx.Script).ParameterOrder tx.Arguments 0
          { status := tr.Status, args := [] }).status ++ " failed getting imports"
       | none => (argumentLoop c (c.declarationInfo tx.Script).ParameterOrder tx.Arguments 0
          { status := tr.Status, args := [] }).status) ∧
    (buildTransaction c blockId tr tx idx events fee fa).Imports =
      (GetAddressImports c tx.Script).1 :=
  ⟨rfl, rfl, rfl⟩

/-- C8: in a record returned by `CreateOverflowTransaction` for a transaction with `k`
positional arguments, `Arguments` has exactly `k` entries in positional order, entry `i`
having `Key = P[i]` when `i < len(P)` and `Key = "invalid"` otherwise, `P` being the
declared parameter order; no argument is dropped. -/
theorem arguments_keyed_by_position {CV : Type} (c : Collaborators CV) (blockId : String)
    (tr : TransactionResult) (tx : Transaction) (idx : Nat) (r : OverflowTransaction)
    (hok : CreateOverflowTransaction c blockId tr tx idx = .ok r) :
    r.Arguments.length = tx.Arguments.length ∧
    ∀ (i : Nat) (encoded : String), tx.Arguments[i]? = some encoded →
      r.Arguments[i]? = some
        { Key := if h : i < (c.declarationInfo tx.Script).ParameterOrder.length
            then (c.declarationInfo tx.Script).ParameterOrder[i] else "invalid",
          Value := c.CadenceValueToInterface (c.DecodeArgument encoded).toOption } := by
  obtain ⟨fa, _, hr⟩ := CreateOverflowTransaction_ok_fields c blockId tr tx idx r hok
  subst hr
  obtain ⟨harg, _, _⟩ := buildTransaction_arguments c blockId tr tx idx
    (c.ParseEvents tr.Events "").1 (c.ParseEvents tr.Events "").2 fa
  rw [harg, (argumentLoop_closed c _ tx.Arguments 0 _).1]
  constructor
  · simp
  · intro i encoded hi
    simp [List.getElem?_enumFrom, hi]

/-- C9: when the fee amount is absent or a `float64`, `CreateOverflowTransaction`
succeeds; every argument is processed, `Status` is the raw status followed by
` failed getting argument at index i` for each argument whose decoding failed, in
increasing `i`, followed by ` failed getting imports` when import extraction failed, in
which case `Imports` is empty. -/
theorem field_failures_annotate_status {CV : Type} (c : Collaborators CV) (blockId : String)
    (tr : TransactionResult) (tx : Transaction) (idx : Nat)
    (hamount : (c.ParseEvents tr.Events "").2.Fields.get? "amount" = none ∨
      ∃ f, (c.ParseEvents tr.Events "").2.Fields.get? "amount" = some (.float64 f)) :
    ∃ r, CreateOverflowTransaction c blockId tr tx idx = .ok r ∧
      r.Arguments.length = tx.Arguments.length ∧
      r.Status = tr.Status ++ String.join (failedArgumentNotes c tx.Arguments.enum) ++
        (match c.ParseProgram tx.Script with
         | .error _ => " failed getting imports"
         | .ok _ => "") ∧
      ((∃ err, c.ParseProgram tx.Script = .error err) → r.Imports = []) := by
  have hex : ∃ r, CreateOverflowTransaction c blockId tr tx idx = .ok r := by
    rcases hamount with hn | ⟨f, hf⟩
    · rw [CreateOverflowTransaction_eq, feeAmountOf_none _ hn]; exact ⟨_, rfl⟩
    · rw [CreateOverflowTransaction_eq, feeAmountOf_float _ f hf]; exact ⟨_, rfl⟩
  obtain ⟨r, hok⟩ := hex
  refine ⟨r, hok, ?_, ?_, ?_⟩
  · obtain ⟨fa, _, hr⟩ := CreateOverflowTransaction_ok_fields c blockId tr tx idx r hok
    subst hr
    obtain ⟨harg, _, _⟩ := buildTransaction_arguments c blockId tr tx idx
      (c.ParseEvents tr.Events "").1 (c.ParseEvents tr.Events "").2 fa
    rw [harg, (argumentLoop_closed c _ tx.Arguments 0 _).1]
    simp
  · obtain ⟨fa, _, hr⟩ := CreateOverflowTransaction_ok_fields c blockId tr tx idx r hok
    subst hr
    obtain ⟨_, hst, _⟩ := buildTransaction_arguments c blockId tr tx idx
      (c.ParseEvents tr.Events "").1 (c.ParseEvents tr.Events "").2 fa
    rw [hst, (argumentLoop_closed c _ tx.Arguments 0 _).2]
    cases hp : c.ParseProgram tx.Script with
    | error err =>
      rw [GetAddressImports_of_error c _ err hp]
      rfl
    | ok program =>
      rw [GetAddressImports_of_ok c _ program hp]
      simp [List.enum]
  · rintro ⟨err, herr⟩
    obtain ⟨fa, _, hr⟩ := CreateOverflowTransaction_ok_fields c blockId tr tx idx r hok
    subst hr
    obtain ⟨_, _, him⟩ := buildTransaction_arguments c blockId tr tx idx
      (c.ParseEvents tr.Events "").1 (c.ParseEvents tr.Events "").2 fa
    rw [him, GetAddressImports_of_error c _ err herr]

/-- Witness for C8: one declared parameter and three arguments, the second of which
fails to decode. -/
theorem arguments_keyed_by_position_witness :
    ∃ r, CreateOverflowTransaction
        (exampleCollaborators exampleFee ["to"] "mainnet" ([], []) (fun _ => 0)) "block"
        (exampleResult []) (exampleTransaction "script" ["a", "", "c"]) 0 = .ok r ∧
      r.Arguments.length = 3 ∧
      r.Arguments[0]? = some { Key := "to", Value := .string "a" } ∧
      r.Arguments[1]? = some { Key := "invalid", Value := .nil } ∧
      r.Arguments[2]? = some { Key := "invalid", Value := .string "c" } :=
  ⟨_, rfl,
    (arguments_keyed_by_position
      (exampleCollaborators exampleFee ["to"] "mainnet" ([], []) (fun _ => 0)) "block"
      (exampleResult []) (exampleTransaction "script" ["a", "", "c"]) 0 _ rfl).1,
    (arguments_keyed_by_position
      (exampleCollaborators exampleFee ["to"] "mainnet" ([], []) (fun _ => 0)) "block"
      (exampleResult []) (exampleTransaction "script" ["a", "", "c"]) 0 _ rfl).2 0 "a" rfl,
    (arguments_keyed_by_position
      (exampleCollaborators exampleFee ["to"] "mainnet" ([], []) (fun _ => 0)) "block"
      (exampleResult []) (exampleTransaction "script" ["a", "", "c"]) 0 _ rfl).2 1 "" rfl,
    (arguments_keyed_by_position
      (exampleCollaborators exampleFee ["to"] "mainnet" ([], []) (fun _ => 0)) "block"
      (exampleResult []) (exampleTransaction "script" ["a", "", "c"]) 0 _ rfl).2 2 "c" rfl⟩

/-- Witness for C9: arguments 1 and 3 fail to decode and the script fails to parse. -/
theorem field_failures_annotate_status_witness :
    ∃ r, CreateOverflowTransaction
        (exampleCollaborators exampleFee ["to"] "mainnet" ([], []) (fun _ => 0)) "block"
        (exampleResult []) (exampleTransaction "" ["a", "", "c", ""]) 0 = .ok r ∧
      r.Arguments.length = 4 ∧
      r.Status = "SEALED failed getting argument at index 1 failed getting argument at index 3 failed getting imports" ∧
      r.Imports = [] := by
  obtain ⟨r, hok, hlen, hst, him⟩ := field_failures_annotate_status
    (exampleCollaborators exampleFee ["to"] "mainnet" ([], []) (fun _ => 0)) "block"
    (exampleResult []) (exampleTransaction "" ["a", "", "c", ""]) 0 (Or.inr ⟨float1, rfl⟩)
  exact ⟨r, hok, hlen, hst.trans (by decide), him ⟨_, rfl⟩⟩

/-! ## Claims on `GetOverflowTransactionsForBlockId` -/

/-- Where `normalizeEntries` returns, every transaction it returns is the normalization
of one of the entries, tagged with that entry's position. -/
theorem normalizeEntries_mem {CV : Type} (c : Collaborators CV) (id : String)
    (tx : List Transaction) (es : List (Nat × TransactionResult)) (ots : List OverflowTransaction)
    (h : normalizeEntries c id tx es = .ok ots) :
    ∀ ot ∈ ots, ∃ i r t, (i, r) ∈ es ∧ tx[i]? = some t ∧
      CreateOverflowTransaction c id r t i = .ok ot ∧ ot.TransactionIndex = i := by
  induction es generalizing ots with
  | nil =>
    simp only [normalizeEntries, Except.ok.injEq] at h
    subst h
    intro ot hot
    cases hot
  | cons e es ih =>
    obtain ⟨i, r⟩ := e
    rw [normalizeEntries] at h
    cases ht : tx[i]? with
    | none => rw [ht] at h; cases h
    | some t =>
      rw [ht] at h
      simp only at h
      by_cases hs : t.EnvelopeSignatures.length = 0
      · rw [if_pos hs] at h
        intro ot hot
        obtain ⟨j, r2, t2, hm, h1, h2, h3⟩ := ih ots h ot hot
        exact ⟨j, r2, t2, List.mem_cons_of_mem _ hm, h1, h2, h3⟩
      · rw [if_neg hs] at h
        cases hc : CreateOverflowTransaction c id r t i with
        | error err => rw [hc] at h; cases h
        | ok o =>
          rw [hc] at h
          simp only at h
          cases hn : normalizeEntries c id tx es with
          | error f => rw [hn] at h; cases h
          | ok rest =>
            rw [hn] at h
            simp only [Except.ok.injEq] at h
            subst h
            intro ot hot
            rcases List.mem_cons.1 hot with rfl | hot
            · refine ⟨i, r, t, List.mem_cons_self _ _, ht, hc, ?_⟩
              obtain ⟨fa, _, hr⟩ := CreateOverflowTransaction_ok_fields c id r t i ot hc
              rw [hr]
              rfl
            · obtain ⟨j, r2, t2, hm, h1, h2, h3⟩ := ih rest hn ot hot
              exact ⟨j, r2, t2, List.mem_cons_of_mem _ hm, h1, h2, h3⟩

/-- The `lo.FlatMap` loop over entries none of which is treated as the system chunk. -/
theorem flatMapLoop_ordinary {CV : Type} (c : Collaborators CV) (id : String)
    (tx : List Transaction) (total : Nat) (rs : List TransactionResult) (i : Nat) (s : BlockState)
    (h : c.GetNetwork = "emulator" ∨ i + rs.length < total) :
    flatMapLoop c id tx total rs i s =
      match normalizeEntries c id tx (rs.enumFrom i) with
      | .error f => .error f
      | .ok ots => .ok { s with result := s.result ++ ots } := by
  induction rs generalizing i s with
  | nil => simp [flatMapLoop, normalizeEntries]
  | cons r rs ih =>
    have hcond : (decide (total = i + 1) && decide (c.GetNetwork ≠ "emulator")) = false := by
      rcases h with h | h
      · simp [h]
      · have : total ≠ i + 1 := by simp only [List.length_cons] at h; omega
        simp [this]
    have h' : c.GetNetwork = "emulator" ∨ i + 1 + rs.length < total := by
      rcases h with h | h
      · exact Or.inl h
      · right; simp only [List.length_cons] at h; omega
    rw [flatMapLoop, List.enumFrom_cons, normalizeEntries]
    simp only [hcond, Bool.false_eq_true, if_false]
    cases ht : tx[i]? with
    | none => rfl
    | some t =>
      simp only
      by_cases hs : t.EnvelopeSignatures.length = 0
      · rw [if_pos hs, if_pos hs, ih (i + 1) s h']
      · rw [if_neg hs, if_neg hs]
        cases hc : CreateOverflowTransaction c id r t i with
        | error err => rfl
        | ok ot =>
          simp only
          rw [ih (i + 1) _ h']
          cases hn : normalizeEntries c id tx (List.enumFrom (i + 1) rs) with
          | error f => rfl
          | ok ots => simp

/-- The `lo.FlatMap` loop on a network other than `emulator`, over entries the last of
which is the last raw result of the block. -/
theorem flatMapLoop_system_chunk {CV : Type} (c : Collaborators CV) (id : String)
    (tx : List Transaction) (total : Nat) (init : List TransactionResult)
    (last : TransactionResult) (i : Nat) (s : BlockState)
    (hnet : c.GetNetwork ≠ "emulator") (htotal : i + init.length + 1 = total) :
    flatMapLoop c id tx total (init ++ [last]) i s =
      match normalizeEntries c id tx (init.enumFrom i) with
      | .error f => .error f
      | .ok ots => .ok
          { result := s.result ++ ots
            systemChunkEvents := (c.ParseEvents last.Events (toString last.BlockHeight ++ "-")).1 } := by
  induction init generalizing i s with
  | nil =>
    have hcond : (decide (total = i + 1) && decide (c.GetNetwork ≠ "emulator")) = true := by
      have : total = i + 1 := by simp only [List.length_nil] at htotal; omega
      simp [this, hnet]
    rw [List.nil_append, flatMapLoop]
    simp only [hcond, if_true]
    simp [flatMapLoop, normalizeEntries]
  | cons r rs ih =>
    have hcond : (decide (total = i + 1) && decide (c.GetNetwork ≠ "emulator")) = false := by
      have : total ≠ i + 1 := by simp only [List.length_cons] at htotal; omega
      simp [this]
    have h' : i + 1 + rs.length + 1 = total := by
      simp only [List.length_cons] at htotal; omega
    rw [List.cons_append, flatMapLoop, List.enumFrom_cons, normalizeEntries]
    simp only [hcond, Bool.false_eq_true, if_false]
    cases ht : tx[i]? with
    | none => rfl
    | some t =>
      simp only
      by_cases hs : t.EnvelopeSignatures.length = 0
      · rw [if_pos hs, if_pos hs, ih (i + 1) s h']
      · rw [if_neg hs, if_neg hs]
        cases hc : CreateOverflowTransaction c id r t i with
        | error err => rfl
        | ok ot =>
          simp only
          rw [ih (i + 1) _ h']
          cases hn : normalizeEntries c id tx (List.enumFrom (i + 1) rs) with
          | error f => rfl
          | ok ots => simp

/-- C10: for a block whose raw results were fetched, on a network other than `emulator`
the last raw result yields no transaction (the transactions returned are the
normalizations of the entries before it, each tagged with a position below `n - 1`) and
`systemChunkEvents` is the decoded events of that last result and of no other entry; on
the `emulator` network the last result is treated like any other entry and
`systemChunkEvents` is empty. -/
theorem systemChunkEvents_of_last_result {CV : Type} (c : Collaborators CV) (id : String)
    (tx : List Transaction) (txR : List TransactionResult)
    (hfetch : c.GetTransactionsByBlockID id = .ok (tx, txR)) :
    (c.GetNetwork ≠ "emulator" → ∀ init last, txR = init ++ [last] →
      GetOverflowTransactionsForBlockId c id =
        (match normalizeEntries c id tx init.enum with
         | .error f => .error f
         | .ok ots => .ok (ots,
            (c.ParseEvents last.Events (toString last.BlockHeight ++ "-")).1)) ∧
      ∀ ots sys, GetOverflowTransactionsForBlockId c id = .ok (ots, sys) →
        ∀ ot ∈ ots, ot.TransactionIndex < init.length) ∧
    (c.GetNetwork = "emulator" →
      GetOverflowTransactionsForBlockId c id =
        match normalizeEntries c id tx txR.enum with
        | .error f => .error f
        | .ok ots => .ok (ots, GoMap.empty)) := by
  constructor
  · intro hnet init last hsplit
    have heq : GetOverflowTransactionsForBlockId c id =
        (match normalizeEntries c id tx init.enum with
         | .error f => .error f
         | .ok ots => .ok (ots,
            (c.ParseEvents last.Events (toString last.BlockHeight ++ "-")).1)) := by
      unfold GetOverflowTransactionsForBlockId
      rw [hfetch]
      simp only
      rw [hsplit, flatMapLoop_system_chunk c id tx _ init last 0 _ hnet (by simp)]
      unfold List.enum
      cases hn : normalizeEntries c id tx (List.enumFrom 0 init) with
      | error f => rfl
      | ok ots => simp
    refine ⟨heq, ?_⟩
    intro ots sys hok ot hot
    rw [heq] at hok
    cases hn : normalizeEntries c id tx init.enum with
    | error f => rw [hn] at hok; cases hok
    | ok ots2 =>
      rw [hn] at hok
      simp only [Except.ok.injEq, Prod.mk.injEq] at hok
      obtain ⟨rfl, _⟩ := hok
      obtain ⟨i, r, t, hm, _, _, hidx⟩ := normalizeEntries_mem c id tx _ _ hn ot hot
      rw [hidx]
      have := List.fst_lt_of_mem_enum hm
      exact this
  · intro hnet
    unfold GetOverflowTransactionsForBlockId
    rw [hfetch]
    simp only
    rw [flatMapLoop_ordinary c id tx _ txR 0 _ (Or.inl hnet)]
    unfold List.enum
    cases hn : normalizeEntries c id tx (List.enumFrom 0 txR) with
    | error f => rfl
    | ok ots => simp

/-- Witness for C10, the scenario of three raw results, the first two with signed
envelopes and the third carrying two events: on `mainnet` two transactions and two
groups of system chunk events; on `emulator` three transactions and none. -/
theorem systemChunkEvents_of_last_result_witness :
    (∃ ots sys,
      GetOverflowTransactionsForBlockId
        (exampleCollaborators exampleFee [] "mainnet" exampleBlock (fun _ => 0)) "block" =
          .ok (ots, sys) ∧
      ots.length = 2 ∧ ots.map (·.TransactionIndex) = [0, 1] ∧ sys.len = 2) ∧
    (∃ ots sys,
      GetOverflowTransactionsForBlockId
        (exampleCollaborators exampleFee [] "emulator" exampleBlock (fun _ => 0)) "block" =
          .ok (ots, sys) ∧
      ots.length = 3 ∧ sys.len = 0) :=
  ⟨⟨_, _,
      ((systemChunkEvents_of_last_result
        (exampleCollaborators exampleFee [] "mainnet" exampleBlock (fun _ => 0)) "block"
        exampleBlock.1 exampleBlock.2 rfl).1 (by decide)
        [exampleResult [], exampleResult []]
        (exampleResult [{ EventType := "A.Epoch.Start", Payload := "" },
                        { EventType := "A.Epoch.Commit", Payload := "" }]) rfl).1.trans rfl,
      rfl, rfl, by decide⟩,
   ⟨_, _,
      ((systemChunkEvents_of_last_result
        (exampleCollaborators exampleFee [] "emulator" exampleBlock (fun _ => 0)) "block"
        exampleBlock.1 exampleBlock.2 rfl).2 rfl).trans rfl,
      rfl, rfl⟩⟩

/-! ## Claims on the transactions of a block -/

theorem normalizeEntries_ok_iff {CV : Type} (c : Collaborators CV) (id : String)
    (tx : List Transaction) (es : List (Nat × TransactionResult)) (ots : List OverflowTransaction) :
    normalizeEntries c id tx es = .ok ots ↔
      (∀ e ∈ es, ∃ t, tx[e.1]? = some t ∧
        (t.EnvelopeSignatures.length ≠ 0 → ∃ ot, CreateOverflowTransaction c id e.2 t e.1 = .ok ot)) ∧
      ots = (es.filter (fun e => isSigned tx e.1)).filterMap (normalizationOf c id tx) := by
  induction es generalizing ots with
  | nil =>
    simp only [normalizeEntries, Except.ok.injEq, List.not_mem_nil, false_implies, implies_true,
      List.filter_nil, List.filterMap_nil, true_and]
    exact eq_comm
  | cons e es ih =>
    obtain ⟨i, r⟩ := e
    rw [normalizeEntries]
    cases ht : tx[i]? with
    | none =>
      simp only
      constructor
      · intro h; cases h
      · rintro ⟨h, _⟩
        obtain ⟨t, ht2, _⟩ := h (i, r) (List.mem_cons_self _ _)
        rw [ht] at ht2; cases ht2
    | some t =>
      simp only
      by_cases hs : t.EnvelopeSignatures.length = 0
      · rw [if_pos hs, ih]
        have hns : isSigned tx i = false := by simp [isSigned, ht, hs]
        simp only [List.mem_cons, forall_eq_or_imp, ht, Option.some.injEq, exists_eq_left', hs,
          ne_eq, not_true_eq_false, false_implies, true_and, List.filter_cons, hns,
          Bool.false_eq_true, if_false]
      · rw [if_neg hs]
        have hsg : isSigned tx i = true := by simp [isSigned, ht, hs]
        cases hc : CreateOverflowTransaction c id r t i with
        | error err =>
          simp only
          constructor
          · intro h; cases h
          · rintro ⟨h, _⟩
            obtain ⟨t2, ht2, h3⟩ := h (i, r) (List.mem_cons_self _ _)
            rw [ht] at ht2
            cases ht2
            obtain ⟨ot, hot⟩ := h3 hs
            rw [hc] at hot; cases hot
        | ok ot =>
          simp only
          have hn : normalizationOf c id tx (i, r) = some ot := by
            simp [normalizationOf, ht, hc, Except.toOption]
          cases hrest : normalizeEntries c id tx es with
          | error f =>
            simp only
            constructor
            · intro h; cases h
            · rintro ⟨h, _⟩
              have := (ih ((es.filter (fun e => isSigned tx e.1)).filterMap
                (normalizationOf c id tx))).2 ⟨fun e he => h e (List.mem_cons_of_mem _ he), rfl⟩
              rw [hrest] at this; cases this
          | ok rest =>
            simp only [Except.ok.injEq]
            have hr := (ih rest).1 hrest
            constructor
            · intro h
              subst h
              refine ⟨?_, ?_⟩
              · intro e he
                rcases List.mem_cons.1 he with rfl | he
                · exact ⟨t, ht, fun _ => ⟨ot, hc⟩⟩
                · exact hr.1 e he
              · rw [List.filter_cons, if_pos hsg, List.filterMap_cons, hn, ← hr.2]
            · rintro ⟨_, h⟩
              rw [h, List.filter_cons, if_pos hsg, List.filterMap_cons, hn, ← hr.2]

theorem normalizeEntries_error_panicked {CV : Type} (c : Collaborators CV) (id : String)
    (tx : List Transaction) (es : List (Nat × TransactionResult)) (f : Failure)
    (h : normalizeEntries c id tx es = .error f) : ∃ msg, f = .panicked msg := by
  induction es with
  | nil => simp [normalizeEntries] at h
  | cons e es ih =>
    obtain ⟨i, r⟩ := e
    rw [normalizeEntries] at h
    cases ht : tx[i]? with
    | none =>
      rw [ht] at h
      simp only [Except.error.injEq] at h
      exact ⟨_, h.symm⟩
    | some t =>
      rw [ht] at h
      simp only at h
      by_cases hs : t.EnvelopeSignatures.length = 0
      · rw [if_pos hs] at h
        exact ih h
      · rw [if_neg hs] at h
        cases hc : CreateOverflowTransaction c id r t i with
        | error err =>
          rw [hc] at h
          simp only [Except.error.injEq] at h
          exact ⟨_, h.symm⟩
        | ok ot =>
          rw [hc] at h
          simp only at h
          cases hrest : normalizeEntries c id tx es with
          | error g =>
            rw [hrest] at h
            simp only [Except.error.injEq] at h
            subst h
            exact ih hrest
          | ok rest => rw [hrest] at h; cases h

theorem enum_dropLast_append_singleton {α : Type} (init : List α) (last : α) :
    (init ++ [last]).enum.dropLast = init.enum := by
  unfold List.enum
  rw [List.enumFrom_append, List.enumFrom_singleton, List.dropLast_concat]

/-- The transactions and the outcome of `GetOverflowTransactionsForBlockId` are those of
normalizing the candidate entries one after the other. -/
theorem GetOverflowTransactionsForBlockId_candidates {CV : Type} (c : Collaborators CV)
    (id : String) (tx : List Transaction) (txR : List TransactionResult)
    (hfetch : c.GetTransactionsByBlockID id = .ok (tx, txR)) :
    ∃ sys, GetOverflowTransactionsForBlockId c id =
      match normalizeEntries c id tx (candidateEntries c.GetNetwork txR) with
      | .error f => .error f
      | .ok ots => .ok (ots, sys) := by
  unfold GetOverflowTransactionsForBlockId candidateEntries
  rw [hfetch]
  simp only
  by_cases hnet : c.GetNetwork = "emulator"
  · rw [if_pos hnet, flatMapLoop_ordinary c id tx _ txR 0 _ (Or.inl hnet)]
    refine ⟨GoMap.empty, ?_⟩
    unfold List.enum
    cases hn : normalizeEntries c id tx (List.enumFrom 0 txR) with
    | error f => rfl
    | ok ots => simp
  · rw [if_neg hnet]
    rcases List.eq_nil_or_concat txR with hnil | ⟨init, last, hsplit⟩
    · subst hnil
      exact ⟨GoMap.empty, by simp [flatMapLoop, normalizeEntries]⟩
    · subst hsplit
      rw [List.concat_eq_append] 
      rw [flatMapLoop_system_chunk c id tx _ init last 0 _ hnet (by simp),
        enum_dropLast_append_singleton]
      refine ⟨(c.ParseEvents last.Events (toString last.BlockHeight ++ "-")).1, ?_⟩
      unfold List.enum
      cases hn : normalizeEntries c id tx (List.enumFrom 0 init) with
      | error f => rfl
      | ok ots => simp

theorem filterMap_index {CV : Type} (c : Collaborators CV) (id : String) (tx : List Transaction)
    (l : List (Nat × TransactionResult))
    (h : ∀ e ∈ l, ∃ ot, normalizationOf c id tx e = some ot) :
    (l.filterMap (normalizationOf c id tx)).map (fun ot => ot.TransactionIndex) = l.map Prod.fst := by
  induction l with
  | nil => rfl
  | cons e l ih =>
    obtain ⟨ot, hot⟩ := h e (List.mem_cons_self _ _)
    rw [List.filterMap_cons, hot, List.map_cons, List.map_cons,
      ih (fun e he => h e (List.mem_cons_of_mem _ he))]
    congr 1
    unfold normalizationOf at hot
    cases ht : tx[e.1]? with
    | none => rw [ht] at hot; cases hot
    | some t =>
      rw [ht] at hot
      simp only at hot
      cases hc : CreateOverflowTransaction c id e.2 t e.1 with
      | error err => rw [hc] at hot; cases hot
      | ok o =>
        rw [hc] at hot
        simp only [Except.toOption, Option.some.injEq] at hot
        subst hot
        obtain ⟨fa, _, hr⟩ := CreateOverflowTransaction_ok_fields c id e.2 t e.1 o hc
        rw [hr]
        rfl

/-- C11: for a block whose raw results were fetched, whenever
`GetOverflowTransactionsForBlockId` returns, the transactions are exactly the
normalizations, in raw order, of the entries that are not the system chunk and whose
envelope has a signature, so none comes from an entry without signatures, and their
`TransactionIndex` values are the positions of those entries in the raw arrays; it
returns whenever every such entry has a transaction and every signed one normalizes,
whatever the content of the entries without signatures. -/
theorem transactions_are_signed_candidates {CV : Type} (c : Collaborators CV) (id : String)
    (tx : List Transaction) (txR : List TransactionResult)
    (hfetch : c.GetTransactionsByBlockID id = .ok (tx, txR)) :
    (∀ ots sys, GetOverflowTransactionsForBlockId c id = .ok (ots, sys) →
      ots = ((candidateEntries c.GetNetwork txR).filter (fun e => isSigned tx e.1)).filterMap
        (normalizationOf c id tx) ∧
      ots.map (fun ot => ot.TransactionIndex) =
        ((candidateEntries c.GetNetwork txR).filter (fun e => isSigned tx e.1)).map Prod.fst ∧
      ots.length = ((candidateEntries c.GetNetwork txR).filter (fun e => isSigned tx e.1)).length) ∧
    ((∀ e ∈ candidateEntries c.GetNetwork txR, ∃ t, tx[e.1]? = some t ∧
        (t.EnvelopeSignatures.length ≠ 0 →
          ∃ ot, CreateOverflowTransaction c id e.2 t e.1 = .ok ot)) →
      ∃ ots sys, GetOverflowTransactionsForBlockId c id = .ok (ots, sys)) := by
  obtain ⟨sys0, heq⟩ := GetOverflowTransactionsForBlockId_candidates c id tx txR hfetch
  constructor
  · intro ots sys hok
    rw [heq] at hok
    cases hn : normalizeEntries c id tx (candidateEntries c.GetNetwork txR) with
    | error f => rw [hn] at hok; cases hok
    | ok ots2 =>
      rw [hn] at hok
      simp only [Except.ok.injEq, Prod.mk.injEq] at hok
      obtain ⟨rfl, _⟩ := hok
      obtain ⟨hall, hots⟩ := (normalizeEntries_ok_iff c id tx _ _).1 hn
      have hidx : ots2.map (fun ot => ot.TransactionIndex) =
          ((candidateEntries c.GetNetwork txR).filter (fun e => isSigned tx e.1)).map Prod.fst := by
        rw [hots]
        apply filterMap_index
        intro e he
        obtain ⟨hmem, hsg⟩ := List.mem_filter.1 he
        obtain ⟨t, ht, hcr⟩ := hall e hmem
        have hs : t.EnvelopeSignatures.length ≠ 0 := by
          simpa [isSigned, ht] using hsg
        obtain ⟨ot, hot⟩ := hcr hs
        exact ⟨ot, by simp [normalizationOf, ht, hot, Except.toOption]⟩
      refine ⟨hots, hidx, ?_⟩
      have := congrArg List.length hidx
      simpa using this
  · intro hall
    have hn := (normalizeEntries_ok_iff c id tx _ _).2 ⟨hall, rfl⟩
    rw [heq, hn]
    exact ⟨_, _, rfl⟩

/-- Witness for C11: in `heartbeatBlock` on `mainnet` the second entry has no signature
and would fail normalization; the call returns the normalizations of the entries at
positions 0 and 2. -/
theorem transactions_are_signed_candidates_witness :
    CreateOverflowTransaction (feeByEventsCollaborators "mainnet" heartbeatBlock) "block"
      (exampleResult [{ EventType := "A.Epoch.Heartbeat", Payload := "" }])
      unsignedTransaction 1 = .error "failed casting fee amount to float64" ∧
    ∃ ots sys,
      GetOverflowTransactionsForBlockId (feeByEventsCollaborators "mainnet" heartbeatBlock)
        "block" = .ok (ots, sys) ∧
      ots.map (fun ot => ot.TransactionIndex) = [0, 2] ∧ ots.length = 2 := by
  refine ⟨rfl, ?_⟩
  have h := transactions_are_signed_candidates (feeByEventsCollaborators "mainnet" heartbeatBlock)
    "block" heartbeatBlock.1 heartbeatBlock.2 rfl
  have hcand : candidateEntries (feeByEventsCollaborators "mainnet" heartbeatBlock).GetNetwork
      heartbeatBlock.2 =
      [(0, exampleResult []),
       (1, exampleResult [{ EventType := "A.Epoch.Heartbeat", Payload := "" }]),
       (2, exampleResult [])] := rfl
  obtain ⟨ots, sys, hok⟩ := h.2 (by
    intro e he
    rw [hcand] at he
    simp only [List.mem_cons, List.mem_singleton, List.not_mem_nil, or_false] at he
    rcases he with rfl | rfl | rfl
    · exact ⟨_, rfl, fun _ => ⟨_, rfl⟩⟩
    · exact ⟨_, rfl, fun hne => absurd rfl hne⟩
    · exact ⟨_, rfl, fun _ => ⟨_, rfl⟩⟩)
  obtain ⟨_, hidx, hlen⟩ := h.1 ots sys hok
  exact ⟨ots, sys, hok, hidx.trans (by decide), hlen.trans (by decide)⟩

/-- C12, as the code behaves: when the normalization of a signed entry that is not the
system chunk fails, `GetOverflowTransactionsForBlockId` does not return an error to its
caller: the call ends in a panic. -/
theorem normalization_failure_panics {CV : Type} (c : Collaborators CV) (id : String)
    (tx : List Transaction) (txR : List TransactionResult)
    (hfetch : c.GetTransactionsByBlockID id = .ok (tx, txR))
    (i : Nat) (r : TransactionResult) (t : Transaction) (err : String)
    (hmem : (i, r) ∈ candidateEntries c.GetNetwork txR) (ht : tx[i]? = some t)
    (hs : t.EnvelopeSignatures.length ≠ 0)
    (herr : CreateOverflowTransaction c id r t i = .error err) :
    ∃ msg, GetOverflowTransactionsForBlockId c id = .error (.panicked msg) := by
  obtain ⟨sys0, heq⟩ := GetOverflowTransactionsForBlockId_candidates c id tx txR hfetch
  rw [heq]
  cases hn : normalizeEntries c id tx (candidateEntries c.GetNetwork txR) with
  | error f =>
    obtain ⟨msg, rfl⟩ := normalizeEntries_error_panicked c id tx _ f hn
    exact ⟨msg, rfl⟩
  | ok ots =>
    obtain ⟨hall, _⟩ := (normalizeEntries_ok_iff c id tx _ _).1 hn
    obtain ⟨t2, ht2, hcr⟩ := hall (i, r) hmem
    rw [ht] at ht2
    cases ht2
    obtain ⟨ot, hot⟩ := hcr hs
    rw [herr] at hot
    cases hot

/-- Witness for C12: with a fee amount that is a string, the first entry of
`exampleBlock` fails normalization and the call panics with that error. -/
theorem normalization_failure_panics_witness :
    CreateOverflowTransaction
      (exampleCollaborators textAmountFee [] "mainnet" exampleBlock (fun _ => 0)) "block"
      (exampleResult []) (exampleTransaction "script" ["a"]) 0 =
        .error "failed casting fee amount to float64" ∧
    GetOverflowTransactionsForBlockId
      (exampleCollaborators textAmountFee [] "mainnet" exampleBlock (fun _ => 0)) "block" =
        .error (.panicked "failed casting fee amount to float64") ∧
    ∃ msg, GetOverflowTransactionsForBlockId
      (exampleCollaborators textAmountFee [] "mainnet" exampleBlock (fun _ => 0)) "block" =
        .error (.panicked msg) := by
  refine ⟨rfl, rfl, ?_⟩
  obtain ⟨msg, h⟩ := normalization_failure_panics
    (exampleCollaborators textAmountFee [] "mainnet" exampleBlock (fun _ => 0)) "block"
    exampleBlock.1 exampleBlock.2 rfl 0 (exampleResult []) (exampleTransaction "script" ["a"])
    "failed casting fee amount to float64" (List.mem_cons_self _ _) rfl (by decide) rfl
  exact ⟨msg, h⟩

/-! ## Claims on imports -/

theorem identifierLoop_closed (address : Address) (ids : List String) (deps : List Import) :
    ids.foldl (fun deps id => deps ++ [{ Address := addressKey address, Name := id }]) deps =
      deps ++ ids.map (fun id => { Address := "0x" ++ address.Hex, Name := id }) := by
  induction ids generalizing deps with
  | nil => simp
  | cons id ids ih =>
    rw [List.foldl_cons, ih, List.map_cons, List.append_assoc]
    rfl

theorem importLoop_closed (decls : List ImportDeclaration) (deps : List Import) :
    decls.foldl
      (fun deps imp =>
        match imp.Location with
        | .address address _ =>
          imp.Identifiers.foldl
            (fun deps id => deps ++ [{ Address := addressKey address, Name := id }]) deps
        | _ => deps)
      deps = deps ++ decls.flatMap addressImportsOf := by
  induction decls generalizing deps with
  | nil => simp
  | cons imp decls ih =>
    rw [List.foldl_cons, ih, List.flatMap_cons, ← List.append_assoc]
    congr 1
    unfold addressImportsOf
    cases hl : imp.Location with
    | address a n => simp only; exact identifierLoop_closed a imp.Identifiers deps
    | string s => simp
    | identifier s => simp

theorem length_flatMap_addressImportsOf (decls : List ImportDeclaration) :
    (decls.flatMap addressImportsOf).length = (decls.map addressIdentifierCount).sum := by
  induction decls with
  | nil => rfl
  | cons imp decls ih =>
    rw [List.flatMap_cons, List.length_append, ih, List.map_cons, List.sum_cons]
    congr 1
    unfold addressImportsOf addressIdentifierCount
    cases imp.Location <;> simp

theorem GetAddressImports_closed {CV : Type} (c : Collaborators CV) (code : String)
    (program : Program) (hparse : c.ParseProgram code = .ok program) :
    GetAddressImports c code = (program.ImportDeclarations.flatMap addressImportsOf, none) := by
  unfold GetAddressImports
  rw [hparse]
  exact congrArg (fun l => (l, none))
    ((importLoop_closed program.ImportDeclarations []).trans (List.nil_append _))

/-- C17: when the script parses to `program`, `GetAddressImports` returns, with no
error, the concatenation in source order over the import declarations of one
`Import` with `Address = "0x" ++ hex` and `Name = identifier` per identifier listed
under an address location; a declaration with another kind of location, or an
address import that lists no identifier, contributes nothing; and the length of the result is
the total number of identifiers under address imports. -/
theorem GetAddressImports_eq_address_imports {CV : Type} (c : Collaborators CV) (code : String)
    (program : Program) (hparse : c.ParseProgram code = .ok program) :
    GetAddressImports c code = (program.ImportDeclarations.flatMap addressImportsOf, none) ∧
    (∀ imp : ImportDeclaration, (∀ a n, imp.Location ≠ .address a n) → addressImportsOf imp = []) ∧
    (∀ imp : ImportDeclaration, imp.Identifiers = [] → addressImportsOf imp = []) ∧
    (∀ (imp : ImportDeclaration) (a : Address) (n : String), imp.Location = .address a n →
      addressImportsOf imp =
        imp.Identifiers.map (fun id => { Address := "0x" ++ a.Hex, Name := id })) ∧
    (GetAddressImports c code).1.length =
      (program.ImportDeclarations.map addressIdentifierCount).sum := by
  have heq := GetAddressImports_closed c code program hparse
  refine ⟨heq, ?_, ?_, ?_, ?_⟩
  · intro imp h
    unfold addressImportsOf
    cases hl : imp.Location with
    | address a n => exact absurd hl (h a n)
    | string s => rfl
    | identifier s => rfl
  · intro imp h
    unfold addressImportsOf
    cases imp.Location <;> simp [h]
  · intro imp a n h
    unfold addressImportsOf
    rw [h]
  · rw [heq]
    exact length_flatMap_addressImportsOf _

/-- Witness for C17: the imports of `exampleProgram`. -/
theorem GetAddressImports_eq_address_imports_witness :
    GetAddressImports importCollaborators "script" =
      ([{ Address := "0x0000000000000001", Name := "FungibleToken" },
        { Address := "0x0000000000000001", Name := "FlowToken" },
        { Address := "0x0000000000000002", Name := "NFT" }], none) ∧
    (GetAddressImports importCollaborators "script").1.length = 3 :=
  ⟨(GetAddressImports_eq_address_imports importCollaborators "script" exampleProgram rfl).1.trans
      (by decide),
   (GetAddressImports_eq_address_imports importCollaborators "script" exampleProgram
      rfl).2.2.2.2.trans (by decide)⟩

theorem TrimPrefix_append (h : String) : TrimPrefix ("0x" ++ h) "0x" = h := by
  unfold TrimPrefix
  have hd : ("0x" ++ h).data = '0' :: 'x' :: h.data := by
    rw [String.data_append]; rfl
  have hp : "0x".data = ['0', 'x'] := rfl
  rw [hd, hp]
  simp [List.isPrefixOf]

theorem getD_hextable_mem (n : Nat) : hextable.getD n '0' ∈ hextable := by
  by_cases h : n < hextable.length
  · rw [List.getD_eq_getElem _ _ h]
    exact List.getElem_mem h
  · rw [List.getD_eq_default _ _ (Nat.le_of_not_lt h)]
    decide

theorem Hex_digits (a : Address) : ∀ ch ∈ a.Hex.data, ch ∈ hextable := by
  intro ch hch
  unfold Address.Hex at hch
  simp only [List.mem_flatMap] at hch
  obtain ⟨b, _, hb⟩ := hch
  unfold encodeByte at hb
  simp only [List.mem_cons, List.mem_singleton, List.not_mem_nil, or_false] at hb
  rcases hb with rfl | rfl <;> exact getD_hextable_mem _

theorem Hex_no_prefix (a : Address) : ¬ ("0x".data <+: a.Hex.data) := by
  rintro ⟨t, ht⟩
  have hx : 'x' ∈ a.Hex.data := by
    rw [← ht]
    have hp : "0x".data = ['0', 'x'] := rfl
    rw [hp]
    simp
  have := Hex_digits a 'x' hx
  revert this
  decide

/-- C18: for an `Import` whose `Address` is `0x` followed by `h` and whose `Name` is
`n`, `Identifier()` is `A.` followed by `h`, a dot and `n`; and for every `Import`
that `GetAddressImports` produces, `Identifier()` is `A.`, the hexadecimal digits of
the address, a dot and the name, the address segment having no `0x` prefix. -/
theorem Identifier_drops_prefix :
    (∀ h n : String, Import.Identifier { Address := "0x" ++ h, Name := n } =
      "A." ++ h ++ "." ++ n) ∧
    (∀ {CV : Type} (c : Collaborators CV) (code : String),
      ∀ imp ∈ (GetAddressImports c code).1, ∃ a : Address,
        imp.Identifier = "A." ++ a.Hex ++ "." ++ imp.Name ∧
        ¬ ("0x".data <+: a.Hex.data) ∧ (∀ ch ∈ a.Hex.data, ch ∈ hextable)) := by
  constructor
  · intro h n
    unfold Import.Identifier
    rw [TrimPrefix_append]
  · intro CV c code imp himp
    cases hp : c.ParseProgram code with
    | error err =>
      rw [GetAddressImports_of_error c code err hp] at himp
      cases himp
    | ok program =>
      have heq := GetAddressImports_closed c code program hp
      rw [heq] at himp
      simp only [List.mem_flatMap] at himp
      obtain ⟨decl, _, hmem⟩ := himp
      unfold addressImportsOf at hmem
      cases hl : decl.Location with
      | address a n =>
        rw [hl] at hmem
        simp only [List.mem_map] at hmem
        obtain ⟨id, _, rfl⟩ := hmem
        refine ⟨a, ?_, Hex_no_prefix a, Hex_digits a⟩
        unfold Import.Identifier
        rw [TrimPrefix_append]
      | string s => rw [hl] at hmem; cases hmem
      | identifier s => rw [hl] at hmem; cases hmem

/-- The identifiers of the imports of `exampleProgram`. -/
theorem Identifier_example :
    (GetAddressImports importCollaborators "script").1.map Import.Identifier =
      ["A.0000000000000001.FungibleToken", "A.0000000000000001.FlowToken",
       "A.0000000000000002.NFT"] := by
  decide

/-! ## Claims on `Args` -/

theorem mem_loopIndices (n i : Nat) : i ∈ loopIndices n ↔ i < n ∧ i % 2 = 0 := by
  unfold loopIndices
  simp only [List.mem_map, List.mem_range]
  constructor
  · rintro ⟨k, hk, rfl⟩
    omega
  · rintro ⟨h1, h2⟩
    exact ⟨i / 2, by omega, by omega⟩

theorem GoMap.eq_of_entries_eq {V : Type} (m n : GoMap V) (h : m.entries = n.entries) : m = n := by
  cases m
  cases n
  simp only at h
  subst h
  rfl

theorem replaceEntry_eq_self {V : Type} (k : String) (v : V) (l : List (String × V))
    (h : ∀ e ∈ l, e.1 = k → e = (k, v)) : GoMap.replaceEntry k v l = l := by
  unfold GoMap.replaceEntry
  conv_rhs => rw [← List.map_id l]
  apply List.map_congr_left
  intro e he
  by_cases hk : e.1 = k
  · rw [if_pos hk]; exact (h e he hk).symm
  · rw [if_neg hk]; rfl

theorem GoMap.mem_entries_set {V : Type} (m : GoMap V) (k : String) (v : V) :
    ∀ e ∈ (m.set k v).entries, e.1 = k → e = (k, v) := by
  intro e he hk
  unfold GoMap.set at he
  by_cases h : k ∈ m.entries.map Prod.fst
  · rw [dif_pos h] at he
    simp only [GoMap.replaceEntry, List.mem_map] at he
    obtain ⟨a, _, rfl⟩ := he
    by_cases ha : a.1 = k
    · rw [if_pos ha]
    · rw [if_neg ha] at hk; exact absurd hk ha
  · rw [dif_neg h] at he
    simp only [List.mem_append, List.mem_singleton] at he
    rcases he with he | rfl
    · exact absurd (hk ▸ List.mem_map_of_mem Prod.fst he) h
    · rfl

theorem GoMap.entries_set_of_mem {V : Type} (m : GoMap V) (k : String) (v : V)
    (h : k ∈ m.entries.map Prod.fst) : (m.set k v).entries = GoMap.replaceEntry k v m.entries := by
  unfold GoMap.set
  rw [dif_pos h]

/-- Assigning the same value to the same key a second time changes nothing. -/
theorem GoMap.set_set_same {V : Type} (m : GoMap V) (k : String) (v : V) :
    (m.set k v).set k v = m.set k v := by
  apply GoMap.eq_of_entries_eq
  have hmem : k ∈ (m.set k v).entries.map Prod.fst := by
    have := (GoMap.mem_keys_set m k v k).2 (Or.inl rfl)
    exact this
  rw [GoMap.entries_set_of_mem _ k v hmem]
  exact replaceEntry_eq_self k v _ (GoMap.mem_entries_set m k v)

/-- The builder after one run of the loop body on arguments that start with the pair
`key`, `v`. -/
theorem argsBody_cons (key v : Value) (rest : List Value) (ftb : FlowInteractionBuilder)
    (i : Nat) :
    argsBody (key :: v :: rest) ftb i =
      .ok { Error := if (assertString key).2 then ftb.Error
                     else some "even parameters in Args needs to be strings"
            NamedArgs := ftb.NamedArgs.set (assertString key).1 v } := by
  unfold argsBody
  simp only [List.getElem?_cons_zero, List.getElem?_cons_succ]
  by_cases h : (assertString key).2 = true
  · simp [h]
  · simp [h]

/-- Running the loop body again, for whatever further values of `i`, changes nothing. -/
theorem argsLoop_cons_fixed (key v : Value) (rest : List Value) (ftb : FlowInteractionBuilder)
    (idxs : List Nat) :
    argsLoop (key :: v :: rest) idxs
      { Error := if (assertString key).2 then ftb.Error
                 else some "even parameters in Args needs to be strings"
        NamedArgs := ftb.NamedArgs.set (assertString key).1 v } =
      .ok { Error := if (assertString key).2 then ftb.Error
                     else some "even parameters in Args needs to be strings"
            NamedArgs := ftb.NamedArgs.set (assertString key).1 v } := by
  induction idxs with
  | nil => rfl
  | cons i idxs ih =>
    rw [argsLoop, argsBody_cons]
    simp only [GoMap.set_set_same]
    by_cases h : (assertString key).2 = true
    · simp only [h, if_true] at ih ⊢
      exact ih
    · simp only [h, Bool.false_eq_true, if_false] at ih ⊢
      exact ih

theorem loopIndices_succ_succ (n : Nat) :
    loopIndices (n + 2) = 0 :: (loopIndices n).map (fun i => i + 2) := by
  unfold loopIndices
  have h : (n + 2 + 1) / 2 = (n + 1) / 2 + 1 := by omega
  rw [h, List.range_succ_eq_map, List.map_cons, List.map_map, List.map_map]
  congr 1

/-- What `Args` does to the builder when the arguments are an even number, at least
two: the first pair decides everything. -/
theorem Args_first_pair (key v : Value) (rest : List Value) (ftb : FlowInteractionBuilder)
    (heven : rest.length % 2 = 0) :
    Args (key :: v :: rest) ftb =
      .ok { Error := if (assertString key).2 then ftb.Error
                     else some "even parameters in Args needs to be strings"
            NamedArgs := ftb.NamedArgs.set (assertString key).1 v } := by
  unfold Args
  have hlen : (key :: v :: rest).length = rest.length + 2 := rfl
  rw [hlen, if_neg (by omega), loopIndices_succ_succ, argsLoop, argsBody_cons]
  exact argsLoop_cons_fixed key v rest ftb _

/-- C19, as the code behaves: for an even number of arguments, at least two, the first
of which is the string `k`, applying the option returned by `Args` leaves `Error` as it
was and binds the first pair only: `NamedArgs[k]` is the second argument and every
other key, the keys of the later pairs included, is as before. -/
theorem Args_binds_only_first_pair (k : String) (v : Value) (rest : List Value)
    (ftb : FlowInteractionBuilder) (heven : rest.length % 2 = 0) :
    Args (.string k :: v :: rest) ftb = .ok { ftb with NamedArgs := ftb.NamedArgs.set k v } ∧
    ∀ r, Args (.string k :: v :: rest) ftb = .ok r →
      r.Error = ftb.Error ∧ r.NamedArgs.get? k = some v ∧
      ∀ j, j ≠ k → r.NamedArgs.get? j = ftb.NamedArgs.get? j := by
  have h := Args_first_pair (.string k) v rest ftb heven
  have heq : Args (.string k :: v :: rest) ftb =
      .ok { ftb with NamedArgs := ftb.NamedArgs.set k v } := h
  refine ⟨heq, ?_⟩
  intro r hr
  rw [heq] at hr
  simp only [Except.ok.injEq] at hr
  subst hr
  refine ⟨rfl, ?_, ?_⟩
  · simp only [GoMap.get?_set, if_true]
  · intro j hj
    simp only [GoMap.get?_set, if_neg hj]

/-- Witness for C19: `Args("a", 1, "b", 2)` on a builder without named arguments binds
`a` to `1` and leaves `b` unbound. -/
theorem Args_binds_only_first_pair_witness :
    ∃ r, Args [.string "a", .int 1, .string "b", .int 2] emptyBuilder = .ok r ∧
      r.Error = none ∧ r.NamedArgs.get? "a" = some (.int 1) ∧ r.NamedArgs.get? "b" = none :=
  ⟨_, (Args_binds_only_first_pair "a" (.int 1) [.string "b", .int 2] emptyBuilder rfl).1,
    rfl, by decide, by decide⟩

/-- C20, as the code behaves: for an even number of arguments, at least two, the first
of which is not a string, applying the option returned by `Args` sets `Error` and still
assigns the second argument to the key `""` of `NamedArgs`; only an odd number of
arguments sets `Error` and leaves `NamedArgs` as it was. -/
theorem Args_error_path_writes_empty_key (key v : Value) (rest : List Value)
    (ftb : FlowInteractionBuilder) (hkey : ∀ s, key ≠ .string s)
    (heven : rest.length % 2 = 0) :
    Args (key :: v :: rest) ftb =
      .ok { Error := some "even parameters in Args needs to be strings"
            NamedArgs := ftb.NamedArgs.set "" v } ∧
    ∀ args : List Value, args.length % 2 ≠ 0 →
      Args args ftb =
        .ok { ftb with
              Error := some "Please send in an even number of string : interface\x7b\x7d pairs" } := by
  constructor
  · have h := Args_first_pair key v rest ftb heven
    have ha : assertString key = ("", false) := by
      unfold assertString
      cases key with
      | string s => exact absurd rfl (hkey s)
      | nil => rfl
      | float64 f => rfl
      | int i => rfl
      | bool b => rfl
    rw [ha] at h
    exact h
  · intro args hodd
    unfold Args
    rw [if_pos hodd]

/-- Witness for C20: `Args(1, "v")` on a builder without named arguments sets `Error`
and adds the key `""`, bound to `v`. -/
theorem Args_error_path_writes_empty_key_witness :
    ∃ r, Args [.int 1, .string "v"] emptyBuilder = .ok r ∧
      r.Error = some "even parameters in Args needs to be strings" ∧
      emptyBuilder.NamedArgs.get? "" = none ∧ r.NamedArgs.get? "" = some (.string "v") ∧
      r.NamedArgs.len = 1 :=
  ⟨_, (Args_error_path_writes_empty_key (.int 1) (.string "v") [] emptyBuilder
      (by intro s h; cases h) rfl).1, rfl, by decide, by decide, by decide⟩

/-! ## Claims on `StreamTransactions` -/

/-- A pass in which the timer fires: the candidate height is computed, the block
fetched and, where there is one, processed. -/
theorem tick_of_timer {CV : Type} (poll : Int) (t : Tick CV) (s : StreamState)
    (htimer : t.timerCancelled = none) :
    tick poll t s =
      match fetchBlock t (enterTick poll s) (nextBlockToProcess s) with
      | .skip s2 => (s2, none)
      | .block block => processBlock t (enterTick poll s) (nextBlockToProcess s) block := by
  unfold tick
  rw [htimer]

theorem enterTick_fields (poll : Int) (s : StreamState) :
    (enterTick poll s).latestKnownBlock = s.latestKnownBlock ∧
    (enterTick poll s).channel = s.channel ∧ (enterTick poll s).sleep = poll ∧
    (enterTick poll s).height = (if s.height = 0 then s.latestKnownBlock.Height else s.height) :=
  ⟨rfl, rfl, rfl, rfl⟩

/-- Where the block of a pass comes from: it is the answer to the request for the
candidate height, or the last-known head, whose height is then the candidate height. -/
theorem fetchBlock_block {CV : Type} (t : Tick CV) (s : StreamState) (next : Nat) (block : Block)
    (h : fetchBlock t s next = .block block) :
    (next < s.latestKnownBlock.Height ∧ t.GetBlockAtHeight next = .ok block) ∨
    (next = s.latestKnownBlock.Height ∧ block = s.latestKnownBlock) := by
  unfold fetchBlock at h
  by_cases h1 : next < s.latestKnownBlock.Height
  · rw [if_pos h1] at h
    left
    refine ⟨h1, ?_⟩
    cases hg : t.GetBlockAtHeight next with
    | error e => rw [hg] at h; cases h
    | ok b =>
      rw [hg] at h
      simp only [Fetched.block.injEq] at h
      rw [h]
  · rw [if_neg h1] at h
    by_cases h2 : next ≠ s.latestKnownBlock.Height
    · rw [if_pos h2] at h
      cases hg : t.GetLatestBlock with
      | error e => rw [hg] at h; cases h
      | ok ob =>
        rw [hg] at h
        cases ob with
        | none => cases h
        | some b =>
          simp only at h
          by_cases h3 : b.Height = s.latestKnownBlock.Height
          · rw [if_pos h3] at h; cases h
          · rw [if_neg h3] at h; cases h
    · rw [if_neg h2] at h
      simp only [Fetched.block.injEq] at h
      right
      exact ⟨not_not.1 h2, h.symm⟩

theorem processBlock_transient {CV : Type} (t : Tick CV) (s : StreamState) (next : Nat)
    (block : Block) (err : String)
    (h : GetOverflowTransactionsForBlockId t.collaborators block.ID = .error (.returned err))
    (hc : Contains err "could not retrieve collection: key not found" = true) :
    processBlock t s next block = (s, none) := by
  unfold processBlock
  rw [h]
  simp only [hc, if_true]

theorem processBlock_error {CV : Type} (t : Tick CV) (s : StreamState) (next : Nat)
    (block : Block) (err : String)
    (h : GetOverflowTransactionsForBlockId t.collaborators block.ID = .error (.returned err))
    (hc : Contains err "could not retrieve collection: key not found" = false)
    (hsend : t.sendCancelled = none) :
    processBlock t s next block =
      ({ s with
         channel := s.channel ++
           [{ Block := block, SystemChunkEvents := GoMap.empty, Transactions := [],
              Error := some ("getting transactions: " ++ err), View := 0 }]
         height := next }, none) := by
  unfold processBlock
  rw [h]
  simp only [hc, Bool.false_eq_true, if_false, hsend]

theorem processBlock_ok {CV : Type} (t : Tick CV) (s : StreamState) (next : Nat)
    (block : Block) (tx : List OverflowTransaction) (sys : OverflowEvents)
    (h : GetOverflowTransactionsForBlockId t.collaborators block.ID = .ok (tx, sys))
    (hsend : t.sendCancelled = none) :
    processBlock t s next block =
      ({ s with
         channel := s.channel ++
           [{ Block := block, SystemChunkEvents := sys, Transactions := tx,
              Error := none, View := 0 }]
         height := next }, none) := by
  unfold processBlock
  rw [h]
  simp only [hsend]

theorem processBlock_panicked {CV : Type} (t : Tick CV) (s : StreamState) (next : Nat)
    (block : Block) (msg : String)
    (h : GetOverflowTransactionsForBlockId t.collaborators block.ID = .error (.panicked msg)) :
    processBlock t s next block = (s, some (.panicked msg)) := by
  unfold processBlock
  rw [h]

theorem processBlock_error_cancelled {CV : Type} (t : Tick CV) (s : StreamState) (next : Nat)
    (block : Block) (err ctxErr : String)
    (h : GetOverflowTransactionsForBlockId t.collaborators block.ID = .error (.returned err))
    (hc : Contains err "could not retrieve collection: key not found" = false)
    (hsend : t.sendCancelled = some ctxErr) :
    processBlock t s next block = (s, some (.returned ctxErr)) := by
  unfold processBlock
  rw [h]
  simp only [hc, Bool.false_eq_true, if_false, hsend]

theorem processBlock_ok_cancelled {CV : Type} (t : Tick CV) (s : StreamState) (next : Nat)
    (block : Block) (tx : List OverflowTransaction) (sys : OverflowEvents) (ctxErr : String)
    (h : GetOverflowTransactionsForBlockId t.collaborators block.ID = .ok (tx, sys))
    (hsend : t.sendCancelled = some ctxErr) :
    processBlock t s next block = (s, some (.returned ctxErr)) := by
  unfold processBlock
  rw [h]
  simp only [hsend]

/-- C14, as the code behaves: in a pass whose timer fires and that obtains the block
for its candidate height `N`, every way the assembly can end is covered.
(1) When it returns an error with the transient `key not found` signature, nothing is
sent and the loop goes on; if the pass started with `H ≠ 0`, `H` is unchanged and the
next pass has the same candidate, but if it started with `H = 0`, `H` is the height of
the head afterwards, so that the head block is not the candidate of the next pass.
(2) When it returns another error and the send is not cancelled, exactly one result is
sent, carrying the error and the block, and `H` becomes `N`.
(3) When it succeeds and the send is not cancelled, exactly one result is sent, with the
transactions and no error, and `H` becomes `N`.
(4) When it panics, nothing is sent and the function ends with that panic.
(5) When the send is cancelled, nothing is sent and the function returns the error of
the context.
The block is the answer to the request for height `N` or the last-known head, of
height `N`. -/
theorem tick_assembly_outcomes {CV : Type} (poll : Int) (t : Tick CV) (s : StreamState)
    (block : Block) (htimer : t.timerCancelled = none)
    (hfetch : fetchBlock t (enterTick poll s) (nextBlockToProcess s) = .block block) :
    (∀ err, GetOverflowTransactionsForBlockId t.collaborators block.ID = .error (.returned err) →
      Contains err "could not retrieve collection: key not found" = true →
      ∃ s2, tick poll t s = (s2, none) ∧ s2.channel = s.channel ∧
        s2.latestKnownBlock = s.latestKnownBlock ∧
        (s.height ≠ 0 → s2.height = s.height ∧ nextBlockToProcess s2 = nextBlockToProcess s) ∧
        (s.height = 0 → s2.height = s.latestKnownBlock.Height)) ∧
    (∀ err, GetOverflowTransactionsForBlockId t.collaborators block.ID = .error (.returned err) →
      Contains err "could not retrieve collection: key not found" = false →
      t.sendCancelled = none →
      ∃ s2, tick poll t s = (s2, none) ∧
        s2.channel = s.channel ++
          [{ Block := block, SystemChunkEvents := GoMap.empty, Transactions := [],
             Error := some ("getting transactions: " ++ err), View := 0 }] ∧
        s2.height = nextBlockToProcess s) ∧
    (∀ tx sys, GetOverflowTransactionsForBlockId t.collaborators block.ID = .ok (tx, sys) →
      t.sendCancelled = none →
      ∃ s2, tick poll t s = (s2, none) ∧
        s2.channel = s.channel ++
          [{ Block := block, SystemChunkEvents := sys, Transactions := tx,
             Error := none, View := 0 }] ∧
        s2.height = nextBlockToProcess s) ∧
    (∀ msg, GetOverflowTransactionsForBlockId t.collaborators block.ID = .error (.panicked msg) →
      ∃ s2, tick poll t s = (s2, some (.panicked msg)) ∧ s2.channel = s.channel) ∧
    (∀ ctxErr, t.sendCancelled = some ctxErr →
      (∀ err, GetOverflowTransactionsForBlockId t.collaborators block.ID =
          .error (.returned err) →
        Contains err "could not retrieve collection: key not found" = false →
        ∃ s2, tick poll t s = (s2, some (.returned ctxErr)) ∧ s2.channel = s.channel) ∧
      (∀ tx sys, GetOverflowTransactionsForBlockId t.collaborators block.ID = .ok (tx, sys) →
        ∃ s2, tick poll t s = (s2, some (.returned ctxErr)) ∧ s2.channel = s.channel)) ∧
    (t.GetBlockAtHeight (nextBlockToProcess s) = .ok block ∨
      (block = s.latestKnownBlock ∧ block.Height = nextBlockToProcess s)) := by
  have htick : tick poll t s =
      processBlock t (enterTick poll s) (nextBlockToProcess s) block := by
    rw [tick_of_timer poll t s htimer, hfetch]
  refine ⟨?_, ?_, ?_, ?_, ?_, ?_⟩
  · intro err herr hc
    refine ⟨enterTick poll s, ?_, rfl, rfl, ?_, ?_⟩
    · rw [htick, processBlock_transient t _ _ block err herr hc]
    · intro hne
      have hh : (enterTick poll s).height = s.height := by
        rw [(enterTick_fields poll s).2.2.2, if_neg hne]
      refine ⟨hh, ?_⟩
      unfold nextBlockToProcess
      rw [hh, (enterTick_fields poll s).1]
    · intro h0
      rw [(enterTick_fields poll s).2.2.2, if_pos h0]
  · intro err herr hc hsend
    rw [htick, processBlock_error t _ _ block err herr hc hsend]
    exact ⟨_, rfl, rfl, rfl⟩
  · intro tx sys hok hsend
    rw [htick, processBlock_ok t _ _ block tx sys hok hsend]
    exact ⟨_, rfl, rfl, rfl⟩
  · intro msg hp
    rw [htick, processBlock_panicked t _ _ block msg hp]
    exact ⟨_, rfl, rfl⟩
  · intro ctxErr hsend
    constructor
    · intro err herr hc
      rw [htick, processBlock_error_cancelled t _ _ block err ctxErr herr hc hsend]
      exact ⟨_, rfl, rfl⟩
    · intro tx sys hok
      rw [htick, processBlock_ok_cancelled t _ _ block tx sys ctxErr hok hsend]
      exact ⟨_, rfl, rfl⟩
  · rcases fetchBlock_block t _ _ block hfetch with ⟨_, h⟩ | ⟨h1, h2⟩
    · exact Or.inl h
    · right
      rw [(enterTick_fields poll s).1] at h1 h2
      exact ⟨h2, by rw [h2, h1]⟩

/-- Witness for C14. A stream at height 7 with the head at 9 processes height 8: the
transient failure sends nothing and keeps the candidate; the failure `boom` sends one
result for height 8 that carries the error, and the height becomes 8; a success sends
the block at height 8, and the height becomes 8; a panic of the assembly sends nothing
and ends the function. A stream started at height 0 with the head at 5 that meets the
transient failure sends nothing, has height 5 afterwards, and 6 as its next candidate:
the head block is not tried again. -/
theorem tick_assembly_outcomes_witness :
    (∃ s2, tick examplePoll (exampleTick none collectionNotFound) (startState 7 (blockAt 9)) =
        (s2, none) ∧ s2.channel = [] ∧ s2.height = 7 ∧ nextBlockToProcess s2 = 8) ∧
    (∃ s2, tick examplePoll (exampleTick none (.error "boom")) (startState 7 (blockAt 9)) =
        (s2, none) ∧ sentHeights s2.channel = [8] ∧
        s2.channel.map (fun r => r.Error) =
          [some "getting transactions: getting transaction results: boom"] ∧
        s2.height = 8) ∧
    (∃ s2, tick examplePoll (exampleTick none (.ok exampleBlock)) (startState 7 (blockAt 9)) =
        (s2, none) ∧ sentHeights s2.channel = [8] ∧
        s2.channel.map (fun r => r.Error) = [none] ∧ s2.height = 8) ∧
    (∃ s2, tick examplePoll panicTick (startState 7 (blockAt 9)) =
        (s2, some (.panicked "failed casting fee amount to float64")) ∧ s2.channel = []) ∧
    (∃ s2, tick examplePoll (exampleTick none collectionNotFound) (startState 0 (blockAt 5)) =
        (s2, none) ∧ s2.channel = [] ∧ s2.height = 5 ∧ nextBlockToProcess s2 = 6) := by
  refine ⟨?_, ?_, ?_, ?_, ?_⟩
  · obtain ⟨s2, h1, h2, _, h3, _⟩ := (tick_assembly_outcomes examplePoll
      (exampleTick none collectionNotFound) (startState 7 (blockAt 9)) (blockAt 8) rfl rfl).1
      _ rfl (by decide)
    exact ⟨s2, h1, h2, (h3 (by decide)).1, (h3 (by decide)).2.trans (by decide)⟩
  · obtain ⟨s2, h1, h2, h3⟩ := (tick_assembly_outcomes examplePoll
      (exampleTick none (.error "boom")) (startState 7 (blockAt 9)) (blockAt 8) rfl
      rfl).2.1 _ rfl (by decide) rfl
    exact ⟨s2, h1, by rw [h2]; rfl, by rw [h2]; rfl, h3.trans (by decide)⟩
  · obtain ⟨s2, h1, h2, h3⟩ := (tick_assembly_outcomes examplePoll
      (exampleTick none (.ok exampleBlock)) (startState 7 (blockAt 9)) (blockAt 8) rfl
      rfl).2.2.1 _ _ rfl rfl
    exact ⟨s2, h1, by rw [h2]; rfl, by rw [h2]; rfl, h3.trans (by decide)⟩
  · exact (tick_assembly_outcomes examplePoll panicTick (startState 7 (blockAt 9))
      (blockAt 8) rfl rfl).2.2.2.1 _ rfl
  · obtain ⟨s2, h1, h2, hl, _, h4⟩ := (tick_assembly_outcomes examplePoll
      (exampleTick none collectionNotFound) (startState 0 (blockAt 5)) (blockAt 5) rfl rfl).1
      _ rfl (by decide)
    have hh : s2.height = 5 := (h4 rfl).trans (by decide)
    refine ⟨s2, h1, h2, hh, ?_⟩
    unfold nextBlockToProcess
    rw [hh, if_neg (by decide)]
    decide

/-- The failing input of C14 evaluated: a stream started at height 0 with the head at
height 5 whose first pass meets the transient failure sends nothing, yet its height is
5 afterwards, not 0, and the candidate of the next pass is 6, not 5 again; over four
passes, the head being at 7 from the second on, the heights sent are 6 and 7, the block
at height 5 being neither tried again nor sent, whereas the same answers given to a
stream started at height 4 send the blocks at heights 5 and 6. -/
theorem transient_failure_at_start_skips_head :
    (startState 0 (blockAt 5)).height = 0 ∧
    nextBlockToProcess (startState 0 (blockAt 5)) = 5 ∧
    GetOverflowTransactionsForBlockId (exampleTick none collectionNotFound).collaborators
      (blockAt 5).ID = .error (.returned
        "getting transaction results: rpc error: could not retrieve collection: key not found") ∧
    (tick examplePoll (exampleTick none collectionNotFound) (startState 0 (blockAt 5))).2 = none ∧
    (tick examplePoll (exampleTick none collectionNotFound) (startState 0 (blockAt 5))).1.channel.length = 0 ∧
    (tick examplePoll (exampleTick none collectionNotFound) (startState 0 (blockAt 5))).1.height = 5 ∧
    nextBlockToProcess
      (tick examplePoll (exampleTick none collectionNotFound) (startState 0 (blockAt 5))).1 = 6 ∧
    sentHeights (StreamTransactions (.ok (some (blockAt 5))) examplePoll 0
      [exampleTick none collectionNotFound,
       exampleTick (some (blockAt 7)) (.ok exampleBlock),
       exampleTick (some (blockAt 7)) (.ok exampleBlock),
       exampleTick (some (blockAt 7)) (.ok exampleBlock)]).1 = [6, 7] ∧
    sentHeights (StreamTransactions (.ok (some (blockAt 5))) examplePoll 4
      [exampleTick none collectionNotFound,
       exampleTick (some (blockAt 7)) (.ok exampleBlock),
       exampleTick (some (blockAt 7)) (.ok exampleBlock),
       exampleTick (some (blockAt 7)) (.ok exampleBlock)]).1 = [5, 6] := by
  refine ⟨rfl, by decide, rfl, ?_, ?_, ?_, ?_, ?_, ?_⟩ <;> decide

/-- C15, as the code behaves: in a pass whose timer fires and whose candidate height is
above the last-known head `L`, the head is asked for again, nothing is sent and `H` is
unchanged; when the answer is a head of another height, `L` becomes that head and the
next sleep is one millisecond; when the answer is an error, a nil block or a head of
the same height, `L` is unchanged and the next sleep is the configured poll interval. -/
theorem tick_above_head_requeries {CV : Type} (poll : Int) (t : Tick CV) (s : StreamState)
    (htimer : t.timerCancelled = none)
    (habove : s.latestKnownBlock.Height < nextBlockToProcess s) :
    ∃ s2, tick poll t s = (s2, none) ∧ s2.channel = s.channel ∧ s2.height = s.height ∧
      (∀ block, t.GetLatestBlock = .ok (some block) →
        block.Height ≠ s.latestKnownBlock.Height →
        s2.latestKnownBlock = block ∧ s2.sleep = Millisecond) ∧
      ((∀ block, t.GetLatestBlock = .ok (some block) →
          block.Height = s.latestKnownBlock.Height) →
        s2.latestKnownBlock = s.latestKnownBlock ∧ s2.sleep = poll) := by
  have hne : s.height ≠ 0 := by
    intro h0
    unfold nextBlockToProcess at habove
    rw [if_pos h0] at habove
    exact lt_irrefl _ habove
  have hh : (enterTick poll s).height = s.height := by
    rw [(enterTick_fields poll s).2.2.2, if_neg hne]
  have h1 : ¬ nextBlockToProcess s < (enterTick poll s).latestKnownBlock.Height := by
    rw [(enterTick_fields poll s).1]; omega
  have h2 : nextBlockToProcess s ≠ (enterTick poll s).latestKnownBlock.Height := by
    rw [(enterTick_fields poll s).1]; omega
  rw [tick_of_timer poll t s htimer]
  unfold fetchBlock
  rw [if_neg h1, if_pos h2]
  cases hg : t.GetLatestBlock with
  | error e =>
    refine ⟨enterTick poll s, rfl, rfl, hh, ?_, fun _ => ⟨rfl, rfl⟩⟩
    intro block hb
    cases hb
  | ok ob =>
    cases ob with
    | none =>
      refine ⟨enterTick poll s, rfl, rfl, hh, ?_, fun _ => ⟨rfl, rfl⟩⟩
      intro block hb
      cases hb
    | some b =>
      simp only
      by_cases h3 : b.Height = (enterTick poll s).latestKnownBlock.Height
      · rw [if_pos h3]
        refine ⟨enterTick poll s, rfl, rfl, hh, ?_, fun _ => ⟨rfl, rfl⟩⟩
        intro block hb hne2
        simp only [Except.ok.injEq, Option.some.injEq] at hb
        subst hb
        exact absurd h3 hne2
      · rw [if_neg h3]
        refine ⟨_, rfl, rfl, hh, ?_, ?_⟩
        · intro block hb _
          simp only [Except.ok.injEq, Option.some.injEq] at hb
          subst hb
          exact ⟨rfl, rfl⟩
        · intro hall
          exact absurd (hall b rfl) h3

/-- Witness for C15: a stream at height 10 with the head at 10; a new head at 12 is
recorded and shortens the sleep. -/
theorem tick_above_head_requeries_witness :
    ∃ s2, tick examplePoll (exampleTick (some (blockAt 12)) (.ok exampleBlock))
        (startState 10 (blockAt 10)) = (s2, none) ∧
      s2.channel = [] ∧ s2.height = 10 ∧ s2.latestKnownBlock = blockAt 12 ∧
      s2.sleep = Millisecond := by
  obtain ⟨s2, h1, h2, h3, h4, _⟩ := tick_above_head_requeries examplePoll
    (exampleTick (some (blockAt 12)) (.ok exampleBlock)) (startState 10 (blockAt 10)) rfl
    (by decide)
  exact ⟨s2, h1, h2, h3, (h4 (blockAt 12) rfl (by decide)).1, (h4 (blockAt 12) rfl (by decide)).2⟩

/-- Counterexample for C15: with a poll interval of one second, a stream at height 10
whose head is still at 10 keeps the sleep at one second, not at the minimal interval;
and when the head has moved to 12 the sleep becomes one millisecond, not the poll
interval. -/
theorem sleep_after_requery_is_opposite :
    nextBlockToProcess (startState 10 (blockAt 10)) = 11 ∧
    (startState 10 (blockAt 10)).latestKnownBlock.Height = 10 ∧
    (tick examplePoll (exampleTick (some (blockAt 10)) (.ok exampleBlock))
      (startState 10 (blockAt 10))).1.sleep = examplePoll ∧
    (tick examplePoll (exampleTick none (.ok exampleBlock))
      (startState 10 (blockAt 10))).1.sleep = examplePoll ∧
    (tick examplePoll (exampleTick (some (blockAt 12)) (.ok exampleBlock))
      (startState 10 (blockAt 10))).1.sleep = Millisecond ∧
    (tick examplePoll (exampleTick (some (blockAt 12)) (.ok exampleBlock))
      (startState 10 (blockAt 10))).1.latestKnownBlock = blockAt 12 ∧
    examplePoll ≠ Millisecond := by
  refine ⟨by decide, rfl, ?_, ?_, ?_, ?_, by decide⟩ <;> decide

/-- C16, as the code behaves: in the first pass of a stream started with `H = 0`, the
candidate height is the height `L` of the head itself and `H` is set to `L`; the head
block is the block processed, and when its assembly succeeds and the send is not
cancelled the result sent is for the head block, `H` being `L` afterwards. -/
theorem first_tick_processes_head {CV : Type} (poll : Int) (t : Tick CV) (s : StreamState)
    (hzero : s.height = 0) (htimer : t.timerCancelled = none) :
    nextBlockToProcess s = s.latestKnownBlock.Height ∧
    (enterTick poll s).height = s.latestKnownBlock.Height ∧
    tick poll t s =
      processBlock t (enterTick poll s) s.latestKnownBlock.Height s.latestKnownBlock ∧
    (∀ tx sys,
      GetOverflowTransactionsForBlockId t.collaborators s.latestKnownBlock.ID = .ok (tx, sys) →
      t.sendCancelled = none →
      ∃ s2, tick poll t s = (s2, none) ∧
        s2.channel = s.channel ++
          [{ Block := s.latestKnownBlock, SystemChunkEvents := sys, Transactions := tx,
             Error := none, View := 0 }] ∧
        s2.height = s.latestKnownBlock.Height) := by
  have hnext : nextBlockToProcess s = s.latestKnownBlock.Height := by
    unfold nextBlockToProcess
    rw [if_pos hzero]
  have hh : (enterTick poll s).height = s.latestKnownBlock.Height := by
    rw [(enterTick_fields poll s).2.2.2, if_pos hzero]
  have hfetch : fetchBlock t (enterTick poll s) (nextBlockToProcess s) =
      .block s.latestKnownBlock := by
    unfold fetchBlock
    rw [hnext, (enterTick_fields poll s).1, if_neg (lt_irrefl _), if_neg (by simp)]
  have htick : tick poll t s =
      processBlock t (enterTick poll s) s.latestKnownBlock.Height s.latestKnownBlock := by
    rw [tick_of_timer poll t s htimer, hfetch, hnext]
  refine ⟨hnext, hh, htick, ?_⟩
  intro tx sys hok hsend
  rw [htick, processBlock_ok t _ _ _ tx sys hok hsend]
  exact ⟨_, rfl, rfl, rfl⟩

/-- Witness for C16: started at height 0 with the head at height 5, the first pass
sends the result for the block at height 5. -/
theorem first_tick_processes_head_witness :
    ∃ s2, tick examplePoll (exampleTick (some (blockAt 5)) (.ok exampleBlock))
        (startState 0 (blockAt 5)) = (s2, none) ∧
      sentHeights s2.channel = [5] ∧ s2.height = 5 := by
  obtain ⟨s2, h1, h2, h3⟩ := (first_tick_processes_head examplePoll
    (exampleTick (some (blockAt 5)) (.ok exampleBlock)) (startState 0 (blockAt 5)) rfl
    rfl).2.2.2 _ _ rfl rfl
  exact ⟨s2, h1, by rw [h2]; rfl, h3⟩

/-- Counterexample for C16: `StreamTransactions` started at height 0 with the head at
height 5 sends, in its first pass, the result for the head block at height 5 itself,
not for height 6. -/
theorem first_result_is_for_head :
    sentHeights (StreamTransactions (.ok (some (blockAt 5))) examplePoll 0
      [exampleTick (some (blockAt 5)) (.ok exampleBlock)]).1 = [5] ∧
    (StreamTransactions (.ok (some (blockAt 5))) examplePoll 0
      [exampleTick (some (blockAt 5)) (.ok exampleBlock)]).2.1 = 5 ∧
    nextBlockToProcess (startState 0 (blockAt 5)) = 5 := by
  refine ⟨by decide, by decide, by decide⟩

/-- C13, as the code behaves: while the height of the stream and the height of the
last-known head are both 0, a pass whose timer fires, whose assembly succeeds and whose
send is not cancelled sends the head block, at height 0, and leaves the height and the
head as they were, so that the next pass sends it once more. -/
theorem tick_at_height_zero_resends_head {CV : Type} (poll : Int) (t : Tick CV)
    (s : StreamState) (tx : List OverflowTransaction) (sys : OverflowEvents)
    (hzero : s.height = 0) (hhead : s.latestKnownBlock.Height = 0)
    (htimer : t.timerCancelled = none) (hsend : t.sendCancelled = none)
    (hok : GetOverflowTransactionsForBlockId t.collaborators s.latestKnownBlock.ID =
      .ok (tx, sys)) :
    ∃ s2, tick poll t s = (s2, none) ∧
      sentHeights s2.channel = sentHeights s.channel ++ [0] ∧
      s2.height = 0 ∧ s2.latestKnownBlock = s.latestKnownBlock := by
  have hnext : nextBlockToProcess s = s.latestKnownBlock.Height := by
    unfold nextBlockToProcess
    rw [if_pos hzero]
  have hfetch : fetchBlock t (enterTick poll s) (nextBlockToProcess s) =
      .block s.latestKnownBlock := by
    unfold fetchBlock
    rw [hnext, (enterTick_fields poll s).1, if_neg (lt_irrefl _), if_neg (by simp)]
  have htick : tick poll t s =
      processBlock t (enterTick poll s) (nextBlockToProcess s) s.latestKnownBlock := by
    rw [tick_of_timer poll t s htimer, hfetch]
  rw [htick, processBlock_ok t _ _ _ tx sys hok hsend]
  refine ⟨_, rfl, ?_, ?_, rfl⟩
  · simp only [sentHeights, List.map_append, List.map_cons, List.map_nil, hhead]
    rfl
  · simp only [hnext, hhead]

/-- Witness for C13: started at height 0 on a chain whose head is at height 0, the
stream sends the block at height 0 in its first pass and again in its second. -/
theorem tick_at_height_zero_resends_head_witness :
    (∃ s2, tick examplePoll (exampleTick (some (blockAt 0)) (.ok exampleBlock))
        (startState 0 (blockAt 0)) = (s2, none) ∧
      sentHeights s2.channel = [0] ∧ s2.height = 0 ∧ s2.latestKnownBlock = blockAt 0) ∧
    sentHeights (StreamTransactions (.ok (some (blockAt 0))) examplePoll 0
      [exampleTick (some (blockAt 0)) (.ok exampleBlock),
       exampleTick (some (blockAt 0)) (.ok exampleBlock)]).1 = [0, 0] ∧
    (StreamTransactions (.ok (some (blockAt 0))) examplePoll 0
      [exampleTick (some (blockAt 0)) (.ok exampleBlock),
       exampleTick (some (blockAt 0)) (.ok exampleBlock)]).2.2 = none :=
  ⟨tick_at_height_zero_resends_head examplePoll
      (exampleTick (some (blockAt 0)) (.ok exampleBlock)) (startState 0 (blockAt 0)) _ _
      rfl rfl rfl rfl rfl,
   by decide, by decide⟩

/-! ## The heights of a run of `StreamTransactions` -/

/-- How the processing of a block can end: the function ends and the state is as it
was, the loop goes on with the state as it was, or one result for the block is sent
and the height becomes the candidate height. -/
theorem processBlock_cases {CV : Type} (t : Tick CV) (s : StreamState) (next : Nat)
    (block : Block) :
    (processBlock t s next block).1 = s ∨
    ((processBlock t s next block).2 = none ∧ ∃ r : BlockResult, r.Block = block ∧
      (processBlock t s next block).1 =
        { s with channel := s.channel ++ [r], height := next }) := by
  unfold processBlock
  cases hg : GetOverflowTransactionsForBlockId t.collaborators block.ID with
  | error f =>
    cases f with
    | panicked msg => exact Or.inl rfl
    | returned err =>
      simp only
      by_cases hc : Contains err "could not retrieve collection: key not found" = true
      · rw [if_pos hc]; exact Or.inl rfl
      · rw [if_neg hc]
        cases hs : t.sendCancelled with
        | some ctxErr => exact Or.inl rfl
        | none => exact Or.inr ⟨rfl, _, rfl, rfl⟩
  | ok res =>
    obtain ⟨tx, sys⟩ := res
    simp only
    cases hs : t.sendCancelled with
    | some ctxErr => exact Or.inl rfl
    | none => exact Or.inr ⟨rfl, _, rfl, rfl⟩

/-- A pass that ends with `continue` before a block is obtained sends nothing and
keeps the height; the last-known head is as before or the head just answered. -/
theorem fetchBlock_skip {CV : Type} (t : Tick CV) (s : StreamState) (next : Nat)
    (s2 : StreamState) (h : fetchBlock t s next = .skip s2) :
    s2.channel = s.channel ∧ s2.height = s.height ∧
    (s2.latestKnownBlock = s.latestKnownBlock ∨
      (s.latestKnownBlock.Height < next ∧
        t.GetLatestBlock = .ok (some s2.latestKnownBlock))) := by
  unfold fetchBlock at h
  by_cases h1 : next < s.latestKnownBlock.Height
  · rw [if_pos h1] at h
    cases hg : t.GetBlockAtHeight next with
    | error e =>
      rw [hg] at h
      simp only [Fetched.skip.injEq] at h
      subst h
      exact ⟨rfl, rfl, Or.inl rfl⟩
    | ok b => rw [hg] at h; cases h
  · rw [if_neg h1] at h
    by_cases h2 : next ≠ s.latestKnownBlock.Height
    · rw [if_pos h2] at h
      cases hg : t.GetLatestBlock with
      | error e =>
        rw [hg] at h
        simp only [Fetched.skip.injEq] at h
        subst h
        exact ⟨rfl, rfl, Or.inl rfl⟩
      | ok ob =>
        rw [hg] at h
        cases ob with
        | none =>
          simp only [Fetched.skip.injEq] at h
          subst h
          exact ⟨rfl, rfl, Or.inl rfl⟩
        | some b =>
          simp only at h
          by_cases h3 : b.Height = s.latestKnownBlock.Height
          · rw [if_pos h3] at h
            simp only [Fetched.skip.injEq] at h
            subst h
            exact ⟨rfl, rfl, Or.inl rfl⟩
          · rw [if_neg h3] at h
            simp only [Fetched.skip.injEq] at h
            subst h
            exact ⟨rfl, rfl, Or.inr ⟨by omega, rfl⟩⟩
    · rw [if_neg h2] at h
      cases h

/-- What one pass does to the height and to the channel: nothing is sent and the height
is as it was, unless it was 0, in which case it is the height of the last-known head;
or one result is sent, for the block obtained for the candidate height, and the height
becomes the candidate height. -/
theorem tick_cases {CV : Type} (poll : Int) (t : Tick CV) (s : StreamState) :
    ((tick poll t s).1.channel = s.channel ∧
      ((tick poll t s).1.height = s.height ∨
        (s.height = 0 ∧ (tick poll t s).1.height = s.latestKnownBlock.Height)) ∧
      ((tick poll t s).1.latestKnownBlock = s.latestKnownBlock ∨
        (s.latestKnownBlock.Height < nextBlockToProcess s ∧
          t.GetLatestBlock = .ok (some (tick poll t s).1.latestKnownBlock)))) ∨
    ((tick poll t s).2 = none ∧ ∃ r : BlockResult,
      fetchBlock t (enterTick poll s) (nextBlockToProcess s) = .block r.Block ∧
      (tick poll t s).1.channel = s.channel ++ [r] ∧
      (tick poll t s).1.height = nextBlockToProcess s ∧
      (tick poll t s).1.latestKnownBlock = s.latestKnownBlock) := by
  have hent : (enterTick poll s).height = s.height ∨
      (s.height = 0 ∧ (enterTick poll s).height = s.latestKnownBlock.Height) := by
    rw [(enterTick_fields poll s).2.2.2]
    by_cases h0 : s.height = 0
    · rw [if_pos h0]; exact Or.inr ⟨h0, rfl⟩
    · rw [if_neg h0]; exact Or.inl rfl
  cases htimer : t.timerCancelled with
  | some ctxErr =>
    left
    have : tick poll t s = (s, some (.returned ctxErr)) := by
      unfold tick
      rw [htimer]
    rw [this]
    exact ⟨rfl, Or.inl rfl, Or.inl rfl⟩
  | none =>
    rw [tick_of_timer poll t s htimer]
    cases hf : fetchBlock t (enterTick poll s) (nextBlockToProcess s) with
    | skip s2 =>
      left
      obtain ⟨hc, hh, hl⟩ := fetchBlock_skip t _ _ s2 hf
      simp only
      refine ⟨hc, ?_, hl⟩
      rw [hh]
      exact hent
    | block b =>
      simp only
      rcases processBlock_cases t (enterTick poll s) (nextBlockToProcess s) b with h | ⟨h2, r, hr, h⟩
      · left
        rw [h]
        exact ⟨rfl, hent, Or.inl rfl⟩
      · right
        refine ⟨h2, r, by rw [hr], ?_, ?_, ?_⟩ <;> rw [h] <;> rfl

/-- A candidate height that is processed is at most the height of the last-known head. -/
theorem processed_candidate_le_head {CV : Type} (poll : Int) (t : Tick CV) (s : StreamState)
    (block : Block)
    (h : fetchBlock t (enterTick poll s) (nextBlockToProcess s) = .block block) :
    nextBlockToProcess s ≤ s.latestKnownBlock.Height := by
  rcases fetchBlock_block t _ _ block h with ⟨h1, _⟩ | ⟨h1, _⟩
  · rw [(enterTick_fields poll s).1] at h1
    exact Nat.le_of_lt h1
  · rw [(enterTick_fields poll s).1] at h1
    exact Nat.le_of_eq h1

theorem nextBlockToProcess_of_ne_zero (s : StreamState) (h0 : s.height ≠ 0)
    (hb : s.height < 2 ^ 64 - 1) : nextBlockToProcess s = s.height + 1 := by
  unfold nextBlockToProcess
  rw [if_neg h0]
  omega

theorem nextBlockToProcess_of_zero (s : StreamState) (h0 : s.height = 0) :
    nextBlockToProcess s = s.latestKnownBlock.Height := by
  unfold nextBlockToProcess
  rw [if_pos h0]

/-- One pass on well-formed answers keeps the heights bounded and not both 0, and
either sends nothing, the height staying as it was when it was not 0, or sends one
result whose block has the new height, one more than the old height when that was not
0. -/
theorem tick_step {CV : Type} (poll : Int) (t : Tick CV) (s : StreamState)
    (hwf : t.WellFormed) (hB : s.Bounded)
    (hJ : s.height ≠ 0 ∨ s.latestKnownBlock.Height ≠ 0) :
    (tick poll t s).1.Bounded ∧
    ((tick poll t s).1.height ≠ 0 ∨ (tick poll t s).1.latestKnownBlock.Height ≠ 0) ∧
    (((tick poll t s).1.channel = s.channel ∧
        (s.height ≠ 0 → (tick poll t s).1.height = s.height)) ∨
      ∃ r : BlockResult, (tick poll t s).1.channel = s.channel ++ [r] ∧
        r.Block.Height = (tick poll t s).1.height ∧ (tick poll t s).1.height ≠ 0 ∧
        (s.height ≠ 0 → (tick poll t s).1.height = s.height + 1)) := by
  obtain ⟨hB1, hB2⟩ := hB
  rcases tick_cases poll t s with ⟨hc, hh, hl⟩ | ⟨_, r, hf, hc, hh, hl⟩
  · have hL : (tick poll t s).1.latestKnownBlock.Height < 2 ^ 64 - 1 := by
      rcases hl with hl | ⟨_, hl⟩
      · rw [hl]; exact hB2
      · exact hwf.2 _ hl
    by_cases h0 : s.height = 0
    · have hLne : s.latestKnownBlock.Height ≠ 0 := by
        rcases hJ with hJ | hJ
        · exact absurd h0 hJ
        · exact hJ
      have hsame : (tick poll t s).1.latestKnownBlock = s.latestKnownBlock := by
        rcases hl with hl | ⟨hlt, _⟩
        · exact hl
        · rw [nextBlockToProcess_of_zero s h0] at hlt
          exact absurd hlt (lt_irrefl _)
      refine ⟨⟨?_, hL⟩, Or.inr (by rw [hsame]; exact hLne), Or.inl ⟨hc, fun h => absurd h0 h⟩⟩
      rcases hh with hh | ⟨_, hh⟩
      · rw [hh]; exact hB1
      · rw [hh]; exact hB2
    · have hsame : (tick poll t s).1.height = s.height := by
        rcases hh with hh | ⟨hz, _⟩
        · exact hh
        · exact absurd hz h0
      exact ⟨⟨by rw [hsame]; exact hB1, hL⟩, Or.inl (by rw [hsame]; exact h0),
        Or.inl ⟨hc, fun _ => hsame⟩⟩
  · have hle := processed_candidate_le_head poll t s r.Block hf
    have hblock : r.Block.Height = nextBlockToProcess s := by
      rcases fetchBlock_block t _ _ r.Block hf with ⟨_, hg⟩ | ⟨h1, h2⟩
      · exact hwf.1 _ _ hg
      · rw [h2, h1]
    have hne : nextBlockToProcess s ≠ 0 := by
      by_cases h0 : s.height = 0
      · rw [nextBlockToProcess_of_zero s h0]
        rcases hJ with hJ | hJ
        · exact absurd h0 hJ
        · exact hJ
      · rw [nextBlockToProcess_of_ne_zero s h0 hB1]
        exact Nat.succ_ne_zero _
    refine ⟨⟨?_, by rw [hl]; exact hB2⟩, Or.inl (by rw [hh]; exact hne), Or.inr ⟨r, hc, ?_, ?_, ?_⟩⟩
    · rw [hh]; omega
    · rw [hh, hblock]
    · rw [hh]; exact hne
    · intro h0
      rw [hh, nextBlockToProcess_of_ne_zero s h0 hB1]

theorem runTicks_cons_none {CV : Type} (poll : Int) (t : Tick CV) (rest : List (Tick CV))
    (s : StreamState) (h : (tick poll t s).2 = none) :
    runTicks poll (t :: rest) s = runTicks poll rest (tick poll t s).1 := by
  rw [runTicks]
  cases hk : tick poll t s with
  | mk s1 o =>
    rw [hk] at h
    simp only at h
    subst h
    rfl

theorem runTicks_cons_some {CV : Type} (poll : Int) (t : Tick CV) (rest : List (Tick CV))
    (s : StreamState) (f : Failure) (h : (tick poll t s).2 = some f) :
    runTicks poll (t :: rest) s = ((tick poll t s).1, some f) := by
  rw [runTicks]
  cases hk : tick poll t s with
  | mk s1 o =>
    rw [hk] at h
    simp only at h
    subst h
    rfl

/-- On well-formed answers, from heights that are bounded and not both 0, the results a
run sends are for consecutive heights, the first being one more than the height of the
stream when that is not 0. -/
theorem runTicks_consecutive {CV : Type} (poll : Int) (ticks : List (Tick CV))
    (s : StreamState) (hwf : ∀ t ∈ ticks, t.WellFormed) (hB : s.Bounded)
    (hJ : s.height ≠ 0 ∨ s.latestKnownBlock.Height ≠ 0) :
    ∃ sent : List BlockResult, (runTicks poll ticks s).1.channel = s.channel ++ sent ∧
      Consecutive (sentHeights sent) ∧
      (s.height ≠ 0 → ∀ h, (sentHeights sent).head? = some h → h = s.height + 1) := by
  induction ticks generalizing s with
  | nil =>
    refine ⟨[], by simp [runTicks], List.chain'_nil, ?_⟩
    intro _ h hh
    cases hh
  | cons t rest ih =>
    obtain ⟨hB1, hJ1, hstep⟩ := tick_step poll t s (hwf t (List.mem_cons_self _ _)) hB hJ
    have hwf2 : ∀ t2 ∈ rest, t2.WellFormed := fun t2 h2 => hwf t2 (List.mem_cons_of_mem _ h2)
    cases ho : (tick poll t s).2 with
    | some f =>
      rw [runTicks_cons_some poll t rest s f ho]
      rcases hstep with ⟨hc, _⟩ | ⟨r, hc, hr, _, hnext⟩
      · refine ⟨[], by simp [hc], List.chain'_nil, ?_⟩
        intro _ h hh
        cases hh
      · refine ⟨[r], hc, List.chain'_singleton _, ?_⟩
        intro h0 h hh
        simp only [sentHeights, List.map_cons, List.map_nil, List.head?_cons,
          Option.some.injEq] at hh
        rw [← hh, hr, hnext h0]
    | none =>
      rw [runTicks_cons_none poll t rest s ho]
      obtain ⟨sent2, hc2, hchain2, hhead2⟩ := ih (tick poll t s).1 hwf2 hB1 hJ1
      rcases hstep with ⟨hc, hsame⟩ | ⟨r, hc, hr, hne, hnext⟩
      · refine ⟨sent2, by rw [hc2, hc], hchain2, ?_⟩
        intro h0 h hh
        rw [← hsame h0]
        exact hhead2 (by rw [hsame h0]; exact h0) h hh
      · refine ⟨r :: sent2, by rw [hc2, hc, List.append_assoc]; rfl, ?_, ?_⟩
        · have : sentHeights (r :: sent2) = r.Block.Height :: sentHeights sent2 := rfl
          rw [this]
          unfold Consecutive
          rw [List.chain'_cons']
          refine ⟨?_, hchain2⟩
          intro y hy
          rw [Option.mem_def] at hy
          rw [hr]
          exact hhead2 hne y hy
        · intro h0 h hh
          have : sentHeights (r :: sent2) = r.Block.Height :: sentHeights sent2 := rfl
          rw [this] at hh
          simp only [List.head?_cons, Option.some.injEq] at hh
          rw [← hh, hr, hnext h0]

/-- With the height and the head both at 0, a pass that succeeds sends the head block
and leaves the height at 0 and the head as it was. -/
theorem tick_head_at_zero {CV : Type} (poll : Int) (t : Tick CV) (s : StreamState)
    (hzero : s.height = 0) (hhead : s.latestKnownBlock.Height = 0)
    (hsucc : t.Succeeds s.latestKnownBlock) :
    (tick poll t s).2 = none ∧
    sentHeights (tick poll t s).1.channel = sentHeights s.channel ++ [0] ∧
    (tick poll t s).1.height = 0 ∧
    (tick poll t s).1.latestKnownBlock = s.latestKnownBlock := by
  obtain ⟨htimer, hsend, tx, sys, hok⟩ := hsucc
  have hnext := nextBlockToProcess_of_zero s hzero
  have hfetch : fetchBlock t (enterTick poll s) (nextBlockToProcess s) =
      .block s.latestKnownBlock := by
    unfold fetchBlock
    rw [hnext, (enterTick_fields poll s).1, if_neg (lt_irrefl _), if_neg (by simp)]
  have htick : tick poll t s =
      processBlock t (enterTick poll s) (nextBlockToProcess s) s.latestKnownBlock := by
    rw [tick_of_timer poll t s htimer, hfetch]
  rw [htick, processBlock_ok t _ _ _ tx sys hok hsend]
  refine ⟨rfl, ?_, ?_, rfl⟩
  · simp only [sentHeights, List.map_append, List.map_cons, List.map_nil, hhead]
    rfl
  · simp only [hnext, hhead]

/-- With the height and the head both at 0, a run of passes that all succeed sends the
block at height 0 once in every pass. -/
theorem runTicks_at_zero {CV : Type} (poll : Int) (ticks : List (Tick CV)) (s : StreamState)
    (hzero : s.height = 0) (hhead : s.latestKnownBlock.Height = 0)
    (hsucc : ∀ t ∈ ticks, t.Succeeds s.latestKnownBlock) :
    (runTicks poll ticks s).2 = none ∧
    sentHeights (runTicks poll ticks s).1.channel =
      sentHeights s.channel ++ List.replicate ticks.length 0 := by
  induction ticks generalizing s with
  | nil => simp [runTicks]
  | cons t rest ih =>
    obtain ⟨h1, h2, h3, h4⟩ := tick_head_at_zero poll t s hzero hhead
      (hsucc t (List.mem_cons_self _ _))
    rw [runTicks_cons_none poll t rest s h1]
    obtain ⟨h5, h6⟩ := ih (tick poll t s).1 h3 (by rw [h4]; exact hhead)
      (fun t2 h2 => by rw [h4]; exact hsucc t2 (List.mem_cons_of_mem _ h2))
    refine ⟨h5, ?_⟩
    rw [h6, h2, List.append_assoc, List.length_cons, List.replicate_succ]
    rfl

/-- C21, as the code behaves: in every pass the height changes only by the substitution
of the head height for a height of 0 or together with the sending of a result; a
candidate height that is processed is at most the height of the last-known head; on
well-formed answers, with heights below the largest `uint64` and not both the starting
height and the head height 0, the heights of the results a run sends are consecutive;
but started at height 0 with the head at height 0, a run of passes that all succeed
sends the block at height 0 in every pass. -/
theorem stream_height_discipline {CV : Type} (poll : Int) (latest : Block) (height : Nat)
    (ticks : List (Tick CV)) :
    (∀ (t : Tick CV) (s : StreamState), (tick poll t s).1.height ≠ s.height →
      (s.height = 0 ∧ (tick poll t s).1.height = s.latestKnownBlock.Height ∧
        (tick poll t s).1.channel = s.channel) ∨
      ∃ r : BlockResult, (tick poll t s).1.channel = s.channel ++ [r] ∧
        (tick poll t s).1.height = nextBlockToProcess s) ∧
    (∀ (t : Tick CV) (s : StreamState) (block : Block),
      fetchBlock t (enterTick poll s) (nextBlockToProcess s) = .block block →
      nextBlockToProcess s ≤ s.latestKnownBlock.Height) ∧
    ((∀ t ∈ ticks, t.WellFormed) → height < 2 ^ 64 - 1 → latest.Height < 2 ^ 64 - 1 →
      (height ≠ 0 ∨ latest.Height ≠ 0) →
      Consecutive (sentHeights (StreamTransactions (.ok (some latest)) poll height ticks).1)) ∧
    (latest.Height = 0 → (∀ t ∈ ticks, t.Succeeds latest) →
      sentHeights (StreamTransactions (.ok (some latest)) poll 0 ticks).1 =
        List.replicate ticks.length 0) := by
  refine ⟨?_, ?_, ?_, ?_⟩
  · intro t s hne
    rcases tick_cases poll t s with ⟨hc, hh, _⟩ | ⟨_, r, _, hc, hh, _⟩
    · rcases hh with hh | ⟨h0, hh⟩
      · exact absurd hh hne
      · exact Or.inl ⟨h0, hh, hc⟩
    · exact Or.inr ⟨r, hc, hh⟩
  · intro t s block h
    exact processed_candidate_le_head poll t s block h
  · intro hwf hH hL hJ
    obtain ⟨sent, hc, hchain, _⟩ := runTicks_consecutive poll ticks
      { height := height, latestKnownBlock := latest, sleep := poll, channel := [] }
      hwf ⟨hH, hL⟩ hJ
    have : (StreamTransactions (.ok (some latest)) poll height ticks).1 =
        (runTicks poll ticks
          { height := height, latestKnownBlock := latest, sleep := poll, channel := [] }).1.channel :=
      rfl
    rw [this, hc, List.nil_append]
    exact hchain
  · intro hL hsucc
    have h := (runTicks_at_zero poll ticks
      { height := 0, latestKnownBlock := latest, sleep := poll, channel := [] }
      rfl hL hsucc).2
    have : (StreamTransactions (.ok (some latest)) poll 0 ticks).1 =
        (runTicks poll ticks
          { height := 0, latestKnownBlock := latest, sleep := poll, channel := [] }).1.channel :=
      rfl
    rw [this, h]
    rfl

theorem exampleTick_wellFormed (h : Nat) (hb : h < 2 ^ 64 - 1)
    (fetch : Except String (List Transaction × List TransactionResult)) :
    (exampleTick (some (blockAt h)) fetch).WellFormed := by
  constructor
  · intro n b hn
    simp only [exampleTick, Except.ok.injEq] at hn
    rw [← hn]
  · intro b hbl
    simp only [exampleTick, Except.ok.injEq, Option.some.injEq] at hbl
    rw [← hbl]
    exact hb

/-- Witness for C21: started at height 3 with the head at 5, three passes send the
blocks at heights 4 and 5; started at height 0 with the head at 0, two passes send the
block at height 0 twice, which are not consecutive heights. -/
theorem stream_height_discipline_witness :
    Consecutive (sentHeights (StreamTransactions (.ok (some (blockAt 5))) examplePoll 3
      [exampleTick (some (blockAt 5)) (.ok exampleBlock),
       exampleTick (some (blockAt 5)) (.ok exampleBlock),
       exampleTick (some (blockAt 5)) (.ok exampleBlock)]).1) ∧
    sentHeights (StreamTransactions (.ok (some (blockAt 5))) examplePoll 3
      [exampleTick (some (blockAt 5)) (.ok exampleBlock),
       exampleTick (some (blockAt 5)) (.ok exampleBlock),
       exampleTick (some (blockAt 5)) (.ok exampleBlock)]).1 = [4, 5] ∧
    sentHeights (StreamTransactions (.ok (some (blockAt 0))) examplePoll 0
      [exampleTick (some (blockAt 0)) (.ok exampleBlock),
       exampleTick (some (blockAt 0)) (.ok exampleBlock)]).1 = [0, 0] ∧
    ¬ Consecutive [0, 0] := by
  refine ⟨?_, by decide, ?_, by simp [Consecutive]⟩
  · apply (stream_height_discipline examplePoll (blockAt 5) 3 _).2.2.1
    · intro t ht
      simp only [List.mem_cons, List.mem_singleton, List.not_mem_nil, or_false, or_self] at ht
      subst ht
      exact exampleTick_wellFormed 5 (by decide) _
    · decide
    · decide
    · exact Or.inl (by decide)
  · refine ((stream_height_discipline examplePoll (blockAt 0) 0 _).2.2.2 rfl ?_).trans rfl
    intro t ht
    simp only [List.mem_cons, List.mem_singleton, List.not_mem_nil, or_false, or_self] at ht
    subst ht
    exact ⟨rfl, rfl, _, _, rfl⟩

end Overflow
